import Mathlib

/-!
# pebble-compass: the data provider (`src/data_provider.c`)

A shallow embedding of the angle/orientation engine and a verification of its
specification.

* C `float` is IEEE-754 binary32.  A finite binary32 value is modelled by the rational
  number it denotes; every arithmetic operation is the exact rational operation followed by
  `roundF32` (round to nearest, ties to even, 24 significant bits, gradual underflow at
  `2 ^ (-149)`).  Infinities and NaN are outside the model.
* `int32_t` / `int16_t` values are integers; arithmetic that can overflow is wrapped
  explicitly (`wrap_int32`, `wrap_int16`).
* The platform services used by the engine (timers, animations, sensor subscriptions) are
  explicit state (`Platform`); the engine together with the platform is a `World`.
* Handlers are function pointers; the code behind a pointer is supplied by an environment
  `env : Nat → World → World`.
-/

namespace Compass

/-! ## Definitions -/

/-! ### binary32 arithmetic -/

/-- Round a rational to the nearest integer, ties to the even integer. -/
def rne (q : ℚ) : ℤ :=
  if q - ⌊q⌋ < 1 / 2 then ⌊q⌋
  else if 1 / 2 < q - ⌊q⌋ then ⌊q⌋ + 1
  else if ⌊q⌋ % 2 = 0 then ⌊q⌋ else ⌊q⌋ + 1

/-- The integer `n` is a nearest integer of `q`, and the even one at a tie. -/
def IsRne (q : ℚ) (n : ℤ) : Prop :=
  |q - n| < 1 / 2 ∨ (|q - n| = 1 / 2 ∧ n % 2 = 0)

/-- Exponent of the unit in the last place of the binary32 values in the binade of `q`:
24 significant bits, and never below the subnormal spacing `2 ^ (-149)`. -/
def ulpExp (q : ℚ) : ℤ := max (Int.log 2 |q| - 23) (-149)

/-- Binary32 rounding of an exact result: round to nearest, ties to even. -/
def roundF32 (q : ℚ) : ℚ := rne (q / 2 ^ ulpExp q) * 2 ^ ulpExp q

/-- Binary32 multiplication `a * b`. -/
def f32_mul (a b : ℚ) : ℚ := roundF32 (a * b)

/-- Binary32 addition `a + b`. -/
def f32_add (a b : ℚ) : ℚ := roundF32 (a + b)

/-- Binary32 subtraction `a - b`. -/
def f32_sub (a b : ℚ) : ℚ := roundF32 (a - b)

/-- Binary32 division `a / b`. -/
def f32_div (a b : ℚ) : ℚ := roundF32 (a / b)

/-- Conversion of an integer to `float`. -/
def float_of_int (n : ℤ) : ℚ := roundF32 n

/-- Truncation toward zero: the integral part kept by a C cast from `float` to an integer
type. -/
def truncate (q : ℚ) : ℤ := if 0 ≤ q then ⌊q⌋ else -⌊-q⌋

/-- Two-complement wrap of an integer into the `int32_t` range. -/
def wrap_int32 (z : ℤ) : ℤ := (z + 2 ^ 31) % 2 ^ 32 - 2 ^ 31

/-- Two-complement wrap of an integer into the `int16_t` range. -/
def wrap_int16 (z : ℤ) : ℤ := (z + 2 ^ 15) % 2 ^ 16 - 2 ^ 15

/-- The cast `(int32_t) x` of a `float`. -/
def int32_of_float (q : ℚ) : ℤ := wrap_int32 (truncate q)

/-- The cast `(int16_t) x` of a `float`. -/
def int16_of_float (q : ℚ) : ℤ := wrap_int16 (truncate q)

/-- The value is within the `int32_t` range. -/
def InInt32 (z : ℤ) : Prop := -2 ^ 31 ≤ z ∧ z < 2 ^ 31

/-- The value is within the `int16_t` range. -/
def InInt16 (z : ℤ) : Prop := -2 ^ 15 ≤ z ∧ z < 2 ^ 15

instance (z : ℤ) : Decidable (InInt32 z) := by unfold InInt32; infer_instance

instance (z : ℤ) : Decidable (InInt16 z) := by unfold InInt16; infer_instance

/-- The rational is a binary32 value: rounding leaves it unchanged. -/
def IsF32 (q : ℚ) : Prop := roundF32 q = q

instance (q : ℚ) : Decidable (IsF32 q) := by unfold IsF32; infer_instance

/-! ### data model -/

/-- Modelled from the spec: the enumeration `DataProviderOrientation` of `data_provider.h`,
which is not among the sources; the code names the enumerator
`DataProviderOrientationUpright` and `DataProviderOrientationFlat`. -/
inductive DataProviderOrientation where
  | Flat
  | Upright
  deriving DecidableEq, Repr

/-- The accelerometer sample `AccelData` of the platform: three `int16_t` axes, the
vibration flag and the time stamp. -/
structure AccelData where
  x : ℤ
  y : ℤ
  z : ℤ
  did_vibrate : Bool
  timestamp : ℕ
  deriving DecidableEq, Repr

/-- The compass sample `CompassHeadingData` of the platform. -/
structure CompassHeadingData where
  magnetic_heading : ℤ
  true_heading : ℤ
  compass_status : ℕ
  is_declination_valid : Bool
  deriving DecidableEq, Repr

/-- Modelled from the spec: the handler table `DataProviderHandlers` of `data_provider.h`,
which is not among the sources.  Each field is a function pointer, `none` being `NULL`. -/
structure DataProviderHandlers where
  presented_angle_or_accel_data_changed : Option ℕ
  orientation_changed : Option ℕ
  orientation_transition_factor_changed : Option ℕ
  input_accel_data_changed : Option ℕ
  input_heading_changed : Option ℕ
  deriving DecidableEq, Repr

/-- The engine state `DataProviderState`.  `timer` and `orientation_animation` are
pointers to platform objects, `none` being `NULL`. -/
structure DataProviderState where
  target_angle : ℤ
  angular_velocity : ℤ
  presentation_angle : ℤ
  friction : ℚ
  attraction : ℚ
  timer : Option ℕ
  handlers : DataProviderHandlers
  user_data : ℕ
  orientation : DataProviderOrientation
  orientation_transition_factor : ℚ
  orientation_animation_start_value : ℚ
  orientation_animation : Option ℕ
  last_accel_data : AccelData
  damped_accel_data : AccelData
  heading : CompassHeadingData
  deriving DecidableEq

/-! ### platform services -/

/-- The callbacks the engine registers with the timer service. -/
inductive AppTimerCallback where
  | update_state
  deriving DecidableEq, Repr

/-- The update callbacks the engine installs in an animation. -/
inductive AnimationImplementation where
  | transition_animation
  deriving DecidableEq, Repr

/-- A registered one-shot timer that has neither fired nor been cancelled. -/
structure AppTimer where
  handle : ℕ
  timeout_ms : ℕ
  callback : AppTimerCallback
  deriving DecidableEq, Repr

/-- An animation object of the platform.  `context_is_state` records that `context` points
at the engine state. -/
structure Animation where
  duration_ms : ℕ
  context_is_state : Bool
  implementation : Option AnimationImplementation
  scheduled : Bool
  deriving DecidableEq, Repr

/-- Modelled from the spec: the platform services of `pebble.h` (scheduler, animation
driver, sensor subscriptions), which are not among the sources.  `timers` are the
outstanding one-shot timers, `animations` the animation objects created so far (an
`Animation *` is an index into this list), `app` is the memory of the embedding
application, the only state a handler owns. -/
structure Platform where
  timers : List AppTimer
  timer_handles : ℕ
  animations : List Animation
  accel_subscribed : Bool
  compass_subscribed : Bool
  app : List ℕ
  deriving DecidableEq, Repr

/-- The engine state together with the platform it runs on. -/
structure World where
  state : DataProviderState
  sys : Platform
  deriving DecidableEq

/-- Apply `f` to the element at position `i` of a list. -/
def modifyAt {α : Type} (f : α → α) : ℕ → List α → List α
  | _, [] => []
  | 0, a :: l => f a :: l
  | n + 1, a :: l => a :: modifyAt f n l

/-- Modelled from the spec: `app_timer_register(timeout_ms, callback, data)` of the
platform scheduler; it hands out a fresh handle and keeps the timer outstanding. -/
def app_timer_register (p : Platform) (timeout_ms : ℕ) (callback : AppTimerCallback) :
    ℕ × Platform :=
  (p.timer_handles + 1,
    { p with
      timers := p.timers ++ [⟨p.timer_handles + 1, timeout_ms, callback⟩]
      timer_handles := p.timer_handles + 1 })

/-- Modelled from the spec: `app_timer_cancel(handle)` of the platform scheduler. -/
def app_timer_cancel (p : Platform) (handle : ℕ) : Platform :=
  { p with timers := p.timers.filter (fun t => t.handle != handle) }

/-- Modelled from the spec: `animation_create()` of the platform animation driver; the new
object is not scheduled. -/
def animation_create (p : Platform) : ℕ × Platform :=
  (p.animations.length, { p with animations := p.animations ++ [⟨0, false, none, false⟩] })

/-- Modelled from the spec: `animation_schedule(animation)` of the platform animation
driver. -/
def animation_schedule (p : Platform) (a : ℕ) : Platform :=
  { p with animations := modifyAt (fun x => { x with scheduled := true }) a p.animations }

/-- Modelled from the spec: `animation_unschedule(animation)` of the platform animation
driver. -/
def animation_unschedule (p : Platform) (a : ℕ) : Platform :=
  { p with animations := modifyAt (fun x => { x with scheduled := false }) a p.animations }

/-- Modelled from the spec: `accel_data_service_unsubscribe()` of the platform. -/
def accel_data_service_unsubscribe (p : Platform) : Platform :=
  { p with accel_subscribed := false }

/-- Modelled from the spec: `compass_service_unsubscribe()` of the platform. -/
def compass_service_unsubscribe (p : Platform) : Platform :=
  { p with compass_subscribed := false }

/-- The platform before the engine is created. -/
def Platform.boot : Platform :=
  { timers := [], timer_handles := 0, animations := [], accel_subscribed := false,
    compass_subscribed := false, app := [] }

/-! ### the engine -/

/-- `call_handler_if_set`: run the code behind a handler pointer unless it is `NULL`. -/
def call_handler_if_set (env : ℕ → World → World) (w : World) (handler : Option ℕ) : World :=
  match handler with
  | some h => env h w
  | none => w

/-- `schedule_update`: register the tick timer unless one is already stored. -/
def schedule_update (w : World) : World :=
  match w.state.timer with
  | some _ => w
  | none =>
    let r := app_timer_register w.sys (1000 / 30) AppTimerCallback.update_state
    { state := { w.state with timer := some r.1 }, sys := r.2 }

/-- `update_state`: one tick of the angle simulation. -/
def update_state (env : ℕ → World → World) (w : World) : World :=
  let s := w.state
  let presentation_angle := wrap_int32 (s.presentation_angle + s.angular_velocity)
  let attraction := int32_of_float
    (f32_mul (float_of_int (wrap_int32 (s.target_angle - presentation_angle))) s.attraction)
  let angular_velocity := wrap_int32 (s.angular_velocity + attraction)
  let angular_velocity := int32_of_float (f32_mul (float_of_int angular_velocity) s.friction)
  let w1 : World :=
    { w with state := { s with presentation_angle := presentation_angle
                               angular_velocity := angular_velocity } }
  let w2 := call_handler_if_set env w1 w1.state.handlers.presented_angle_or_accel_data_changed
  let heading := w2.state.heading.magnetic_heading
  let w3 : World := { w2 with state := { w2.state with target_angle := heading } }
  let w4 : World := { w3 with state := { w3.state with timer := none } }
  schedule_update w4

/-- `data_provider_get_presentation_angle`. -/
def data_provider_get_presentation_angle (w : World) : ℤ := w.state.presentation_angle

/-- `data_provider_get_target_angle`. -/
def data_provider_get_target_angle (w : World) : ℤ := w.state.target_angle

/-- `data_provider_set_target_angle`. -/
def data_provider_set_target_angle (w : World) (angle : ℤ) : World :=
  schedule_update
    { w with state := { w.state with
        target_angle := angle
        heading := { w.state.heading with magnetic_heading := angle, true_heading := angle } } }

/-- `data_provider_delta_heading_angle`. -/
def data_provider_delta_heading_angle (w : World) (delta : ℤ) : World :=
  schedule_update
    { w with state := { w.state with
        heading := { w.state.heading with
          magnetic_heading := wrap_int32 (w.state.heading.magnetic_heading + delta)
          true_heading := wrap_int32 (w.state.heading.true_heading + delta) } } }

/-- `data_provider_set_orientation_transition_factor`. -/
def data_provider_set_orientation_transition_factor (env : ℕ → World → World) (w : World)
    (factor : ℚ) : World :=
  let w1 : World := { w with state := { w.state with orientation_transition_factor := factor } }
  call_handler_if_set env w1 w1.state.handlers.orientation_transition_factor_changed

/-- `data_provider_get_orientation_transition_factor`. -/
def data_provider_get_orientation_transition_factor (w : World) : ℚ :=
  w.state.orientation_transition_factor

/-- `data_provider_update_transition_factor`, the update callback of the transition
animation.  `ANIMATION_NORMALIZED_MAX` is a constant of `pebble.h`, which is not among the
sources, and is taken as a parameter. -/
def data_provider_update_transition_factor (env : ℕ → World → World)
    (ANIMATION_NORMALIZED_MAX : ℕ) (w : World) (time_normalized : ℕ) : World :=
  let f := f32_div (float_of_int time_normalized) (float_of_int ANIMATION_NORMALIZED_MAX)
  let target : ℚ :=
    if w.state.orientation = DataProviderOrientation.Upright then 1 else 0
  data_provider_set_orientation_transition_factor env w
    (f32_add (f32_mul target f)
      (f32_mul (f32_sub 1 f) w.state.orientation_animation_start_value))

/-- `data_provider_set_orientation`. -/
def data_provider_set_orientation (env : ℕ → World → World) (w : World)
    (orientation : DataProviderOrientation) : World :=
  if w.state.orientation = orientation then w
  else
    let w1 : World := { w with state := { w.state with orientation := orientation } }
    let w2 := call_handler_if_set env w1 w1.state.handlers.orientation_changed
    let w3 : World :=
      match w2.state.orientation_animation with
      | none =>
        let r := animation_create w2.sys
        { state := { w2.state with orientation_animation := some r.1 }
          sys := { r.2 with
            animations := modifyAt
              (fun x => { x with
                duration_ms := 200
                context_is_state := true
                implementation := some AnimationImplementation.transition_animation })
              r.1 r.2.animations } }
      | some a => { w2 with sys := animation_unschedule w2.sys a }
    let w4 : World :=
      { w3 with state := { w3.state with
          orientation_animation_start_value := w3.state.orientation_transition_factor } }
    match w4.state.orientation_animation with
    | some a => { w4 with sys := animation_schedule w4.sys a }
    | none => w4

/-- `data_provider_get_orientation`. -/
def data_provider_get_orientation (w : World) : DataProviderOrientation := w.state.orientation

/-- One axis of `merge_accel_data`:
`(int16_t) (next * factor + (1 - factor) * dest)`. -/
def merge_axis (dest next : ℤ) (factor : ℚ) : ℤ :=
  int16_of_float
    (f32_add (f32_mul (float_of_int next) factor)
      (f32_mul (f32_sub 1 factor) (float_of_int dest)))

/-- `merge_accel_data`. -/
def merge_accel_data (dest next : AccelData) (factor : ℚ) : AccelData :=
  { did_vibrate := next.did_vibrate
    timestamp := next.timestamp
    x := merge_axis dest.x next.x factor
    y := merge_axis dest.y next.y factor
    z := merge_axis dest.z next.z factor }

/-- `data_provider_handle_accel_data`; only the first sample of the batch is read.  The
`double` literals `0.99` and `0.3` are converted to the `float` parameter. -/
def data_provider_handle_accel_data (env : ℕ → World → World) (w : World) (data : AccelData)
    (_num_samples : ℕ) : World :=
  let s1 : DataProviderState :=
    { w.state with
      last_accel_data := merge_accel_data w.state.last_accel_data data (roundF32 (99 / 100)) }
  let s2 : DataProviderState :=
    { s1 with
      damped_accel_data := merge_accel_data s1.damped_accel_data data (roundF32 (3 / 10)) }
  let w1 : World := { w with state := s2 }
  let w2 := call_handler_if_set env w1 w1.state.handlers.input_accel_data_changed
  if w2.state.damped_accel_data.y < -700 then
    data_provider_set_orientation env w2 DataProviderOrientation.Upright
  else if w2.state.damped_accel_data.y > -500 then
    data_provider_set_orientation env w2 DataProviderOrientation.Flat
  else w2

/-- `data_provider_last_accel_data`. -/
def data_provider_last_accel_data (w : World) : AccelData := w.state.last_accel_data

/-- `data_provider_handle_compass_data`. -/
def data_provider_handle_compass_data (env : ℕ → World → World) (w : World)
    (heading : CompassHeadingData) : World :=
  let w1 : World := { w with state := { w.state with heading := heading } }
  call_handler_if_set env w1 w1.state.handlers.input_heading_changed

/-- `data_provider_create`.  `memset` leaves every field zero; `orientation0` is the
enumerator of `DataProviderOrientation` whose value is zero (the header is not among the
sources).  The `double` literals `0.9` and `0.05` are converted to `float` fields. -/
def data_provider_create (p : Platform) (orientation0 : DataProviderOrientation)
    (user_data : ℕ) (handlers : DataProviderHandlers) : World :=
  schedule_update
    { state :=
        { target_angle := 0
          angular_velocity := 0
          presentation_angle := 0
          friction := roundF32 (9 / 10)
          attraction := roundF32 (1 / 20)
          timer := none
          handlers := handlers
          user_data := user_data
          orientation := orientation0
          orientation_transition_factor := 0
          orientation_animation_start_value := 0
          orientation_animation := none
          last_accel_data := ⟨0, 0, 0, false, 0⟩
          damped_accel_data := ⟨0, 0, 0, false, 0⟩
          heading := ⟨0, 0, 0, false⟩ }
      sys := p }

/-- `data_provider_destroy`; the engine state is freed, the platform remains. -/
def data_provider_destroy (w : World) : Platform :=
  let p :=
    match w.state.timer with
    | some h => app_timer_cancel w.sys h
    | none => w.sys
  compass_service_unsubscribe (accel_data_service_unsubscribe p)

/-- The platform fires the outstanding timer `handle`: a one-shot timer is consumed and its
callback `update_state` runs.  A handle that is not outstanding does nothing. -/
def app_timer_fire (env : ℕ → World → World) (w : World) (handle : ℕ) : World :=
  if w.sys.timers.any (fun t => t.handle == handle) then
    update_state env
      { w with sys := { w.sys with timers := w.sys.timers.filter (fun t => t.handle != handle) } }
  else w

/-! ### the tick, in the words of the specification -/

/-- The pull of a tick: `trunc ((target_angle - presentation_angle') * attraction)`, where
`presentation_angle'` is the presentation angle already advanced by the velocity. -/
def tick_pull (s : DataProviderState) : ℤ :=
  truncate (f32_mul
    (float_of_int (s.target_angle - (s.presentation_angle + s.angular_velocity))) s.attraction)

/-- The velocity after a tick: `trunc ((angular_velocity + pull) * friction)`. -/
def tick_velocity (s : DataProviderState) : ℤ :=
  truncate (f32_mul (float_of_int (s.angular_velocity + tick_pull s)) s.friction)

/-- No `int32_t` operation of a tick overflows: the two sums, the difference and the two
casts from `float` stay in range. -/
def TickInRange (s : DataProviderState) : Prop :=
  InInt32 (s.presentation_angle + s.angular_velocity) ∧
  InInt32 (s.target_angle - (s.presentation_angle + s.angular_velocity)) ∧
  InInt32 (tick_pull s) ∧
  InInt32 (s.angular_velocity + tick_pull s) ∧
  InInt32 (tick_velocity s)

/-- The handlers leave the two simulated fields alone; the public interface has no mutator
for the presentation angle or the angular velocity. -/
def KeepsSimulation (env : ℕ → World → World) : Prop :=
  ∀ h v, (env h v).state.presentation_angle = v.state.presentation_angle ∧
    (env h v).state.angular_velocity = v.state.angular_velocity

/-- A freshly created engine on a booted platform: Flat, at rest, without handlers. -/
def World.rest : World :=
  data_provider_create Platform.boot DataProviderOrientation.Flat 0
    ⟨none, none, none, none, none⟩

/-- C integer division: the quotient truncated toward zero. -/
def tquot (n d : ℤ) : ℤ := if 0 ≤ n then n / d else -(-n / d)

/-- The handlers only observe the engine: running one leaves the engine state as it is. -/
def Observer (env : ℕ → World → World) : Prop := ∀ h v, (env h v).state = v.state

/-- The potential of the angle simulation: the squared error after the next advance of the
presentation angle plus 29 times the squared velocity. -/
def tick_potential (s : DataProviderState) : ℤ :=
  (s.target_angle - s.presentation_angle - s.angular_velocity) ^ 2 + 29 * s.angular_velocity ^ 2

/-- The states of a simulation toward the constant target `T` with the constants of
`data_provider_create`, within the bound of the potential. -/
def TickInv (T : ℤ) (s : DataProviderState) : Prop :=
  s.target_angle = T ∧ s.heading.magnetic_heading = T ∧
  s.attraction = roundF32 (1 / 20) ∧ s.friction = roundF32 (9 / 10) ∧
  |T| ≤ 2 ^ 20 ∧ tick_potential s ≤ 38 * 2 ^ 40

/-- The world after the two merges of `data_provider_handle_accel_data`, before the
notification and the orientation decision. -/
def accel_merged (w : World) (data : AccelData) : World :=
  { w with state := { w.state with
      last_accel_data := merge_accel_data w.state.last_accel_data data (roundF32 (99 / 100))
      damped_accel_data :=
        merge_accel_data w.state.damped_accel_data data (roundF32 (3 / 10)) } }

/-- The world after the merges and the notification `input_accel_data_changed`, before the
orientation decision. -/
def accel_notified (env : ℕ → World → World) (w : World) (data : AccelData) : World :=
  call_handler_if_set env (accel_merged w data) w.state.handlers.input_accel_data_changed

/-- Repeated delivery of the constant sample `S` to `data_provider_handle_accel_data`. -/
def accel_repeat (env : ℕ → World → World) (S : AccelData) (n : ℕ) (w : World) : World :=
  (fun v => data_provider_handle_accel_data env v S 1)^[n] w

/-- The three axes are `int16_t` values. -/
def AccelInInt16 (a : AccelData) : Prop := InInt16 a.x ∧ InInt16 a.y ∧ InInt16 a.z

/-- Every axis of `a` is within `b` of the same axis of `S`. -/
def AccelWithin (b : ℤ) (a S : AccelData) : Prop :=
  |a.x - S.x| ≤ b ∧ |a.y - S.y| ≤ b ∧ |a.z - S.z| ≤ b

/-- On every axis the error of `a'` against `S` is at most `num / den` times the error of
`a` plus one: `den * |a' - S| ≤ num * |a - S| + den`. -/
def AccelShrinks (num den : ℤ) (a a' S : AccelData) : Prop :=
  den * |a'.x - S.x| ≤ num * |a.x - S.x| + den ∧
  den * |a'.y - S.y| ≤ num * |a.y - S.y| + den ∧
  den * |a'.z - S.z| ≤ num * |a.z - S.z| + den

/-- The handlers only observe the engine and leave the animations of the platform alone. -/
def Quiet (env : ℕ → World → World) : Prop :=
  ∀ h v, (env h v).state = v.state ∧ (env h v).sys.animations = v.sys.animations

/-- The other orientation. -/
def DataProviderOrientation.other : DataProviderOrientation → DataProviderOrientation
  | DataProviderOrientation.Flat => DataProviderOrientation.Upright
  | DataProviderOrientation.Upright => DataProviderOrientation.Flat

/-- Modelled from the spec: the animation driver of the platform delivers a frame of
normalized progress `time_normalized` to the update callback of the transition animation
of the engine, provided that animation is scheduled. -/
def animation_frame (env : ℕ → World → World) (ANIMATION_NORMALIZED_MAX : ℕ) (w : World)
    (time_normalized : ℕ) : World :=
  match w.state.orientation_animation with
  | none => w
  | some a =>
    match w.sys.animations[a]? with
    | some x =>
      if x.scheduled then
        data_provider_update_transition_factor env ANIMATION_NORMALIZED_MAX w time_normalized
      else w
    | none => w

/-- A run of interrupted transitions: for each element of the list the animation driver
delivers one frame of that progress and then `data_provider_set_orientation` is called
with the other orientation. -/
def interrupted_transitions (env : ℕ → World → World) (ANIMATION_NORMALIZED_MAX : ℕ) :
    List ℕ → World → World
  | [], w => w
  | t :: ts, w =>
    interrupted_transitions env ANIMATION_NORMALIZED_MAX ts
      (data_provider_set_orientation env (animation_frame env ANIMATION_NORMALIZED_MAX w t)
        (animation_frame env ANIMATION_NORMALIZED_MAX w t).state.orientation.other)

/-- The transition animation as `data_provider_set_orientation` leaves it: 200 ms, bound to
the engine, scheduled. -/
def transition_animation_scheduled : Animation :=
  ⟨200, true, some AnimationImplementation.transition_animation, true⟩

/-- The target of the transition: 1 for Upright, 0 otherwise. -/
def transition_target (s : DataProviderState) : ℚ :=
  if s.orientation = DataProviderOrientation.Upright then 1 else 0

/-- The normalized progress `f = time_normalized / ANIMATION_NORMALIZED_MAX` in binary32. -/
def transition_progress (ANIMATION_NORMALIZED_MAX time_normalized : ℕ) : ℚ :=
  f32_div (float_of_int time_normalized) (float_of_int ANIMATION_NORMALIZED_MAX)

/-- The interpolation `target * f + (1 - f) * orientation_animation_start_value` in
binary32. -/
def transition_value (s : DataProviderState) (f : ℚ) : ℚ :=
  f32_add (f32_mul (transition_target s) f)
    (f32_mul (f32_sub 1 f) s.orientation_animation_start_value)

/-- The worlds reachable from `data_provider_create` on a platform without outstanding tick
timers, through the public operations and the sensor, tick and animation callbacks.  `ok`
restricts the factors passed to `data_provider_set_orientation_transition_factor`; the
animation driver delivers a progress of at most `ANIMATION_NORMALIZED_MAX`. -/
inductive Reachable (env : ℕ → World → World) (ANIMATION_NORMALIZED_MAX : ℕ)
    (ok : ℚ → Prop) : World → Prop where
  | create (p : Platform) (orientation0 : DataProviderOrientation) (user_data : ℕ)
      (handlers : DataProviderHandlers) (hp : p.timers = []) :
      Reachable env ANIMATION_NORMALIZED_MAX ok
        (data_provider_create p orientation0 user_data handlers)
  | set_target_angle (w : World) (angle : ℤ) :
      Reachable env ANIMATION_NORMALIZED_MAX ok w →
      Reachable env ANIMATION_NORMALIZED_MAX ok (data_provider_set_target_angle w angle)
  | delta_heading_angle (w : World) (delta : ℤ) :
      Reachable env ANIMATION_NORMALIZED_MAX ok w →
      Reachable env ANIMATION_NORMALIZED_MAX ok (data_provider_delta_heading_angle w delta)
  | set_orientation_transition_factor (w : World) (factor : ℚ) (hf : ok factor) :
      Reachable env ANIMATION_NORMALIZED_MAX ok w →
      Reachable env ANIMATION_NORMALIZED_MAX ok
        (data_provider_set_orientation_transition_factor env w factor)
  | set_orientation (w : World) (orientation : DataProviderOrientation) :
      Reachable env ANIMATION_NORMALIZED_MAX ok w →
      Reachable env ANIMATION_NORMALIZED_MAX ok
        (data_provider_set_orientation env w orientation)
  | handle_accel_data (w : World) (data : AccelData) (num_samples : ℕ) :
      Reachable env ANIMATION_NORMALIZED_MAX ok w →
      Reachable env ANIMATION_NORMALIZED_MAX ok
        (data_provider_handle_accel_data env w data num_samples)
  | handle_compass_data (w : World) (heading : CompassHeadingData) :
      Reachable env ANIMATION_NORMALIZED_MAX ok w →
      Reachable env ANIMATION_NORMALIZED_MAX ok
        (data_provider_handle_compass_data env w heading)
  | tick (w : World) (handle : ℕ) :
      Reachable env ANIMATION_NORMALIZED_MAX ok w →
      Reachable env ANIMATION_NORMALIZED_MAX ok (app_timer_fire env w handle)
  | frame (w : World) (time_normalized : ℕ) (ht : time_normalized ≤ ANIMATION_NORMALIZED_MAX) :
      Reachable env ANIMATION_NORMALIZED_MAX ok w →
      Reachable env ANIMATION_NORMALIZED_MAX ok
        (data_provider_update_transition_factor env ANIMATION_NORMALIZED_MAX w time_normalized)

/-- The handlers keep the tick timer: called while the engine stores a timer handle, they
leave that field and the outstanding timers of the platform as they are.  Every public
mutator has this property. -/
def KeepsTimer (env : ℕ → World → World) : Prop :=
  ∀ h v, v.state.timer ≠ none →
    (env h v).state.timer = v.state.timer ∧ (env h v).sys.timers = v.sys.timers

/-- Exactly one tick timer is outstanding, the one whose handle the engine stores, with a
delay of `1000 / 30` ms and the callback `update_state`. -/
def OneTick (w : World) : Prop :=
  ∃ h, w.state.timer = some h ∧
    w.sys.timers = [⟨h, 1000 / 30, AppTimerCallback.update_state⟩]

/-- The part of `data_provider_set_orientation` after the notification: create the
animation or unschedule the one at hand, capture the start value, schedule. -/
def start_transition (w2 : World) : World :=
  let w3 : World :=
    match w2.state.orientation_animation with
    | none =>
      let r := animation_create w2.sys
      { state := { w2.state with orientation_animation := some r.1 }
        sys := { r.2 with
          animations := modifyAt
            (fun x => { x with
              duration_ms := 200
              context_is_state := true
              implementation := some AnimationImplementation.transition_animation })
            r.1 r.2.animations } }
    | some a => { w2 with sys := animation_unschedule w2.sys a }
  let w4 : World :=
    { w3 with state := { w3.state with
        orientation_animation_start_value := w3.state.orientation_transition_factor } }
  match w4.state.orientation_animation with
  | some a => { w4 with sys := animation_schedule w4.sys a }
  | none => w4

/-- The engine state with the target angle, the presentation angle, the angular velocity
and the magnetic heading negated. -/
def negate_angles (s : DataProviderState) : DataProviderState :=
  { s with
    target_angle := -s.target_angle
    presentation_angle := -s.presentation_angle
    angular_velocity := -s.angular_velocity
    heading := { s.heading with magnetic_heading := -s.heading.magnetic_heading } }


/-! ## Lemmas on binary32 rounding -/

theorem isRne_rne (q : ℚ) : IsRne q (rne q) := by
  unfold IsRne rne
  have h1 := Int.floor_le q
  have h2 := Int.lt_floor_add_one q
  split_ifs with ha hb hc
  · left; rw [abs_lt]; constructor <;> linarith
  · left; push_cast; rw [abs_lt]; constructor <;> linarith
  · right
    have : q - ⌊q⌋ = 1/2 := le_antisymm (not_lt.mp hb) (not_lt.mp ha)
    refine ⟨?_, hc⟩
    rw [this]; norm_num
  · right
    have : q - ⌊q⌋ = 1/2 := le_antisymm (not_lt.mp hb) (not_lt.mp ha)
    constructor
    · push_cast
      have : q - (⌊q⌋ + 1) = -(1/2) := by linarith
      rw [this]; norm_num
    · omega

theorem isRne_unique {q : ℚ} {n m : ℤ} (hn : IsRne q n) (hm : IsRne q m) : n = m := by
  unfold IsRne at hn hm
  have key : |(n : ℚ) - m| ≤ |q - n| + |q - m| := by
    have : (n : ℚ) - m = (q - m) - (q - n) := by ring
    rw [this]
    calc |q - ↑m - (q - ↑n)| ≤ |q - ↑m| + |q - ↑n| := abs_sub _ _
      _ = _ := by ring
  by_contra hne
  have h1 : (1 : ℚ) ≤ |(n : ℚ) - m| := by
    have : (1 : ℤ) ≤ |n - m| := Int.one_le_abs (sub_ne_zero.mpr hne)
    exact_mod_cast this
  rcases hn with hn | ⟨hn, hn2⟩
  · rcases hm with hm | ⟨hm, _⟩ <;> linarith
  · rcases hm with hm | ⟨hm, hm2⟩
    · linarith
    · have h3 : |(n : ℚ) - m| = 1 := le_antisymm (by linarith) h1
      have h4 : |n - m| = 1 := by exact_mod_cast h3
      rcases abs_eq (by norm_num : (0:ℤ) ≤ 1) |>.mp h4 with h | h <;> omega

theorem rne_eq_of_isRne {q : ℚ} {n : ℤ} (h : IsRne q n) : rne q = n :=
  isRne_unique (isRne_rne q) h

theorem rne_intCast (n : ℤ) : rne (n : ℚ) = n :=
  rne_eq_of_isRne (Or.inl (by simp))

theorem rne_neg (q : ℚ) : rne (-q) = - rne q := by
  apply rne_eq_of_isRne
  rcases isRne_rne q with h | ⟨h, h2⟩
  · left
    have : -q - ((-rne q : ℤ) : ℚ) = -(q - rne q) := by push_cast; ring
    rw [this, abs_neg]; exact h
  · right
    have : -q - ((-rne q : ℤ) : ℚ) = -(q - rne q) := by push_cast; ring
    rw [this, abs_neg]; exact ⟨h, by omega⟩

theorem abs_sub_rne_le (q : ℚ) : |q - rne q| ≤ 1/2 := by
  rcases isRne_rne q with h | ⟨h, _⟩
  · exact h.le
  · exact h.le

theorem rne_mono {p q : ℚ} (h : p ≤ q) : rne p ≤ rne q := by
  rcases eq_or_lt_of_le h with h | h
  · rw [h]
  · have h1 := abs_le.mp (abs_sub_rne_le p)
    have h2 := abs_le.mp (abs_sub_rne_le q)
    have h3 : (rne p : ℚ) < rne q + 1 := by linarith
    have h4 : rne p < rne q + 1 := by exact_mod_cast h3
    omega

theorem two_zpow_pos (k : ℤ) : (0 : ℚ) < 2 ^ k := zpow_pos (by norm_num) k

theorem two_zpow_le {a b : ℤ} (h : a ≤ b) : (2 : ℚ) ^ a ≤ 2 ^ b :=
  zpow_le_zpow_right₀ (by norm_num) h

theorem zpow_log_le {x : ℚ} (hx : x ≠ 0) : (2 : ℚ) ^ Int.log 2 |x| ≤ |x| := by
  have := Int.zpow_log_le_self (R := ℚ) (b := 2) (by norm_num) (abs_pos.mpr hx)
  simpa using this

theorem lt_zpow_log_succ (x : ℚ) : |x| < (2 : ℚ) ^ (Int.log 2 |x| + 1) := by
  have := Int.lt_zpow_succ_log_self (R := ℚ) (b := 2) (by norm_num) |x|
  simpa using this

theorem log_lt_of_lt_zpow {x : ℚ} {k : ℤ} (hx : x ≠ 0) (h : |x| < 2 ^ k) : Int.log 2 |x| < k := by
  have := (Int.lt_zpow_iff_log_lt (R := ℚ) (b := 2) (by norm_num) (abs_pos.mpr hx) (x := k)).mp
    (by simpa using h)
  exact this

theorem le_log_of_zpow_le {x : ℚ} {k : ℤ} (hx : x ≠ 0) (h : 2 ^ k ≤ |x|) : k ≤ Int.log 2 |x| := by
  have := (Int.zpow_le_iff_le_log (R := ℚ) (b := 2) (by norm_num) (abs_pos.mpr hx) (x := k)).mp
    (by simpa using h)
  exact this

theorem log_eq_of_bounds {x : ℚ} {k : ℤ} (h1 : 2 ^ k ≤ |x|) (h2 : |x| < 2 ^ (k + 1)) :
    Int.log 2 |x| = k := by
  have hx : x ≠ 0 := by
    intro h; rw [h, abs_zero] at h1
    exact absurd h1 (not_le.mpr (two_zpow_pos k))
  have := log_lt_of_lt_zpow hx h2
  have := le_log_of_zpow_le hx h1
  omega

theorem ulpExp_neg (x : ℚ) : ulpExp (-x) = ulpExp x := by
  unfold ulpExp; rw [abs_neg]

theorem roundF32_neg (x : ℚ) : roundF32 (-x) = - roundF32 x := by
  unfold roundF32
  rw [ulpExp_neg, neg_div, rne_neg]; push_cast; ring

theorem roundF32_zero : roundF32 0 = 0 := by
  unfold roundF32; simp [rne_intCast, show rne 0 = 0 from by simpa using rne_intCast 0]

theorem roundF32_nonneg {x : ℚ} (h : 0 ≤ x) : 0 ≤ roundF32 x := by
  unfold roundF32
  have h1 : (0 : ℚ) ≤ x / 2 ^ ulpExp x := div_nonneg h (two_zpow_pos _).le
  have h2 : rne ((0 : ℤ) : ℚ) ≤ rne (x / 2 ^ ulpExp x) := rne_mono (by simpa using h1)
  rw [rne_intCast] at h2
  exact mul_nonneg (by exact_mod_cast h2) (two_zpow_pos _).le

theorem two_zpow_natCast (k : ℤ) (h : 0 ≤ k) : ((2 ^ k.toNat : ℤ) : ℚ) = 2 ^ k := by
  obtain ⟨n, rfl⟩ := Int.eq_ofNat_of_zero_le h
  simp

/-- Rounding on a grid: a multiple of a grid step no finer than the ulp is fixed. -/
theorem roundF32_of_grid (x : ℚ) (m j : ℤ) (hx : x = m * 2 ^ j) (hj : ulpExp x ≤ j) :
    roundF32 x = x := by
  unfold roundF32
  have h : x / 2 ^ ulpExp x = ((m * 2 ^ (j - ulpExp x).toNat : ℤ) : ℚ) := by
    rw [Int.cast_mul, two_zpow_natCast _ (by omega), hx, zpow_sub₀ (by norm_num)]
    field_simp
  rw [h, rne_intCast, ← h]
  field_simp

theorem roundF32_exact_lt (m j : ℤ) (hm : |m| < 2 ^ 24) (hj : -149 ≤ j) :
    roundF32 (m * 2 ^ j) = m * 2 ^ j := by
  by_cases h0 : m = 0
  · subst h0; simp [roundF32_zero]
  apply roundF32_of_grid _ m j rfl
  have hx : (m : ℚ) * 2 ^ j ≠ 0 := mul_ne_zero (by exact_mod_cast h0) (two_zpow_pos j).ne'
  have hlt : |(m : ℚ) * 2 ^ j| < 2 ^ (24 + j) := by
    rw [abs_mul, abs_of_pos (two_zpow_pos j), zpow_add₀ (by norm_num)]
    apply mul_lt_mul_of_pos_right _ (two_zpow_pos j)
    have : ((|m| : ℤ) : ℚ) < ((2 ^ 24 : ℤ) : ℚ) := by exact_mod_cast hm
    rw [Int.cast_abs] at this
    calc |(m : ℚ)| < ((2 ^ 24 : ℤ) : ℚ) := this
      _ = 2 ^ (24 : ℤ) := by norm_num
  have := log_lt_of_lt_zpow hx hlt
  unfold ulpExp
  omega

theorem roundF32_exact (m j : ℤ) (hm : |m| ≤ 2 ^ 24) (hj : -149 ≤ j) :
    roundF32 (m * 2 ^ j) = m * 2 ^ j := by
  rcases lt_or_eq_of_le hm with h | h
  · exact roundF32_exact_lt m j h hj
  · have hm2 : m = 2 ^ 24 ∨ m = -2 ^ 24 := by
      rcases abs_eq (by norm_num : (0:ℤ) ≤ 2 ^ 24) |>.mp h with h | h
      · left; exact h
      · right; exact h
    rcases hm2 with rfl | rfl
    · have := roundF32_exact_lt (2 ^ 23) (j + 1) (by norm_num) (by omega)
      have e : ((2 ^ 23 : ℤ) : ℚ) * 2 ^ (j + 1) = ((2 ^ 24 : ℤ) : ℚ) * 2 ^ j := by
        rw [zpow_add₀ (by norm_num)]; push_cast; ring
      rwa [e] at this
    · have := roundF32_exact_lt (-2 ^ 23) (j + 1) (by norm_num) (by omega)
      have e : ((-2 ^ 23 : ℤ) : ℚ) * 2 ^ (j + 1) = ((-2 ^ 24 : ℤ) : ℚ) * 2 ^ j := by
        rw [zpow_add₀ (by norm_num)]; push_cast; ring
      rwa [e] at this

theorem roundF32_intCast (n : ℤ) (hn : |n| ≤ 2 ^ 24) : roundF32 (n : ℚ) = n := by
  have := roundF32_exact n 0 hn (by norm_num)
  simpa using this

theorem zpow_sub_natCast (j g : ℤ) (h : g ≤ j) :
    (2 : ℚ) ^ j = ((2 ^ (j - g).toNat : ℤ) : ℚ) * 2 ^ g := by
  rw [two_zpow_natCast _ (by omega), zpow_sub₀ (by norm_num)]
  field_simp

theorem roundF32_le_grid {x : ℚ} {m j : ℤ} (hj : ulpExp x ≤ j) (h : x ≤ m * 2 ^ j) :
    roundF32 x ≤ m * 2 ^ j := by
  unfold roundF32
  have hu := two_zpow_pos (ulpExp x)
  rw [zpow_sub_natCast j _ hj, ← mul_assoc] at h ⊢
  push_cast at h ⊢
  have h1 : x / 2 ^ ulpExp x ≤ ((m * 2 ^ (j - ulpExp x).toNat : ℤ) : ℚ) := by
    rw [div_le_iff₀ hu]; push_cast; exact h
  have h2 := rne_mono h1
  rw [rne_intCast] at h2
  have h3 : (rne (x / 2 ^ ulpExp x) : ℚ) ≤ ((m * 2 ^ (j - ulpExp x).toNat : ℤ) : ℚ) := by
    exact_mod_cast h2
  have := mul_le_mul_of_nonneg_right h3 hu.le
  push_cast at this ⊢
  exact this

theorem grid_le_roundF32 {x : ℚ} {m j : ℤ} (hj : ulpExp x ≤ j) (h : m * 2 ^ j ≤ x) :
    m * 2 ^ j ≤ roundF32 x := by
  have h1 : -x ≤ ((-m : ℤ) : ℚ) * 2 ^ j := by push_cast; linarith
  have h2 := roundF32_le_grid (by rw [ulpExp_neg]; exact hj) h1
  rw [roundF32_neg] at h2
  push_cast at h2; linarith

theorem ulpExp_le_log {x : ℚ} (h : -149 ≤ Int.log 2 |x|) : ulpExp x ≤ Int.log 2 |x| := by
  unfold ulpExp; omega

theorem ulpExp_mono_log {x y : ℚ} (h : Int.log 2 |x| ≤ Int.log 2 |y|) : ulpExp x ≤ ulpExp y := by
  unfold ulpExp; omega

theorem roundF32_mono_pos {x y : ℚ} (hx : 0 < x) (h : x ≤ y) : roundF32 x ≤ roundF32 y := by
  have hy : 0 < y := lt_of_lt_of_le hx h
  have hlog : Int.log 2 |x| ≤ Int.log 2 |y| :=
    Int.log_mono_right (abs_pos.mpr hx.ne') (by rw [abs_of_pos hx, abs_of_pos hy]; exact h)
  rcases eq_or_lt_of_le (ulpExp_mono_log hlog) with hg | hg
  · unfold roundF32
    rw [hg]
    have hu := two_zpow_pos (ulpExp y)
    have h1 : x / 2 ^ ulpExp y ≤ y / 2 ^ ulpExp y := div_le_div_of_nonneg_right h hu.le
    have h2 : (rne (x / 2 ^ ulpExp y) : ℚ) ≤ rne (y / 2 ^ ulpExp y) := by
      exact_mod_cast rne_mono h1
    exact mul_le_mul_of_nonneg_right h2 hu.le
  · -- different grids: a power of two separates the two roundings
    have hlt : Int.log 2 |x| < Int.log 2 |y| := by
      unfold ulpExp at hg; omega
    have hgy : ulpExp y ≤ Int.log 2 |y| := by unfold ulpExp at hg ⊢; omega
    have hgx : ulpExp x ≤ Int.log 2 |y| := by unfold ulpExp at hg ⊢; omega
    have hxu : x ≤ ((1 : ℤ) : ℚ) * 2 ^ Int.log 2 |y| := by
      have h1 := lt_of_le_of_lt (le_abs_self x) (lt_zpow_log_succ x)
      have h2 : (2 : ℚ) ^ (Int.log 2 |x| + 1) ≤ 2 ^ Int.log 2 |y| := two_zpow_le (by omega)
      simp only [Int.cast_one, one_mul]; linarith
    have hyl : ((1 : ℤ) : ℚ) * 2 ^ Int.log 2 |y| ≤ y := by
      have h1 := (zpow_log_le hy.ne').trans_eq (abs_of_pos hy)
      simpa using h1
    exact le_trans (roundF32_le_grid hgx hxu) (grid_le_roundF32 hgy hyl)

/-- Rounding to nearest is monotone. -/
theorem roundF32_mono {x y : ℚ} (h : x ≤ y) : roundF32 x ≤ roundF32 y := by
  rcases lt_trichotomy 0 x with hx | hx | hx
  · exact roundF32_mono_pos hx h
  · subst hx; rw [roundF32_zero]; exact roundF32_nonneg h
  · rcases le_or_lt 0 y with hy | hy
    · have h1 : 0 ≤ roundF32 (-x) := roundF32_nonneg (by linarith)
      rw [roundF32_neg] at h1
      have h2 := roundF32_nonneg hy
      linarith
    · have := roundF32_mono_pos (x := -y) (y := -x) (by linarith) (by linarith)
      rw [roundF32_neg, roundF32_neg] at this
      linarith

/-- The rounding error is at most half a unit in the last place. -/
theorem abs_roundF32_sub_le (x : ℚ) : |roundF32 x - x| ≤ 2 ^ ulpExp x / 2 := by
  unfold roundF32
  have hu := two_zpow_pos (ulpExp x)
  have h := abs_sub_rne_le (x / 2 ^ ulpExp x)
  have e : (rne (x / 2 ^ ulpExp x) : ℚ) * 2 ^ ulpExp x - x
      = -((x / 2 ^ ulpExp x - rne (x / 2 ^ ulpExp x)) * 2 ^ ulpExp x) := by
    field_simp; ring
  rw [e, abs_neg, abs_mul, abs_of_pos hu]
  calc |x / 2 ^ ulpExp x - ↑(rne (x / 2 ^ ulpExp x))| * 2 ^ ulpExp x
      ≤ 1 / 2 * 2 ^ ulpExp x := mul_le_mul_of_nonneg_right h hu.le
    _ = 2 ^ ulpExp x / 2 := by ring

theorem abs_roundF32_sub_le_of_lt {x : ℚ} {k : ℤ} (h : |x| < 2 ^ k) (hk : -149 ≤ k - 24) :
    |roundF32 x - x| ≤ 2 ^ (k - 25) := by
  by_cases hx : x = 0
  · subst hx; simp [roundF32_zero]; exact (two_zpow_pos _).le
  have h1 := abs_roundF32_sub_le x
  have h2 := log_lt_of_lt_zpow hx h
  have h3 : ulpExp x ≤ k - 24 := by unfold ulpExp; omega
  have h4 : (2 : ℚ) ^ ulpExp x ≤ 2 ^ (k - 24) := two_zpow_le h3
  have h5 : (2 : ℚ) ^ (k - 24) = 2 * 2 ^ (k - 25) := by
    rw [show k - 24 = 1 + (k - 25) by ring, zpow_add₀ (by norm_num)]; norm_num
  linarith

/-- Evaluation of a rounding from its binade and nearest grid point. -/
theorem roundF32_eq_of_near (x : ℚ) (e m : ℤ) (h1 : 2 ^ e ≤ x) (h2 : x < 2 ^ (e + 1))
    (he : -149 ≤ e - 23) (hl : (m - 1 / 2) * 2 ^ (e - 23) < x)
    (hr : x < (m + 1 / 2) * 2 ^ (e - 23)) :
    roundF32 x = m * 2 ^ (e - 23) := by
  have hx : 0 < x := lt_of_lt_of_le (two_zpow_pos e) h1
  have hlog := log_eq_of_bounds (x := x) (by rwa [abs_of_pos hx]) (by rwa [abs_of_pos hx])
  have hg : ulpExp x = e - 23 := by unfold ulpExp; omega
  have hu := two_zpow_pos (e - 23)
  unfold roundF32
  rw [hg, rne_eq_of_isRne (Or.inl _)]
  rw [abs_lt]
  constructor
  · rw [lt_sub_iff_add_lt, lt_div_iff₀ hu]; linarith
  · rw [sub_lt_iff_lt_add, div_lt_iff₀ hu]; linarith

theorem roundF32_c09 : roundF32 (9/10) = 7549747/8388608 := by
  rw [roundF32_eq_of_near (9/10) (-1) 15099494 (by norm_num) (by norm_num) (by norm_num)
    (by norm_num) (by norm_num)]
  norm_num

theorem roundF32_c005 : roundF32 (1/20) = 13421773/268435456 := by
  rw [roundF32_eq_of_near (1/20) (-5) 13421773 (by norm_num) (by norm_num) (by norm_num)
    (by norm_num) (by norm_num)]
  norm_num


/-! ## Lemmas on integer casts -/

theorem wrap_int32_eq {z : ℤ} (h : InInt32 z) : wrap_int32 z = z := by
  unfold InInt32 at h; unfold wrap_int32; omega

theorem wrap_int16_eq {z : ℤ} (h : InInt16 z) : wrap_int16 z = z := by
  unfold InInt16 at h; unfold wrap_int16; omega

theorem int32_of_float_eq {q : ℚ} (h : InInt32 (truncate q)) : int32_of_float q = truncate q :=
  wrap_int32_eq h

theorem truncate_eq_of_nonneg {q : ℚ} (n : ℤ) (h0 : 0 ≤ q) (h1 : (n : ℚ) ≤ q)
    (h2 : q < n + 1) : truncate q = n := by
  unfold truncate
  rw [if_pos h0, Int.floor_eq_iff]
  exact ⟨h1, h2⟩

theorem truncate_neg (q : ℚ) : truncate (-q) = - truncate q := by
  unfold truncate
  rcases lt_trichotomy q 0 with h | h | h
  · rw [if_pos (by linarith), if_neg (by linarith)]; simp
  · subst h; simp
  · rw [if_neg (by linarith), if_pos (by linarith)]; simp

theorem float_of_int_eq (n : ℤ) (hn : |n| ≤ 2 ^ 24) : float_of_int n = n :=
  roundF32_intCast n hn

/-- The pull of the first tick toward a target 90 units away: `(int32_t) (90 * 0.05f) = 4`. -/
theorem truncate_pull_90 : truncate (f32_mul (float_of_int 90) (roundF32 (1 / 20))) = 4 := by
  rw [float_of_int_eq 90 (by norm_num), roundF32_c005]
  unfold f32_mul
  rw [roundF32_eq_of_near _ 2 9437184 (by norm_num) (by norm_num) (by norm_num)
    (by norm_num) (by norm_num)]
  exact truncate_eq_of_nonneg 4 (by norm_num) (by norm_num) (by norm_num)

/-- The friction step of the first tick: `(int32_t) (4 * 0.9f) = 3`. -/
theorem truncate_friction_4 : truncate (f32_mul (float_of_int 4) (roundF32 (9 / 10))) = 3 := by
  rw [float_of_int_eq 4 (by norm_num), roundF32_c09]
  unfold f32_mul
  rw [roundF32_eq_of_near _ 1 15099494 (by norm_num) (by norm_num) (by norm_num)
    (by norm_num) (by norm_num)]
  exact truncate_eq_of_nonneg 3 (by norm_num) (by norm_num) (by norm_num)

/-! ## Lemmas on the engine -/

theorem schedule_update_state (w : World) :
    (schedule_update w).state = { w.state with timer := (schedule_update w).state.timer } := by
  unfold schedule_update
  split
  · rename_i h; simp [← h]
  · rfl

theorem schedule_update_presentation_angle (w : World) :
    (schedule_update w).state.presentation_angle = w.state.presentation_angle := by
  rw [schedule_update_state]

theorem schedule_update_angular_velocity (w : World) :
    (schedule_update w).state.angular_velocity = w.state.angular_velocity := by
  rw [schedule_update_state]

theorem schedule_update_target_angle (w : World) :
    (schedule_update w).state.target_angle = w.state.target_angle := by
  rw [schedule_update_state]

theorem schedule_update_heading (w : World) :
    (schedule_update w).state.heading = w.state.heading := by
  rw [schedule_update_state]

theorem schedule_update_attraction (w : World) :
    (schedule_update w).state.attraction = w.state.attraction := by
  rw [schedule_update_state]

theorem schedule_update_friction (w : World) :
    (schedule_update w).state.friction = w.state.friction := by
  rw [schedule_update_state]

theorem schedule_update_handlers (w : World) :
    (schedule_update w).state.handlers = w.state.handlers := by
  rw [schedule_update_state]

/-- The fields written by a tick whose `int32_t` operations stay in range. -/
theorem update_state_fields (env : ℕ → World → World) (w : World) (henv : KeepsSimulation env)
    (hr : TickInRange w.state) :
    (update_state env w).state.presentation_angle
        = w.state.presentation_angle + w.state.angular_velocity ∧
    (update_state env w).state.angular_velocity = tick_velocity w.state ∧
    (update_state env w).state.target_angle
        = (update_state env w).state.heading.magnetic_heading ∧
    (w.state.handlers.presented_angle_or_accel_data_changed = none →
      (update_state env w).state.target_angle = w.state.heading.magnetic_heading) := by
  obtain ⟨h1, h2, h3, h4, h5⟩ := hr
  unfold tick_velocity at h5 ⊢
  unfold tick_pull at h3 h4 h5 ⊢
  unfold update_state
  simp only [schedule_update_presentation_angle, schedule_update_angular_velocity,
    schedule_update_target_angle, schedule_update_heading]
  simp only [wrap_int32_eq h1, wrap_int32_eq h2, int32_of_float_eq h3, wrap_int32_eq h4,
    int32_of_float_eq h5]
  refine ⟨?_, ?_, trivial, ?_⟩
  · cases hh : w.state.handlers.presented_angle_or_accel_data_changed with
    | none => simp [call_handler_if_set]
    | some k => simp [call_handler_if_set, (henv _ _).1]
  · cases hh : w.state.handlers.presented_angle_or_accel_data_changed with
    | none => simp [call_handler_if_set]
    | some k => simp [call_handler_if_set, (henv _ _).2]
  · intro hh
    simp [hh, call_handler_if_set]

/-! ## C1: one tick of the angle simulation -/

theorem set_target_angle_state (w : World) (angle : ℤ) :
    (data_provider_set_target_angle w angle).state
      = { w.state with
          target_angle := angle
          heading := { w.state.heading with magnetic_heading := angle, true_heading := angle }
          timer := (data_provider_set_target_angle w angle).state.timer } := by
  unfold data_provider_set_target_angle
  rw [schedule_update_state]

/-- The first tick after `set_target_angle(90)` from rest pulls by 4 and keeps 3 of it. -/
theorem tick_from_rest_90 (w : World) (hp : w.state.presentation_angle = 0)
    (hv : w.state.angular_velocity = 0) (ha : w.state.attraction = roundF32 (1 / 20))
    (hf : w.state.friction = roundF32 (9 / 10)) :
    tick_pull (data_provider_set_target_angle w 90).state = 4 ∧
    tick_velocity (data_provider_set_target_angle w 90).state = 3 ∧
    TickInRange (data_provider_set_target_angle w 90).state := by
  have p : tick_pull (data_provider_set_target_angle w 90).state = 4 := by
    unfold tick_pull
    rw [set_target_angle_state]
    simp only [hp, hv, ha, add_zero, sub_zero]
    exact truncate_pull_90
  have q : tick_velocity (data_provider_set_target_angle w 90).state = 3 := by
    unfold tick_velocity
    rw [p, set_target_angle_state]
    simp only [hv, hf, zero_add]
    exact truncate_friction_4
  refine ⟨p, q, ?_⟩
  unfold TickInRange
  rw [q, p, set_target_angle_state]
  simp only [hp, hv]
  unfold InInt32; norm_num

/-- C1. One tick (`update_state`), when no `int32_t` operation overflows and the handler
leaves the two simulated fields alone (there is no public mutator for them): the
presentation angle advances by the velocity from before the tick, the new velocity is
`trunc ((velocity + trunc ((target - presentation') * attraction)) * friction)` with binary32
products and truncation toward zero, and the target becomes the magnetic heading (the stored
one when no handler is set).  In particular `set_target_angle(90)` from rest followed by one
tick gives velocity 3 and presentation angle 0. -/
theorem update_state_tick :
    (∀ (env : ℕ → World → World) (w : World), KeepsSimulation env → TickInRange w.state →
      (update_state env w).state.presentation_angle
          = w.state.presentation_angle + w.state.angular_velocity ∧
      (update_state env w).state.angular_velocity
          = truncate (f32_mul (float_of_int (w.state.angular_velocity +
              truncate (f32_mul (float_of_int (w.state.target_angle -
                (update_state env w).state.presentation_angle)) w.state.attraction)))
              w.state.friction) ∧
      (update_state env w).state.target_angle
          = (update_state env w).state.heading.magnetic_heading ∧
      (w.state.handlers.presented_angle_or_accel_data_changed = none →
        (update_state env w).state.target_angle = w.state.heading.magnetic_heading)) ∧
    (∀ (env : ℕ → World → World) (w : World), KeepsSimulation env →
      w.state.presentation_angle = 0 → w.state.angular_velocity = 0 →
      w.state.attraction = roundF32 (1 / 20) → w.state.friction = roundF32 (9 / 10) →
      (update_state env (data_provider_set_target_angle w 90)).state.angular_velocity = 3 ∧
      (update_state env (data_provider_set_target_angle w 90)).state.presentation_angle = 0) := by
  constructor
  · intro env w henv hr
    obtain ⟨g1, g2, g3, g4⟩ := update_state_fields env w henv hr
    refine ⟨g1, ?_, g3, g4⟩
    rw [g2, g1]; rfl
  · intro env w henv hp hv ha hf
    obtain ⟨_, q, hr⟩ := tick_from_rest_90 w hp hv ha hf
    have g := update_state_fields env (data_provider_set_target_angle w 90) henv hr
    rw [q, set_target_angle_state] at g
    simp only [hp, hv, add_zero] at g
    exact ⟨g.2.1, g.1⟩

/-- Witness of C1: the first tick after `set_target_angle(90)` on a freshly created
engine. -/
theorem update_state_tick_witness :
    KeepsSimulation (fun _ v => v) ∧
    TickInRange (data_provider_set_target_angle World.rest 90).state ∧
    (update_state (fun _ v => v) (data_provider_set_target_angle World.rest 90)).state.target_angle
      = 90 ∧
    (update_state (fun _ v => v)
      (data_provider_set_target_angle World.rest 90)).state.angular_velocity = 3 ∧
    (update_state (fun _ v => v)
      (data_provider_set_target_angle World.rest 90)).state.presentation_angle = 0 :=
  ⟨fun _ _ => ⟨rfl, rfl⟩, (tick_from_rest_90 World.rest rfl rfl rfl rfl).2.2,
    (update_state_tick.1 (fun _ v => v) (data_provider_set_target_angle World.rest 90)
      (fun _ _ => ⟨rfl, rfl⟩) (tick_from_rest_90 World.rest rfl rfl rfl rfl).2.2).2.2.2 rfl,
    update_state_tick.2 (fun _ v => v) World.rest (fun _ _ => ⟨rfl, rfl⟩) rfl rfl rfl rfl⟩


/-! ## The tick in integer arithmetic -/

theorem truncate_eq_of_bounds {q : ℚ} (k : ℤ) (hk : 0 ≤ k) (h1 : (k : ℚ) ≤ q) (h2 : q < k + 1) :
    truncate q = k :=
  truncate_eq_of_nonneg k (le_trans (by exact_mod_cast hk) h1) h1 h2

theorem f32_mul_neg_left (a b : ℚ) : f32_mul (-a) b = - f32_mul a b := by
  unfold f32_mul; rw [neg_mul, roundF32_neg]

theorem float_of_int_neg (n : ℤ) : float_of_int (-n) = - float_of_int n := by
  unfold float_of_int; rw [Int.cast_neg, roundF32_neg]

theorem tquot_neg (n d : ℤ) : tquot (-n) d = - tquot n d := by
  unfold tquot
  rcases lt_trichotomy n 0 with h | h | h
  · rw [if_pos (by omega), if_neg (by omega)]; simp
  · subst h; simp
  · rw [if_neg (by omega), if_pos (by omega)]; simp

/-- For a pull argument of at most 24 bits the binary32 product with `0.05f`, truncated,
is the integer quotient by 20. -/
theorem truncate_mul_attraction_nonneg (n : ℤ) (h0 : 0 ≤ n) (hn : n ≤ 2 ^ 24) :
    truncate (f32_mul (float_of_int n) (roundF32 (1 / 20))) = n / 20 := by
  rw [float_of_int_eq n (by rw [abs_of_nonneg h0]; exact hn), roundF32_c005]
  unfold f32_mul
  have hk0 : 0 ≤ n / 20 := by omega
  have hn' : (n : ℚ) = 20 * ((n / 20 : ℤ) : ℚ) + ((n % 20 : ℤ) : ℚ) := by
    have : n = 20 * (n / 20) + n % 20 := by omega
    exact_mod_cast this
  have hjl : (0 : ℚ) ≤ ((n % 20 : ℤ) : ℚ) := by
    have : 0 ≤ n % 20 := by omega
    exact_mod_cast this
  have hju : ((n % 20 : ℤ) : ℚ) ≤ 19 := by
    have : n % 20 ≤ 19 := by omega
    exact_mod_cast this
  have hkl : (0 : ℚ) ≤ ((n / 20 : ℤ) : ℚ) := by exact_mod_cast hk0
  have hku : ((n / 20 : ℤ) : ℚ) ≤ 838861 := by
    have : n / 20 ≤ 838861 := by omega
    exact_mod_cast this
  apply truncate_eq_of_bounds _ hk0
  · -- the quotient is a binary32 value below the product
    have hx : ((n / 20 : ℤ) : ℚ) ≤ (n : ℚ) * (13421773 / 268435456) := by
      rw [hn']; linarith
    have := roundF32_mono hx
    rwa [roundF32_intCast _ (by rw [abs_of_nonneg hk0]; omega)] at this
  · have hlt : |(n : ℚ) * (13421773 / 268435456)| < 2 ^ (20 : ℤ) := by
      rw [abs_of_nonneg (by rw [hn']; linarith)]
      rw [hn']; norm_num; linarith
    have herr := abs_roundF32_sub_le_of_lt hlt (by norm_num)
    have herr2 := (abs_le.mp herr).2
    norm_num at herr2
    rw [hn'] at herr2 ⊢
    linarith

theorem truncate_mul_attraction (n : ℤ) (hn : |n| ≤ 2 ^ 24) :
    truncate (f32_mul (float_of_int n) (roundF32 (1 / 20))) = tquot n 20 := by
  rcases le_or_lt 0 n with h | h
  · rw [truncate_mul_attraction_nonneg n h (by rwa [abs_of_nonneg h] at hn)]
    unfold tquot; rw [if_pos h]
  · have h2 := truncate_mul_attraction_nonneg (-n) (by omega) (by rw [abs_of_neg h] at hn; omega)
    rw [float_of_int_neg, f32_mul_neg_left, truncate_neg] at h2
    unfold tquot; rw [if_neg (by omega)]
    omega

theorem le_rne_of_lt {q : ℚ} {m : ℤ} (h : (m : ℚ) - 1 / 2 < q) : m ≤ rne q := by
  have h1 := (abs_le.mp (abs_sub_rne_le q)).2
  have h2 : ((m - 1 : ℤ) : ℚ) < rne q := by push_cast; linarith
  have h3 : m - 1 < rne q := by exact_mod_cast h2
  omega

theorem le_rne_of_even {q : ℚ} {m : ℤ} (hm : m % 2 = 0) (h : (m : ℚ) - 1 / 2 ≤ q) :
    m ≤ rne q := by
  rcases eq_or_lt_of_le h with h | h
  · have : IsRne q m := by
      right
      refine ⟨?_, hm⟩
      rw [← h]; norm_num
    rw [rne_eq_of_isRne this]
  · exact le_rne_of_lt h

/-- A binary32 integer is reached again from slightly below: values within a relative
distance `2 ^ (-25)` under it round up to it. -/
theorem le_roundF32_of_near_below (k : ℤ) (hk1 : 1 ≤ k) (hk2 : k ≤ 2 ^ 24) (x : ℚ)
    (hx : x ≤ k) (hnear : (k : ℚ) - x ≤ k * (1 / 33554432)) : (k : ℚ) ≤ roundF32 x := by
  have hkq1 : (1 : ℚ) ≤ k := by exact_mod_cast hk1
  have hkq2 : (k : ℚ) ≤ 16777216 := by exact_mod_cast hk2
  have hxpos : 0 < x := by linarith
  have hxhalf : (2 : ℚ) ^ (-1 : ℤ) ≤ |x| := by
    rw [abs_of_pos hxpos]; norm_num; linarith
  have hx0 : x ≠ 0 := hxpos.ne'
  have he1 : -1 ≤ Int.log 2 |x| := le_log_of_zpow_le hx0 hxhalf
  rcases le_or_lt 24 (Int.log 2 |x|) with he24 | he24
  · -- then x = k
    have h1 : (2 : ℚ) ^ (24 : ℤ) ≤ |x| :=
      le_trans (two_zpow_le he24) (zpow_log_le hx0)
    rw [abs_of_pos hxpos] at h1
    norm_num at h1
    have hxk : x = k := le_antisymm hx (by linarith)
    rw [hxk, roundF32_intCast k (by rw [abs_of_nonneg (by omega)]; exact hk2)]
  · obtain ⟨t, ht⟩ : ∃ t : ℕ, (t : ℤ) = 23 - Int.log 2 |x| := ⟨(23 - Int.log 2 |x|).toNat, by omega⟩
    obtain ⟨s, hs⟩ : ∃ s : ℕ, (s : ℤ) = Int.log 2 |x| + 1 := ⟨(Int.log 2 |x| + 1).toNat, by omega⟩
    have hst : s + t = 24 := by omega
    have hg : ulpExp x = -(t : ℤ) := by unfold ulpExp; omega
    have hP : (0 : ℚ) < 2 ^ t := by positivity
    have hu : (2 : ℚ) ^ ulpExp x = ((2 : ℚ) ^ t)⁻¹ := by
      rw [hg, zpow_neg, zpow_natCast]
    -- k is at most the upper end of the binade of x
    have hxlt : x < 2 ^ s := by
      have := lt_of_le_of_lt (le_abs_self x) (lt_zpow_log_succ x)
      rw [← hs, zpow_natCast] at this
      exact this
    have hks : k ≤ 2 ^ s := by
      have h1 : ((k - 2 ^ s : ℤ) : ℚ) < 1 := by push_cast; linarith
      have h2 : k - 2 ^ s < 1 := by exact_mod_cast h1
      omega
    have hM : k * 2 ^ t ≤ 2 ^ 24 := by
      calc k * 2 ^ t ≤ 2 ^ s * 2 ^ t := Int.mul_le_mul_of_nonneg_right hks (by positivity)
        _ = 2 ^ 24 := by rw [← pow_add, hst]
    have hMq : ((k * 2 ^ t : ℤ) : ℚ) = k * 2 ^ t := by push_cast; ring
    have hrne : k * 2 ^ t ≤ rne (x / 2 ^ ulpExp x) := by
      rw [hu, div_inv_eq_mul]
      have hd : ((k : ℚ) - x) * 2 ^ t ≤ (k * 2 ^ t) * (1 / 33554432) := by
        have := mul_le_mul_of_nonneg_right hnear hP.le
        linarith
      rcases eq_or_lt_of_le hM with hMe | hMl
      · apply le_rne_of_even
        · rw [hMe]; norm_num
        · have hq : ((k * 2 ^ t : ℤ) : ℚ) = 16777216 := by rw [hMe]; norm_num
          rw [hq]; rw [hMq] at hq; rw [hq] at hd
          linarith
      · apply le_rne_of_lt
        have hq : ((k * 2 ^ t : ℤ) : ℚ) < 16777216 := by
          have : ((k * 2 ^ t : ℤ) : ℚ) < ((2 ^ 24 : ℤ) : ℚ) := by exact_mod_cast hMl
          simpa using this
        rw [hMq] at hq ⊢
        linarith
    unfold roundF32
    have h3 : ((k * 2 ^ t : ℤ) : ℚ) ≤ rne (x / 2 ^ ulpExp x) := by exact_mod_cast hrne
    have h4 := mul_le_mul_of_nonneg_right h3 (two_zpow_pos (ulpExp x)).le
    rw [hMq] at h4
    rw [hu] at h4 ⊢
    have h5 : (k : ℚ) * 2 ^ t * ((2 : ℚ) ^ t)⁻¹ = k := by field_simp
    rw [h5] at h4
    exact h4

/-- For a velocity of at most 21 bits the binary32 product with `0.9f`, truncated, is the
integer quotient of nine times the velocity by 10. -/
theorem truncate_mul_friction_nonneg (n : ℤ) (h0 : 0 ≤ n) (hn : n ≤ 2 ^ 21) :
    truncate (f32_mul (float_of_int n) (roundF32 (9 / 10))) = 9 * n / 10 := by
  rw [float_of_int_eq n (by rw [abs_of_nonneg h0]; omega), roundF32_c09]
  unfold f32_mul
  have hk0 : 0 ≤ 9 * n / 10 := by omega
  have hn' : 9 * (n : ℚ) = 10 * ((9 * n / 10 : ℤ) : ℚ) + ((9 * n % 10 : ℤ) : ℚ) := by
    have : 9 * n = 10 * (9 * n / 10) + 9 * n % 10 := by omega
    exact_mod_cast this
  have hjl : (0 : ℚ) ≤ ((9 * n % 10 : ℤ) : ℚ) := by
    have : 0 ≤ 9 * n % 10 := by omega
    exact_mod_cast this
  have hju : ((9 * n % 10 : ℤ) : ℚ) ≤ 9 := by
    have : 9 * n % 10 ≤ 9 := by omega
    exact_mod_cast this
  have hkl : (0 : ℚ) ≤ ((9 * n / 10 : ℤ) : ℚ) := by exact_mod_cast hk0
  have hnl : (0 : ℚ) ≤ n := by exact_mod_cast h0
  have hnu : (n : ℚ) ≤ 2097152 := by exact_mod_cast hn
  have hxe : (n : ℚ) * (7549747 / 8388608)
      = ((9 * n / 10 : ℤ) : ℚ) + ((9 * n % 10 : ℤ) : ℚ) / 10 - n / 41943040 := by
    linarith
  apply truncate_eq_of_bounds _ hk0
  · rcases eq_or_lt_of_le (show 0 ≤ 9 * n % 10 by omega) with hj | hj
    · -- nine times the velocity is a multiple of ten
      rcases eq_or_lt_of_le hk0 with hk | hk
      · have hnz : n = 0 := by omega
        subst hnz; simp [roundF32_zero]
      · apply le_roundF32_of_near_below _ (by omega) (by omega)
        · rw [hxe, ← hj]
          simp only [Int.cast_zero, zero_div, add_zero]
          linarith
        · rw [hxe, ← hj]
          have : (n : ℚ) = 10 * ((9 * n / 10 : ℤ) : ℚ) / 9 := by
            rw [← hj] at hn'; simp at hn'; linarith
          simp only [Int.cast_zero, zero_div, add_zero]
          rw [this] at hnu ⊢
          linarith
    · have hj1 : (1 : ℚ) ≤ ((9 * n % 10 : ℤ) : ℚ) := by
        have : 1 ≤ 9 * n % 10 := by omega
        exact_mod_cast this
      have hx : ((9 * n / 10 : ℤ) : ℚ) ≤ (n : ℚ) * (7549747 / 8388608) := by
        rw [hxe]; linarith
      have := roundF32_mono hx
      rwa [roundF32_intCast _ (by rw [abs_of_nonneg hk0]; omega)] at this
  · have hlt : |(n : ℚ) * (7549747 / 8388608)| < 2 ^ (21 : ℤ) := by
      rw [abs_of_nonneg (by positivity)]
      norm_num; linarith
    have herr := abs_roundF32_sub_le_of_lt hlt (by norm_num)
    have herr2 := (abs_le.mp herr).2
    norm_num at herr2
    rw [hxe] at herr2 ⊢
    linarith

theorem truncate_mul_friction (n : ℤ) (hn : |n| ≤ 2 ^ 21) :
    truncate (f32_mul (float_of_int n) (roundF32 (9 / 10))) = tquot (9 * n) 10 := by
  rcases le_or_lt 0 n with h | h
  · rw [truncate_mul_friction_nonneg n h (by rwa [abs_of_nonneg h] at hn)]
    unfold tquot; rw [if_pos (by omega)]
  · have h2 := truncate_mul_friction_nonneg (-n) (by omega) (by rw [abs_of_neg h] at hn; omega)
    rw [float_of_int_neg, f32_mul_neg_left, truncate_neg] at h2
    unfold tquot; rw [if_neg (by omega)]
    have e : -(9 * n) = 9 * -n := by ring
    rw [e]
    omega


/-! ## C2: convergence of repeated ticks -/

theorem lyapunov_pos (a v p r1 w v2 r2 : ℤ) (ha : a = 20 * p + r1) (hw : w = v + p)
    (hv2 : 9 * w = 10 * v2 + r2) (hr2 : 0 ≤ r2) (hr2u : r2 ≤ 9) (hv20 : 0 ≤ v2)
    (hs : (0 ≤ p ∧ 0 ≤ r1 ∧ r1 ≤ 19) ∨ (p ≤ 0 ∧ -19 ≤ r1 ∧ r1 ≤ 0)) :
    0 < 29 * v ^ 2 + 2 * a * v2 - 30 * v2 ^ 2 ∨ (v = 0 ∧ v2 = 0) := by
  rcases eq_or_lt_of_le hv20 with h0 | hpos
  · subst h0
    by_cases hv : v = 0
    · right; exact ⟨hv, rfl⟩
    · left
      have : 0 < v ^ 2 := by positivity
      nlinarith
  · left
    have hv : v = w - p := by omega
    rcases hs with ⟨hp, hr1, hr1u⟩ | ⟨hp, hr1, hr1u⟩
    · subst ha hv
      have h1 : 0 ≤ v2 * r2 := mul_nonneg hv20 hr2
      have h2 : 0 ≤ r1 * v2 := mul_nonneg hr1 hv20
      nlinarith [sq_nonneg (261 * (w - p) - 180 * v2), mul_pos hpos hpos]
    · have hwv : v2 + 1 ≤ w := by omega
      subst ha hv
      have hq : 0 ≤ -p := by omega
      have h1 : 0 ≤ (-p) * (w - v2) := mul_nonneg hq (by omega)
      have h2 : 0 ≤ (-p) * v2 := mul_nonneg hq hv20
      have h3 : -19 * v2 ≤ r1 * v2 := by nlinarith
      by_cases hsm : v2 ≤ 20
      · nlinarith [sq_nonneg p,
          mul_nonneg (by omega : 0 ≤ w - v2 - 1) (by omega : 0 ≤ w + v2 + 1)]
      · have h9 : 10 * v2 ≤ 9 * w := by omega
        nlinarith [sq_nonneg p,
          mul_nonneg (by omega : 0 ≤ 9 * w - 10 * v2) (by omega : 0 ≤ 9 * w + 10 * v2)]

theorem tquot_of_nonneg {n : ℤ} (d : ℤ) (h : 0 ≤ n) : tquot n d = n / d := by
  unfold tquot; rw [if_pos h]

theorem tquot_of_neg {n : ℤ} (d : ℤ) (h : n < 0) : tquot n d = -(-n / d) := by
  unfold tquot; rw [if_neg (by omega)]

/-- The potential drops at every tick of the integer simulation, except at rest. -/
theorem lyapunov (a v : ℤ) :
    0 < 29 * v ^ 2 + 2 * a * tquot (9 * (v + tquot a 20)) 10
        - 30 * tquot (9 * (v + tquot a 20)) 10 ^ 2 ∨
      (v = 0 ∧ tquot (9 * (v + tquot a 20)) 10 = 0) := by
  have hs : ∀ b : ℤ, (0 ≤ tquot b 20 ∧ 0 ≤ b - 20 * tquot b 20 ∧ b - 20 * tquot b 20 ≤ 19) ∨
      (tquot b 20 ≤ 0 ∧ -19 ≤ b - 20 * tquot b 20 ∧ b - 20 * tquot b 20 ≤ 0) := by
    intro b
    unfold tquot
    split_ifs with h
    · left; omega
    · right; omega
  rcases le_or_lt 0 (v + tquot a 20) with hw | hw
  · have hq : tquot (9 * (v + tquot a 20)) 10 = 9 * (v + tquot a 20) / 10 :=
      tquot_of_nonneg 10 (by omega)
    exact lyapunov_pos a v (tquot a 20) (a - 20 * tquot a 20) (v + tquot a 20)
      (tquot (9 * (v + tquot a 20)) 10)
      (9 * (v + tquot a 20) - 10 * tquot (9 * (v + tquot a 20)) 10)
      (by ring) rfl (by ring) (by rw [hq]; omega) (by rw [hq]; omega) (by rw [hq]; omega) (hs a)
  · have hq : tquot (9 * (v + tquot a 20)) 10 = -(-(9 * (v + tquot a 20)) / 10) :=
      tquot_of_neg 10 (by omega)
    have hsa : (0 ≤ -tquot a 20 ∧ 0 ≤ -(a - 20 * tquot a 20) ∧ -(a - 20 * tquot a 20) ≤ 19) ∨
        (-tquot a 20 ≤ 0 ∧ -19 ≤ -(a - 20 * tquot a 20) ∧ -(a - 20 * tquot a 20) ≤ 0) := by
      rcases hs a with h | h
      · right; omega
      · left; omega
    have := lyapunov_pos (-a) (-v) (-tquot a 20) (-(a - 20 * tquot a 20)) (-(v + tquot a 20))
      (-tquot (9 * (v + tquot a 20)) 10)
      (-(9 * (v + tquot a 20) - 10 * tquot (9 * (v + tquot a 20)) 10))
      (by ring) (by ring) (by ring) (by rw [hq]; omega) (by rw [hq]; omega) (by rw [hq]; omega)
      hsa
    rcases this with h | ⟨h1, h2⟩
    · left
      have e : 29 * (-v) ^ 2 + 2 * (-a) * (-tquot (9 * (v + tquot a 20)) 10)
          - 30 * (-tquot (9 * (v + tquot a 20)) 10) ^ 2
          = 29 * v ^ 2 + 2 * a * tquot (9 * (v + tquot a 20)) 10
            - 30 * tquot (9 * (v + tquot a 20)) 10 ^ 2 := by ring
      rwa [e] at h
    · right; exact ⟨by omega, by omega⟩

theorem observer_keepsSimulation {env : ℕ → World → World} (h : Observer env) :
    KeepsSimulation env := by
  intro k v
  rw [h k v]
  exact ⟨rfl, rfl⟩

theorem call_handler_state_of_observer {env : ℕ → World → World} (h : Observer env) (w : World)
    (handler : Option ℕ) : (call_handler_if_set env w handler).state = w.state := by
  cases handler with
  | none => rfl
  | some k => exact h k w

/-- The fields a tick leaves alone or copies when the handlers only observe. -/
theorem update_state_frame (env : ℕ → World → World) (w : World) (hobs : Observer env) :
    (update_state env w).state.heading = w.state.heading ∧
    (update_state env w).state.attraction = w.state.attraction ∧
    (update_state env w).state.friction = w.state.friction ∧
    (update_state env w).state.target_angle = w.state.heading.magnetic_heading := by
  unfold update_state
  simp only [schedule_update_heading, schedule_update_attraction, schedule_update_friction,
    schedule_update_target_angle, call_handler_state_of_observer hobs]
  exact ⟨trivial, trivial, trivial, trivial⟩

/-- One tick of a simulation toward a constant target: no operation overflows, the tick is
the integer tick, and the potential drops unless the engine is at rest. -/
theorem update_state_step (env : ℕ → World → World) (w : World) (T : ℤ) (hobs : Observer env)
    (hinv : TickInv T w.state) :
    TickInRange w.state ∧ TickInv T (update_state env w).state ∧
    (update_state env w).state.presentation_angle
      = w.state.presentation_angle + w.state.angular_velocity ∧
    (update_state env w).state.angular_velocity
      = tquot (9 * (w.state.angular_velocity
          + tquot (T - w.state.presentation_angle - w.state.angular_velocity) 20)) 10 ∧
    (tick_potential (update_state env w).state < tick_potential w.state ∨
      (w.state.angular_velocity = 0 ∧ (update_state env w).state.angular_velocity = 0)) := by
  obtain ⟨hT, hH, hA, hF, hTb, hK⟩ := hinv
  unfold tick_potential at hK
  rw [hT] at hK
  have hTb2 := abs_le.mp hTb
  -- bounds that follow from the bound of the potential
  have hvsq : 0 ≤ w.state.angular_velocity ^ 2 := sq_nonneg _
  have hasq : 0 ≤ (T - w.state.presentation_angle - w.state.angular_velocity) ^ 2 := sq_nonneg _
  have ha1 : T - w.state.presentation_angle - w.state.angular_velocity ≤ 2 ^ 23 := by
    by_contra hc; push_neg at hc; nlinarith
  have ha2 : -2 ^ 23 ≤ T - w.state.presentation_angle - w.state.angular_velocity := by
    by_contra hc; push_neg at hc; nlinarith
  have hv1 : w.state.angular_velocity ≤ 1300000 := by
    by_contra hc; push_neg at hc; nlinarith
  have hv2 : -1300000 ≤ w.state.angular_velocity := by
    by_contra hc; push_neg at hc; nlinarith
  have hp : -419431 ≤ tquot (T - w.state.presentation_angle - w.state.angular_velocity) 20 ∧
      tquot (T - w.state.presentation_angle - w.state.angular_velocity) 20 ≤ 419431 := by
    unfold tquot; split_ifs <;> omega
  have he : w.state.target_angle - (w.state.presentation_angle + w.state.angular_velocity)
      = T - w.state.presentation_angle - w.state.angular_velocity := by rw [hT]; ring
  have hpull : tick_pull w.state
      = tquot (T - w.state.presentation_angle - w.state.angular_velocity) 20 := by
    unfold tick_pull
    rw [he, hA]
    exact truncate_mul_attraction _ (by rw [abs_le]; constructor <;> omega)
  have hvel : tick_velocity w.state
      = tquot (9 * (w.state.angular_velocity
          + tquot (T - w.state.presentation_angle - w.state.angular_velocity) 20)) 10 := by
    unfold tick_velocity
    rw [hpull, hF]
    exact truncate_mul_friction _ (by rw [abs_le]; constructor <;> omega)
  have hq : -2000000 ≤ tquot (9 * (w.state.angular_velocity
          + tquot (T - w.state.presentation_angle - w.state.angular_velocity) 20)) 10 ∧
      tquot (9 * (w.state.angular_velocity
          + tquot (T - w.state.presentation_angle - w.state.angular_velocity) 20)) 10
        ≤ 2000000 := by
    generalize tquot (T - w.state.presentation_angle - w.state.angular_velocity) 20 = p at hp ⊢
    unfold tquot; split_ifs <;> omega
  have hrange : TickInRange w.state := by
    unfold TickInRange
    rw [hvel, hpull, he]
    unfold InInt32
    refine ⟨⟨?_, ?_⟩, ⟨?_, ?_⟩, ⟨?_, ?_⟩, ⟨?_, ?_⟩, ⟨?_, ?_⟩⟩ <;> omega
  obtain ⟨g1, g2, _, _⟩ := update_state_fields env w (observer_keepsSimulation hobs) hrange
  obtain ⟨f1, f2, f3, f4⟩ := update_state_frame env w hobs
  rw [hvel] at g2
  have hly := lyapunov (T - w.state.presentation_angle - w.state.angular_velocity)
    w.state.angular_velocity
  have hpot : tick_potential (update_state env w).state
      = (T - w.state.presentation_angle - w.state.angular_velocity
          - tquot (9 * (w.state.angular_velocity
            + tquot (T - w.state.presentation_angle - w.state.angular_velocity) 20)) 10) ^ 2
        + 29 * tquot (9 * (w.state.angular_velocity
            + tquot (T - w.state.presentation_angle - w.state.angular_velocity) 20)) 10 ^ 2 := by
    unfold tick_potential
    rw [g1, g2, f4, hH]; ring
  have hpot0 : tick_potential w.state
      = (T - w.state.presentation_angle - w.state.angular_velocity) ^ 2
        + 29 * w.state.angular_velocity ^ 2 := by
    unfold tick_potential; rw [hT]
  have hdrop : tick_potential (update_state env w).state < tick_potential w.state ∨
      (w.state.angular_velocity = 0 ∧ (update_state env w).state.angular_velocity = 0) := by
    rcases hly with h | ⟨h1, h2⟩
    · left; rw [hpot, hpot0]; nlinarith
    · right; exact ⟨h1, by rw [g2]; exact h2⟩
  refine ⟨hrange, ⟨by rw [f4, hH], by rw [f1, hH], by rw [f2, hA], by rw [f3, hF], hTb, ?_⟩,
    g1, g2, hdrop⟩
  rcases hdrop with h | ⟨h1, h2⟩
  · rw [hpot0] at h; linarith
  · rw [hpot, ← g2, h2, h1]
    rw [h1] at hK
    simp only [sub_zero] at hK ⊢
    linarith

/-- Once a tick leaves a resting engine at rest, every later tick does. -/
theorem ticks_rest_forever (env : ℕ → World → World) (w : World) (T : ℤ) (hobs : Observer env)
    (hinv : TickInv T w.state) (h0 : w.state.angular_velocity = 0)
    (h1 : (update_state env w).state.angular_velocity = 0) (n : ℕ) :
    TickInv T ((update_state env)^[n] w).state ∧
    ((update_state env)^[n] w).state.presentation_angle = w.state.presentation_angle ∧
    ((update_state env)^[n] w).state.angular_velocity = 0 := by
  induction n with
  | zero => exact ⟨hinv, rfl, h0⟩
  | succ n ih =>
    obtain ⟨i1, i2, i3⟩ := ih
    rw [Function.iterate_succ_apply']
    obtain ⟨_, s2, s3, s4, _⟩ := update_state_step env _ T hobs i1
    obtain ⟨_, _, _, t4, _⟩ := update_state_step env w T hobs hinv
    refine ⟨s2, ?_, ?_⟩
    · rw [s3, i2, i3, add_zero]
    · rw [h0] at t4
      rw [s4, i2, i3, ← t4, h1]

/-- From every state of the simulation the presentation angle is eventually constant. -/
theorem ticks_settle (env : ℕ → World → World) (T : ℤ) (hobs : Observer env) (m : ℕ) :
    ∀ w : World, TickInv T w.state → (tick_potential w.state).toNat ≤ m →
      ∃ N, ∀ n, N ≤ n →
        ((update_state env)^[n + 1] w).state.presentation_angle
          = ((update_state env)^[n] w).state.presentation_angle := by
  induction m with
  | zero =>
    intro w hinv hm
    obtain ⟨_, s2, _, _, s5⟩ := update_state_step env w T hobs hinv
    have hpos : 0 ≤ tick_potential (update_state env w).state := by
      unfold tick_potential; positivity
    rcases s5 with h | ⟨h0, h1⟩
    · omega
    · refine ⟨0, fun n _ => ?_⟩
      rw [(ticks_rest_forever env w T hobs hinv h0 h1 (n + 1)).2.1,
        (ticks_rest_forever env w T hobs hinv h0 h1 n).2.1]
  | succ m ih =>
    intro w hinv hm
    obtain ⟨_, s2, _, _, s5⟩ := update_state_step env w T hobs hinv
    have hpos : 0 ≤ tick_potential (update_state env w).state := by
      unfold tick_potential; positivity
    rcases s5 with h | ⟨h0, h1⟩
    · obtain ⟨N, hN⟩ := ih (update_state env w) s2 (by omega)
      refine ⟨N + 1, fun n hn => ?_⟩
      obtain ⟨k, rfl⟩ : ∃ k, n = k + 1 := ⟨n - 1, by omega⟩
      rw [Function.iterate_succ_apply, Function.iterate_succ_apply]
      exact hN k (by omega)
    · refine ⟨0, fun n _ => ?_⟩
      rw [(ticks_rest_forever env w T hobs hinv h0 h1 (n + 1)).2.1,
        (ticks_rest_forever env w T hobs hinv h0 h1 n).2.1]

theorem tickInv_iterate (env : ℕ → World → World) (w : World) (T : ℤ) (hobs : Observer env)
    (hinv : TickInv T w.state) (n : ℕ) : TickInv T ((update_state env)^[n] w).state := by
  induction n with
  | zero => exact hinv
  | succ n ih =>
    rw [Function.iterate_succ_apply']
    exact (update_state_step env _ T hobs ih).2.1

/-- An in-range start state lies within the bound of the potential. -/
theorem tickInv_of_inRange (w : World) (ha : w.state.attraction = roundF32 (1 / 20))
    (hf : w.state.friction = roundF32 (9 / 10))
    (hh : w.state.heading.magnetic_heading = w.state.target_angle)
    (hT : |w.state.target_angle| ≤ 2 ^ 20) (hP : |w.state.presentation_angle| ≤ 2 ^ 20)
    (hV : |w.state.angular_velocity| ≤ 2 ^ 20) : TickInv w.state.target_angle w.state := by
  refine ⟨rfl, hh, ha, hf, hT, ?_⟩
  unfold tick_potential
  have h1 := abs_le.mp hT
  have h2 := abs_le.mp hP
  have h3 := abs_le.mp hV
  have ha1 : w.state.target_angle - w.state.presentation_angle - w.state.angular_velocity
      ≤ 3 * 2 ^ 20 := by omega
  have ha2 : -(3 * 2 ^ 20)
      ≤ w.state.target_angle - w.state.presentation_angle - w.state.angular_velocity := by omega
  nlinarith [mul_nonneg (sub_nonneg.mpr ha1) (sub_nonneg.mpr ha2),
    mul_nonneg (sub_nonneg.mpr h3.2) (sub_nonneg.mpr h3.1)]

/-- C2. Repeated ticks toward a constant target converge.  With the constants of
`data_provider_create` (`attraction = 0.05f`, `friction = 0.9f`), the magnetic heading held
equal to the target, handlers that only observe, and a start state whose target,
presentation angle and velocity are at most `2 ^ 20` in magnitude (sixteen full turns of the
platform angle unit): no tick overflows, the target stays, and from some tick `N` on the error
magnitude `|presentation_angle - target_angle|` after tick `n + 1` is no larger than after
tick `n`. -/
theorem ticks_converge (env : ℕ → World → World) (w : World) (hobs : Observer env)
    (ha : w.state.attraction = roundF32 (1 / 20)) (hf : w.state.friction = roundF32 (9 / 10))
    (hh : w.state.heading.magnetic_heading = w.state.target_angle)
    (hT : |w.state.target_angle| ≤ 2 ^ 20) (hP : |w.state.presentation_angle| ≤ 2 ^ 20)
    (hV : |w.state.angular_velocity| ≤ 2 ^ 20) :
    (∀ n, TickInRange ((update_state env)^[n] w).state ∧
      ((update_state env)^[n] w).state.target_angle = w.state.target_angle) ∧
    ∃ N, ∀ n, N ≤ n →
      |((update_state env)^[n + 1] w).state.presentation_angle - w.state.target_angle|
        ≤ |((update_state env)^[n] w).state.presentation_angle - w.state.target_angle| := by
  have hinv := tickInv_of_inRange w ha hf hh hT hP hV
  constructor
  · intro n
    have hn := tickInv_iterate env w _ hobs hinv n
    exact ⟨(update_state_step env _ _ hobs hn).1, hn.1⟩
  · obtain ⟨N, hN⟩ := ticks_settle env _ hobs _ w hinv le_rfl
    exact ⟨N, fun n hn => by rw [hN n hn]⟩

/-- Witness of C2: the simulation started by `set_target_angle(90)` on a fresh engine. -/
theorem ticks_converge_witness :
    Observer (fun _ v => v) ∧
    |(data_provider_set_target_angle World.rest 90).state.target_angle| ≤ 2 ^ 20 ∧
    ∃ N, ∀ n, N ≤ n →
      |((update_state (fun _ v => v))^[n + 1]
          (data_provider_set_target_angle World.rest 90)).state.presentation_angle - 90|
        ≤ |((update_state (fun _ v => v))^[n]
          (data_provider_set_target_angle World.rest 90)).state.presentation_angle - 90| :=
  ⟨fun _ _ => rfl, by show |(90 : ℤ)| ≤ 2 ^ 20; norm_num,
    (ticks_converge (fun _ v => v) (data_provider_set_target_angle World.rest 90)
      (fun _ _ => rfl) rfl rfl rfl (by show |(90 : ℤ)| ≤ 2 ^ 20; norm_num)
      (by show |(0 : ℤ)| ≤ 2 ^ 20; norm_num) (by show |(0 : ℤ)| ≤ 2 ^ 20; norm_num)).2⟩


/-! ## Evaluations of the accelerometer filter -/

theorem roundF32_c03 : roundF32 (3 / 10) = 5033165 / 16777216 := by
  rw [roundF32_eq_of_near (3 / 10) (-2) 10066330 (by norm_num) (by norm_num) (by norm_num)
    (by norm_num) (by norm_num)]
  norm_num

theorem roundF32_c099 : roundF32 (99 / 100) = 4152361 / 4194304 := by
  rw [roundF32_eq_of_near (99 / 100) (-1) 16609444 (by norm_num) (by norm_num) (by norm_num)
    (by norm_num) (by norm_num)]
  norm_num

/-- The damped value after the sample `-2667` on a fresh filter is `-800`. -/
theorem merge_axis_hysteresis_1 :
    merge_axis (0 : ℤ) (-2667 : ℤ) (roundF32 (3 / 10)) = (-800 : ℤ) := by
  have e1 : roundF32 (((-2667 : ℤ) : ℚ)) = ((-2667 : ℤ) : ℚ) :=
    roundF32_intCast _ (by norm_num)
  have e2 : roundF32 (((0 : ℤ) : ℚ)) = ((0 : ℤ) : ℚ) :=
    roundF32_intCast _ (by norm_num)
  have e3 : roundF32 (((-2667 : ℤ) : ℚ) * (5033165 / 16777216 : ℚ))
      = (-13108839 / 16384 : ℚ) := by
    have hv : (((-2667 : ℤ) : ℚ) * (5033165 / 16777216 : ℚ)) = -(13423451055 / 16777216 : ℚ) := by norm_num
    rw [hv, roundF32_neg, roundF32_eq_of_near (13423451055 / 16777216 : ℚ) (9) 13108839
      (by norm_num) (by norm_num) (by norm_num) (by norm_num) (by norm_num)]
    norm_num
  have e4 : roundF32 (1 - (5033165 / 16777216 : ℚ))
      = (11744051 / 16777216 : ℚ) := by
    have hv : (1 - (5033165 / 16777216 : ℚ)) = (11744051 / 16777216 : ℚ) := by norm_num
    rw [hv, roundF32_eq_of_near (11744051 / 16777216 : ℚ) (-1) 11744051
      (by norm_num) (by norm_num) (by norm_num) (by norm_num) (by norm_num)]
    norm_num
  have e5 : roundF32 ((11744051 / 16777216 : ℚ) * ((0 : ℤ) : ℚ))
      = (0 : ℚ) := by
    rw [show ((11744051 / 16777216 : ℚ) * ((0 : ℤ) : ℚ)) = (0 : ℚ) by norm_num, roundF32_zero]
  have e6 : roundF32 ((-13108839 / 16384 : ℚ) + (0 : ℚ))
      = (-13108839 / 16384 : ℚ) := by
    have hv : ((-13108839 / 16384 : ℚ) + (0 : ℚ)) = -(13108839 / 16384 : ℚ) := by norm_num
    rw [hv, roundF32_neg, roundF32_eq_of_near (13108839 / 16384 : ℚ) (9) 13108839
      (by norm_num) (by norm_num) (by norm_num) (by norm_num) (by norm_num)]
    norm_num
  have e7 : truncate (-13108839 / 16384 : ℚ) = (-800 : ℤ) := by
    have hv : (-13108839 / 16384 : ℚ) = -(13108839 / 16384 : ℚ) := by norm_num
    rw [hv, truncate_neg, truncate_eq_of_nonneg (800)
      (by norm_num : (0 : ℚ) ≤ (13108839 / 16384 : ℚ)) (by norm_num) (by norm_num)]
  unfold merge_axis int16_of_float f32_add f32_mul f32_sub float_of_int
  rw [roundF32_c03, e1, e2, e3, e4, e5, e6, e7]
  unfold wrap_int16; norm_num

/-- The damped value after the sample `-134` on `-800` is `-600`. -/
theorem merge_axis_hysteresis_2 :
    merge_axis (-800 : ℤ) (-134 : ℤ) (roundF32 (3 / 10)) = (-600 : ℤ) := by
  have e1 : roundF32 (((-134 : ℤ) : ℚ)) = ((-134 : ℤ) : ℚ) :=
    roundF32_intCast _ (by norm_num)
  have e2 : roundF32 (((-800 : ℤ) : ℚ)) = ((-800 : ℤ) : ℚ) :=
    roundF32_intCast _ (by norm_num)
  have e3 : roundF32 (((-134 : ℤ) : ℚ) * (5033165 / 16777216 : ℚ))
      = (-10538189 / 262144 : ℚ) := by
    have hv : (((-134 : ℤ) : ℚ) * (5033165 / 16777216 : ℚ)) = -(337222055 / 8388608 : ℚ) := by norm_num
    rw [hv, roundF32_neg, roundF32_eq_of_near (337222055 / 8388608 : ℚ) (5) 10538189
      (by norm_num) (by norm_num) (by norm_num) (by norm_num) (by norm_num)]
    norm_num
  have e4 : roundF32 (1 - (5033165 / 16777216 : ℚ))
      = (11744051 / 16777216 : ℚ) := by
    have hv : (1 - (5033165 / 16777216 : ℚ)) = (11744051 / 16777216 : ℚ) := by norm_num
    rw [hv, roundF32_eq_of_near (11744051 / 16777216 : ℚ) (-1) 11744051
      (by norm_num) (by norm_num) (by norm_num) (by norm_num) (by norm_num)]
    norm_num
  have e5 : roundF32 ((11744051 / 16777216 : ℚ) * ((-800 : ℤ) : ℚ))
      = (-560 : ℚ) := by
    have hv : ((11744051 / 16777216 : ℚ) * ((-800 : ℤ) : ℚ)) = -(293601275 / 524288 : ℚ) := by norm_num
    rw [hv, roundF32_neg, roundF32_eq_of_near (293601275 / 524288 : ℚ) (9) 9175040
      (by norm_num) (by norm_num) (by norm_num) (by norm_num) (by norm_num)]
    norm_num
  have e6 : roundF32 ((-10538189 / 262144 : ℚ) + (-560 : ℚ))
      = (-9833677 / 16384 : ℚ) := by
    have hv : ((-10538189 / 262144 : ℚ) + (-560 : ℚ)) = -(157338829 / 262144 : ℚ) := by norm_num
    rw [hv, roundF32_neg, roundF32_eq_of_near (157338829 / 262144 : ℚ) (9) 9833677
      (by norm_num) (by norm_num) (by norm_num) (by norm_num) (by norm_num)]
    norm_num
  have e7 : truncate (-9833677 / 16384 : ℚ) = (-600 : ℤ) := by
    have hv : (-9833677 / 16384 : ℚ) = -(9833677 / 16384 : ℚ) := by norm_num
    rw [hv, truncate_neg, truncate_eq_of_nonneg (600)
      (by norm_num : (0 : ℚ) ≤ (9833677 / 16384 : ℚ)) (by norm_num) (by norm_num)]
  unfold merge_axis int16_of_float f32_add f32_mul f32_sub float_of_int
  rw [roundF32_c03, e1, e2, e3, e4, e5, e6, e7]
  unfold wrap_int16; norm_num

/-- The damped value after the sample `-1268` on `-600` is `-800`. -/
theorem merge_axis_hysteresis_3 :
    merge_axis (-600 : ℤ) (-1268 : ℤ) (roundF32 (3 / 10)) = (-800 : ℤ) := by
  have e1 : roundF32 (((-1268 : ℤ) : ℚ)) = ((-1268 : ℤ) : ℚ) :=
    roundF32_intCast _ (by norm_num)
  have e2 : roundF32 (((-600 : ℤ) : ℚ)) = ((-600 : ℤ) : ℚ) :=
    roundF32_intCast _ (by norm_num)
  have e3 : roundF32 (((-1268 : ℤ) : ℚ) * (5033165 / 16777216 : ℚ))
      = (-3116237 / 8192 : ℚ) := by
    have hv : (((-1268 : ℤ) : ℚ) * (5033165 / 16777216 : ℚ)) = -(1595513305 / 4194304 : ℚ) := by norm_num
    rw [hv, roundF32_neg, roundF32_eq_of_near (1595513305 / 4194304 : ℚ) (8) 12464948
      (by norm_num) (by norm_num) (by norm_num) (by norm_num) (by norm_num)]
    norm_num
  have e4 : roundF32 (1 - (5033165 / 16777216 : ℚ))
      = (11744051 / 16777216 : ℚ) := by
    have hv : (1 - (5033165 / 16777216 : ℚ)) = (11744051 / 16777216 : ℚ) := by norm_num
    rw [hv, roundF32_eq_of_near (11744051 / 16777216 : ℚ) (-1) 11744051
      (by norm_num) (by norm_num) (by norm_num) (by norm_num) (by norm_num)]
    norm_num
  have e5 : roundF32 ((11744051 / 16777216 : ℚ) * ((-600 : ℤ) : ℚ))
      = (-420 : ℚ) := by
    have hv : ((11744051 / 16777216 : ℚ) * ((-600 : ℤ) : ℚ)) = -(880803825 / 2097152 : ℚ) := by norm_num
    rw [hv, roundF32_neg, roundF32_eq_of_near (880803825 / 2097152 : ℚ) (8) 13762560
      (by norm_num) (by norm_num) (by norm_num) (by norm_num) (by norm_num)]
    norm_num
  have e6 : roundF32 ((-3116237 / 8192 : ℚ) + (-420 : ℚ))
      = (-6556877 / 8192 : ℚ) := by
    have hv : ((-3116237 / 8192 : ℚ) + (-420 : ℚ)) = -(6556877 / 8192 : ℚ) := by norm_num
    rw [hv, roundF32_neg, roundF32_eq_of_near (6556877 / 8192 : ℚ) (9) 13113754
      (by norm_num) (by norm_num) (by norm_num) (by norm_num) (by norm_num)]
    norm_num
  have e7 : truncate (-6556877 / 8192 : ℚ) = (-800 : ℤ) := by
    have hv : (-6556877 / 8192 : ℚ) = -(6556877 / 8192 : ℚ) := by norm_num
    rw [hv, truncate_neg, truncate_eq_of_nonneg (800)
      (by norm_num : (0 : ℚ) ≤ (6556877 / 8192 : ℚ)) (by norm_num) (by norm_num)]
  unfold merge_axis int16_of_float f32_add f32_mul f32_sub float_of_int
  rw [roundF32_c03, e1, e2, e3, e4, e5, e6, e7]
  unfold wrap_int16; norm_num

/-! ## Orientation changes -/

/-- Setting the current orientation again changes nothing. -/
theorem set_orientation_same (env : ℕ → World → World) (w : World) :
    data_provider_set_orientation env w w.state.orientation = w := by
  unfold data_provider_set_orientation
  rw [if_pos rfl]

/-- The engine state after an actual orientation change, when the handlers only observe. -/
theorem set_orientation_state (env : ℕ → World → World) (hobs : Observer env) (w : World)
    (o : DataProviderOrientation) (h : w.state.orientation ≠ o) :
    (data_provider_set_orientation env w o).state
      = { w.state with
          orientation := o
          orientation_animation_start_value := w.state.orientation_transition_factor
          orientation_animation := some (match w.state.orientation_animation with
            | some a => a
            | none => (call_handler_if_set env
                { w with state := { w.state with orientation := o } }
                w.state.handlers.orientation_changed).sys.animations.length) } := by
  unfold data_provider_set_orientation
  rw [if_neg h]
  simp only [call_handler_state_of_observer hobs]
  cases ha : w.state.orientation_animation with
  | none => simp [animation_create]
  | some a => simp

theorem set_orientation_orientation (env : ℕ → World → World) (hobs : Observer env) (w : World)
    (o : DataProviderOrientation) : (data_provider_set_orientation env w o).state.orientation = o := by
  by_cases h : w.state.orientation = o
  · rw [← h, set_orientation_same]
  · rw [set_orientation_state env hobs w o h]

theorem set_orientation_damped (env : ℕ → World → World) (hobs : Observer env) (w : World)
    (o : DataProviderOrientation) :
    (data_provider_set_orientation env w o).state.damped_accel_data
      = w.state.damped_accel_data := by
  by_cases h : w.state.orientation = o
  · rw [← h, set_orientation_same]
  · rw [set_orientation_state env hobs w o h]

/-- The shape of `data_provider_handle_accel_data`: merge, notify, decide. -/
theorem handle_accel_data_eq (env : ℕ → World → World) (w : World) (data : AccelData) (n : ℕ) :
    data_provider_handle_accel_data env w data n
      = if (accel_notified env w data).state.damped_accel_data.y < -700 then
          data_provider_set_orientation env (accel_notified env w data)
            DataProviderOrientation.Upright
        else if (accel_notified env w data).state.damped_accel_data.y > -500 then
          data_provider_set_orientation env (accel_notified env w data)
            DataProviderOrientation.Flat
        else accel_notified env w data := rfl

theorem accel_notified_state (env : ℕ → World → World) (hobs : Observer env) (w : World)
    (data : AccelData) : (accel_notified env w data).state = (accel_merged w data).state :=
  call_handler_state_of_observer hobs _ _

theorem accel_merged_damped_y (w : World) (data : AccelData) :
    (accel_merged w data).state.damped_accel_data.y
      = merge_axis w.state.damped_accel_data.y data.y (roundF32 (3 / 10)) := rfl

/-! ## C3: the orientation decision of the accelerometer callback -/

/-- The decision of the accelerometer callback in terms of the merged value. -/
theorem handle_accel_data_decision :
    ∀ (env : ℕ → World → World) (w : World) (data : AccelData) (n : ℕ),
    Observer env →
    (data_provider_handle_accel_data env w data n).state.damped_accel_data.y
      = merge_axis w.state.damped_accel_data.y data.y (roundF32 (3 / 10)) ∧
    (merge_axis w.state.damped_accel_data.y data.y (roundF32 (3 / 10)) < -700 →
      (data_provider_handle_accel_data env w data n).state.orientation
        = DataProviderOrientation.Upright ∧
      data_provider_handle_accel_data env w data n
        = data_provider_set_orientation env (accel_notified env w data)
            DataProviderOrientation.Upright) ∧
    (-700 ≤ merge_axis w.state.damped_accel_data.y data.y (roundF32 (3 / 10)) →
      -500 < merge_axis w.state.damped_accel_data.y data.y (roundF32 (3 / 10)) →
      (data_provider_handle_accel_data env w data n).state.orientation
        = DataProviderOrientation.Flat) ∧
    (-700 ≤ merge_axis w.state.damped_accel_data.y data.y (roundF32 (3 / 10)) →
      merge_axis w.state.damped_accel_data.y data.y (roundF32 (3 / 10)) ≤ -500 →
      data_provider_handle_accel_data env w data n = accel_notified env w data) := by
  intro env w data n hobs
  have hy : (accel_notified env w data).state.damped_accel_data.y
      = merge_axis w.state.damped_accel_data.y data.y (roundF32 (3 / 10)) := by
    rw [accel_notified_state env hobs, accel_merged_damped_y]
  rw [handle_accel_data_eq, hy]
  refine ⟨?_, ?_, ?_, ?_⟩
  · split_ifs
    · rw [set_orientation_damped env hobs, hy]
    · rw [set_orientation_damped env hobs, hy]
    · exact hy
  · intro h
    rw [if_pos h]
    exact ⟨set_orientation_orientation env hobs _ _, rfl⟩
  · intro h1 h2
    rw [if_neg (by omega), if_pos (by omega)]
    exact set_orientation_orientation env hobs _ _
  · intro h1 h2
    rw [if_neg (by omega), if_neg (by omega)]

/-- C3. With handlers that only observe, the orientation decision of
`data_provider_handle_accel_data` depends only on the merged `damped_accel_data.y`: below
`-700` the orientation becomes Upright, otherwise above `-500` it becomes Flat, and for
`-700 ≤ y ≤ -500` the call ends with the notification, leaving the orientation, the
transition start value and the animation as they were.  Hence from Flat the damped values
`-800, -600, -800` change the orientation once, at the first value: the second and third
call end with the notification. -/
theorem handle_accel_data_orientation :
    (∀ (env : ℕ → World → World) (w : World) (data : AccelData) (n : ℕ), Observer env →
      (data_provider_handle_accel_data env w data n).state.damped_accel_data.y
        = merge_axis w.state.damped_accel_data.y data.y (roundF32 (3 / 10)) ∧
      (merge_axis w.state.damped_accel_data.y data.y (roundF32 (3 / 10)) < -700 →
        (data_provider_handle_accel_data env w data n).state.orientation
          = DataProviderOrientation.Upright) ∧
      (-700 ≤ merge_axis w.state.damped_accel_data.y data.y (roundF32 (3 / 10)) →
        -500 < merge_axis w.state.damped_accel_data.y data.y (roundF32 (3 / 10)) →
        (data_provider_handle_accel_data env w data n).state.orientation
          = DataProviderOrientation.Flat) ∧
      (-700 ≤ merge_axis w.state.damped_accel_data.y data.y (roundF32 (3 / 10)) →
        merge_axis w.state.damped_accel_data.y data.y (roundF32 (3 / 10)) ≤ -500 →
        data_provider_handle_accel_data env w data n = accel_notified env w data ∧
        (data_provider_handle_accel_data env w data n).state.orientation
          = w.state.orientation ∧
        (data_provider_handle_accel_data env w data n).state.orientation_animation_start_value
          = w.state.orientation_animation_start_value ∧
        (data_provider_handle_accel_data env w data n).state.orientation_animation
          = w.state.orientation_animation)) ∧
    (∀ (env : ℕ → World → World) (w w1 w2 w3 : World) (d1 d2 d3 : AccelData) (n1 n2 n3 : ℕ),
      Observer env → w.state.orientation = DataProviderOrientation.Flat →
      w1 = data_provider_handle_accel_data env w d1 n1 →
      w2 = data_provider_handle_accel_data env w1 d2 n2 →
      w3 = data_provider_handle_accel_data env w2 d3 n3 →
      w1.state.damped_accel_data.y = -800 → w2.state.damped_accel_data.y = -600 →
      w3.state.damped_accel_data.y = -800 →
      w1.state.orientation = DataProviderOrientation.Upright ∧
      w2.state.orientation = DataProviderOrientation.Upright ∧
      w3.state.orientation = DataProviderOrientation.Upright ∧
      w2 = accel_notified env w1 d2 ∧ w3 = accel_notified env w2 d3) := by
  constructor
  · intro env w data n hobs
    obtain ⟨g1, g2, g3, g4⟩ := handle_accel_data_decision env w data n hobs
    refine ⟨g1, fun h => (g2 h).1, g3, fun h1 h2 => ?_⟩
    have e := g4 h1 h2
    refine ⟨e, ?_, ?_, ?_⟩ <;> rw [e, accel_notified_state env hobs] <;> rfl
  · intro env w w1 w2 w3 d1 d2 d3 n1 n2 n3 hobs hflat e1 e2 e3 y1 y2 y3
    obtain ⟨a1, a2, _, _⟩ := handle_accel_data_decision env w d1 n1 hobs
    obtain ⟨b1, _, _, b4⟩ := handle_accel_data_decision env w1 d2 n2 hobs
    obtain ⟨c1, c2, _, _⟩ := handle_accel_data_decision env w2 d3 n3 hobs
    rw [← e1] at a1 a2
    rw [← e2] at b1 b4
    rw [← e3] at c1 c2
    rw [y1] at a1
    rw [y2] at b1
    rw [y3] at c1
    rw [← a1] at a2
    rw [← b1] at b4
    rw [← c1] at c2
    have o1 : w1.state.orientation = DataProviderOrientation.Upright := (a2 (by norm_num)).1
    have s2 : w2 = accel_notified env w1 d2 := b4 (by norm_num) (by norm_num)
    have o2 : w2.state.orientation = DataProviderOrientation.Upright := by
      rw [s2, accel_notified_state env hobs]; exact o1
    have o2n : (accel_notified env w2 d3).state.orientation
        = DataProviderOrientation.Upright := by
      rw [accel_notified_state env hobs]; exact o2
    have s3 : w3 = accel_notified env w2 d3 := by
      rw [(c2 (by norm_num)).2, ← o2n, set_orientation_same]
    exact ⟨o1, o2, by rw [s3]; exact o2n, s2, s3⟩

/-- The hysteresis run on a fresh engine: the samples `-2667, -134, -1268` on the Y axis
give the damped values `-800, -600, -800`. -/
theorem hysteresis_run_values :
    (data_provider_handle_accel_data (fun _ v => v) World.rest
      ⟨0, -2667, 0, false, 0⟩ 1).state.damped_accel_data.y = -800 ∧
    (data_provider_handle_accel_data (fun _ v => v)
      (data_provider_handle_accel_data (fun _ v => v) World.rest ⟨0, -2667, 0, false, 0⟩ 1)
      ⟨0, -134, 0, false, 1⟩ 1).state.damped_accel_data.y = -600 ∧
    (data_provider_handle_accel_data (fun _ v => v)
      (data_provider_handle_accel_data (fun _ v => v)
        (data_provider_handle_accel_data (fun _ v => v) World.rest ⟨0, -2667, 0, false, 0⟩ 1)
        ⟨0, -134, 0, false, 1⟩ 1)
      ⟨0, -1268, 0, false, 2⟩ 1).state.damped_accel_data.y = -800 := by
  have hobs : Observer (fun _ v => v) := fun _ _ => rfl
  have y1 : (data_provider_handle_accel_data (fun _ v => v) World.rest
      ⟨0, -2667, 0, false, 0⟩ 1).state.damped_accel_data.y = -800 := by
    rw [(handle_accel_data_decision _ _ _ _ hobs).1]
    exact merge_axis_hysteresis_1
  have y2 : (data_provider_handle_accel_data (fun _ v => v)
      (data_provider_handle_accel_data (fun _ v => v) World.rest ⟨0, -2667, 0, false, 0⟩ 1)
      ⟨0, -134, 0, false, 1⟩ 1).state.damped_accel_data.y = -600 := by
    rw [(handle_accel_data_decision _ _ _ _ hobs).1, y1]
    exact merge_axis_hysteresis_2
  refine ⟨y1, y2, ?_⟩
  rw [(handle_accel_data_decision _ _ _ _ hobs).1, y2]
  exact merge_axis_hysteresis_3

/-- Witness of C3: the hysteresis run on a fresh engine, which starts Flat. -/
theorem handle_accel_data_orientation_witness :
    World.rest.state.orientation = DataProviderOrientation.Flat ∧
    (data_provider_handle_accel_data (fun _ v => v) World.rest
      ⟨0, -2667, 0, false, 0⟩ 1).state.orientation = DataProviderOrientation.Upright ∧
    (data_provider_handle_accel_data (fun _ v => v)
      (data_provider_handle_accel_data (fun _ v => v) World.rest ⟨0, -2667, 0, false, 0⟩ 1)
      ⟨0, -134, 0, false, 1⟩ 1).state.orientation = DataProviderOrientation.Upright ∧
    (data_provider_handle_accel_data (fun _ v => v)
      (data_provider_handle_accel_data (fun _ v => v)
        (data_provider_handle_accel_data (fun _ v => v) World.rest ⟨0, -2667, 0, false, 0⟩ 1)
        ⟨0, -134, 0, false, 1⟩ 1)
      ⟨0, -1268, 0, false, 2⟩ 1).state.orientation = DataProviderOrientation.Upright :=
  ⟨rfl,
    (handle_accel_data_orientation.2 (fun _ v => v) World.rest _ _ _
      ⟨0, -2667, 0, false, 0⟩ ⟨0, -134, 0, false, 1⟩ ⟨0, -1268, 0, false, 2⟩ 1 1 1
      (fun _ _ => rfl) rfl rfl rfl rfl hysteresis_run_values.1 hysteresis_run_values.2.1
      hysteresis_run_values.2.2).1,
    (handle_accel_data_orientation.2 (fun _ v => v) World.rest _ _ _
      ⟨0, -2667, 0, false, 0⟩ ⟨0, -134, 0, false, 1⟩ ⟨0, -1268, 0, false, 2⟩ 1 1 1
      (fun _ _ => rfl) rfl rfl rfl rfl hysteresis_run_values.1 hysteresis_run_values.2.1
      hysteresis_run_values.2.2).2.1,
    (handle_accel_data_orientation.2 (fun _ v => v) World.rest _ _ _
      ⟨0, -2667, 0, false, 0⟩ ⟨0, -134, 0, false, 1⟩ ⟨0, -1268, 0, false, 2⟩ 1 1 1
      (fun _ _ => rfl) rfl rfl rfl rfl hysteresis_run_values.1 hysteresis_run_values.2.1
      hysteresis_run_values.2.2).2.2.1⟩


/-! ## C4: the accelerometer filter under a constant sample -/

theorem truncate_bounds (q : ℚ) :
    |(truncate q : ℚ) - q| < 1 ∧ (0 ≤ q → (truncate q : ℚ) ≤ q) ∧ (q ≤ 0 → q ≤ truncate q) := by
  unfold truncate
  split_ifs with h
  · have h1 := Int.floor_le q
    have h2 := Int.lt_floor_add_one q
    refine ⟨by rw [abs_lt]; constructor <;> linarith, fun _ => h1, fun h0 => ?_⟩
    have : q = 0 := le_antisymm h0 h
    subst this; simp
  · push_neg at h
    have h1 := Int.floor_le (-q)
    have h2 := Int.lt_floor_add_one (-q)
    push_cast
    refine ⟨by rw [abs_lt]; constructor <;> linarith, fun h0 => by linarith, fun _ => by linarith⟩

/-- The rounding error of the filter sum `next * factor + g * dest` on 16-bit operands. -/
theorem merge_sum_error (d S : ℤ) (c g : ℚ) (hc0 : 0 ≤ c) (hc1 : c ≤ 1) (hg0 : 0 ≤ g)
    (hg1 : g ≤ 1) (hd : InInt16 d) (hS : InInt16 S) :
    |roundF32 (roundF32 ((S : ℚ) * c) + roundF32 (g * (d : ℚ))) - ((S : ℚ) * c + g * d)|
      ≤ 1 / 128 := by
  unfold InInt16 at hd hS
  have hd1 : (-32768 : ℚ) ≤ d := by exact_mod_cast hd.1
  have hd2 : (d : ℚ) ≤ 32768 := by have := hd.2; exact_mod_cast (by omega : d ≤ 32768)
  have hS1 : (-32768 : ℚ) ≤ S := by exact_mod_cast hS.1
  have hS2 : (S : ℚ) ≤ 32768 := by have := hS.2; exact_mod_cast (by omega : S ≤ 32768)
  have b1 : |(S : ℚ) * c| < 2 ^ (16 : ℤ) := by
    rw [abs_mul, abs_of_nonneg hc0]
    have : |(S : ℚ)| ≤ 32768 := abs_le.mpr ⟨hS1, hS2⟩
    have h := abs_nonneg (S : ℚ)
    norm_num
    nlinarith
  have b2 : |g * (d : ℚ)| < 2 ^ (16 : ℤ) := by
    rw [abs_mul, abs_of_nonneg hg0]
    have : |(d : ℚ)| ≤ 32768 := abs_le.mpr ⟨hd1, hd2⟩
    have h := abs_nonneg (d : ℚ)
    norm_num
    nlinarith
  have e1 := abs_roundF32_sub_le_of_lt b1 (by norm_num)
  have e2 := abs_roundF32_sub_le_of_lt b2 (by norm_num)
  norm_num at e1 e2 b1 b2
  have e1' := abs_le.mp e1
  have e2' := abs_le.mp e2
  have b1' := abs_lt.mp b1
  have b2' := abs_lt.mp b2
  have c1 : -32768 ≤ (S : ℚ) * c ∧ (S : ℚ) * c ≤ 32768 := by
    constructor <;> nlinarith
  have c2 : -32768 ≤ g * (d : ℚ) ∧ g * (d : ℚ) ≤ 32768 := by
    constructor <;> nlinarith
  have b3 : |roundF32 ((S : ℚ) * c) + roundF32 (g * (d : ℚ))| < 2 ^ (17 : ℤ) := by
    rw [abs_lt]; norm_num; constructor <;> linarith
  have e3 := abs_roundF32_sub_le_of_lt b3 (by norm_num)
  norm_num at e3
  have e3' := abs_le.mp e3
  rw [abs_le]
  constructor <;> linarith

/-- One step of the filter on 16-bit operands, for a factor `c` whose complement `g = 1 - c`
is a binary32 value: the result is a 16-bit value whose distance to the sample is below
`g` times the old distance plus the truncation of the cast. -/
theorem merge_axis_step (d S : ℤ) (c g : ℚ) (hc0 : 0 ≤ c) (hg0 : 0 ≤ g) (hcg : c + g = 1)
    (hround : roundF32 (1 - c) = g) (hd : InInt16 d) (hS : InInt16 S) :
    InInt16 (merge_axis d S c) ∧
    |((merge_axis d S c : ℤ) : ℚ) - S| < 1 + 1 / 128 + g * |(d : ℚ) - S| := by
  have hdS := hd
  have hSS := hS
  unfold InInt16 at hd hS
  have hd1 : (-32768 : ℚ) ≤ d := by exact_mod_cast hd.1
  have hd2 : (d : ℚ) ≤ 32767 := by exact_mod_cast (by omega : d ≤ 32767)
  have hS1 : (-32768 : ℚ) ≤ S := by exact_mod_cast hS.1
  have hS2 : (S : ℚ) ≤ 32767 := by exact_mod_cast (by omega : S ≤ 32767)
  have hc1 : c ≤ 1 := by linarith
  have hg1 : g ≤ 1 := by linarith
  have herr := abs_le.mp (merge_sum_error d S c g hc0 hc1 hg0 hg1 hdS hSS)
  have hsum : (S : ℚ) * c + g * d = S + g * ((d : ℚ) - S) := by
    have : c = 1 - g := by linarith
    rw [this]; ring
  rw [hsum] at herr
  have tb := truncate_bounds (roundF32 (roundF32 ((S : ℚ) * c) + roundF32 (g * (d : ℚ))))
  have hval : merge_axis d S c
      = wrap_int16 (truncate (roundF32 (roundF32 ((S : ℚ) * c) + roundF32 (g * (d : ℚ))))) := by
    unfold merge_axis int16_of_float f32_add f32_mul f32_sub float_of_int
    rw [hround, roundF32_intCast S (by rw [abs_le]; constructor <;> omega),
      roundF32_intCast d (by rw [abs_le]; constructor <;> omega)]
  generalize roundF32 (roundF32 ((S : ℚ) * c) + roundF32 (g * (d : ℚ))) = s at herr tb hval
  obtain ⟨t1, t2, t3⟩ := tb
  have t1' := abs_lt.mp t1
  -- the exact filter value lies between the two operands
  have hmid : -32768 ≤ (S : ℚ) + g * ((d : ℚ) - S) ∧ (S : ℚ) + g * ((d : ℚ) - S) ≤ 32767 := by
    rcases le_total (S : ℚ) d with h | h
    · constructor <;> nlinarith
    · constructor <;> nlinarith
  have hin : InInt16 (truncate s) := by
    unfold InInt16
    rcases le_total 0 s with h | h
    · have h1 := t2 h
      have h2 : ((truncate s : ℤ) : ℚ) < 32768 := by linarith
      have h3 : ((-1 : ℤ) : ℚ) < (truncate s : ℤ) := by push_cast; linarith
      have h4 : truncate s < 32768 := by exact_mod_cast h2
      have h5 : -1 < truncate s := by exact_mod_cast h3
      constructor <;> omega
    · have h1 := t3 h
      have h2 : ((-32769 : ℤ) : ℚ) < (truncate s : ℤ) := by push_cast; linarith
      have h3 : ((truncate s : ℤ) : ℚ) < 1 := by linarith
      have h4 : -32769 < truncate s := by exact_mod_cast h2
      have h5 : truncate s < 1 := by exact_mod_cast h3
      constructor <;> omega
  rw [hval, wrap_int16_eq hin]
  refine ⟨hin, ?_⟩
  have habs : |g * ((d : ℚ) - S)| = g * |(d : ℚ) - S| := by
    rw [abs_mul, abs_of_nonneg hg0]
  have hg2 := le_abs_self (g * ((d : ℚ) - S))
  have hg3 := neg_abs_le (g * ((d : ℚ) - S))
  rw [habs] at hg2 hg3
  rw [abs_lt]
  constructor <;> linarith

/-- One step of the lightly damped filter (factor `0.3f`). -/
theorem merge_axis_damped (d S : ℤ) (hd : InInt16 d) (hS : InInt16 S) :
    InInt16 (merge_axis d S (roundF32 (3 / 10))) ∧
    10 * |merge_axis d S (roundF32 (3 / 10)) - S| ≤ 7 * |d - S| + 10 := by
  rw [roundF32_c03]
  have hround : roundF32 (1 - 5033165 / 16777216) = 11744051 / 16777216 := by
    rw [show (1 - 5033165 / 16777216 : ℚ) = 11744051 / 16777216 by norm_num,
      roundF32_eq_of_near (11744051 / 16777216) (-1) 11744051 (by norm_num) (by norm_num)
        (by norm_num) (by norm_num) (by norm_num)]
    norm_num
  obtain ⟨h1, h2⟩ := merge_axis_step d S (5033165 / 16777216) (11744051 / 16777216)
    (by norm_num) (by norm_num) (by norm_num) hround hd hS
  refine ⟨h1, ?_⟩
  have h3 : (0 : ℚ) ≤ |(d : ℚ) - S| := abs_nonneg _
  have h4 : ((10 * |merge_axis d S (5033165 / 16777216) - S| : ℤ) : ℚ)
      < ((7 * |d - S| + 11 : ℤ) : ℚ) := by
    push_cast
    linarith
  have h5 : 10 * |merge_axis d S (5033165 / 16777216) - S| < 7 * |d - S| + 11 := by
    exact_mod_cast h4
  omega

/-- One step of the heavily damped filter (factor `0.99f`). -/
theorem merge_axis_last (d S : ℤ) (hd : InInt16 d) (hS : InInt16 S) :
    InInt16 (merge_axis d S (roundF32 (99 / 100))) ∧
    100 * |merge_axis d S (roundF32 (99 / 100)) - S| ≤ |d - S| + 100 := by
  rw [roundF32_c099]
  have hround : roundF32 (1 - 4152361 / 4194304) = 41943 / 4194304 := by
    rw [show (1 - 4152361 / 4194304 : ℚ) = 41943 / 4194304 by norm_num,
      roundF32_eq_of_near (41943 / 4194304) (-7) 10737408 (by norm_num) (by norm_num)
        (by norm_num) (by norm_num) (by norm_num)]
    norm_num
  obtain ⟨h1, h2⟩ := merge_axis_step d S (4152361 / 4194304) (41943 / 4194304)
    (by norm_num) (by norm_num) (by norm_num) hround hd hS
  refine ⟨h1, ?_⟩
  have h3 : (0 : ℚ) ≤ |(d : ℚ) - S| := abs_nonneg _
  have h4 : ((100 * |merge_axis d S (4152361 / 4194304) - S| : ℤ) : ℚ)
      < ((|d - S| + 101 : ℤ) : ℚ) := by
    push_cast
    linarith
  have h5 : 100 * |merge_axis d S (4152361 / 4194304) - S| < |d - S| + 101 := by
    exact_mod_cast h4
  omega

/-- A map of the integers that keeps errors within `B` and shrinks larger ones brings every
start value within `B` of `S` after finitely many steps, for good. -/
theorem iterate_settles (P : ℤ → Prop) (f : ℤ → ℤ) (S B : ℤ)
    (h : ∀ d, P d → P (f d) ∧ (|d - S| ≤ B → |f d - S| ≤ B) ∧
      (B < |d - S| → |f d - S| < |d - S|)) (m : ℕ) :
    ∀ d, P d → (|d - S|).toNat ≤ m → ∃ N, ∀ n, N ≤ n → |f^[n] d - S| ≤ B := by
  have stay : ∀ d, P d → |d - S| ≤ B → ∀ n, P (f^[n] d) ∧ |f^[n] d - S| ≤ B := by
    intro d hd hb n
    induction n with
    | zero => exact ⟨hd, hb⟩
    | succ n ih =>
      rw [Function.iterate_succ_apply']
      exact ⟨(h _ ih.1).1, (h _ ih.1).2.1 ih.2⟩
  induction m with
  | zero =>
    intro d hd hm
    have h0 : |d - S| = 0 := by have := abs_nonneg (d - S); omega
    rcases le_or_lt (|d - S|) B with hb | hb
    · exact ⟨0, fun n _ => (stay d hd hb n).2⟩
    · have := (h d hd).2.2 hb
      have := abs_nonneg (f d - S)
      omega
  | succ m ih =>
    intro d hd hm
    rcases le_or_lt (|d - S|) B with hb | hb
    · exact ⟨0, fun n _ => (stay d hd hb n).2⟩
    · have hlt := (h d hd).2.2 hb
      have := abs_nonneg (f d - S)
      obtain ⟨N, hN⟩ := ih (f d) (h d hd).1 (by omega)
      refine ⟨N + 1, fun n hn => ?_⟩
      obtain ⟨k, rfl⟩ : ∃ k, n = k + 1 := ⟨n - 1, by omega⟩
      rw [Function.iterate_succ_apply]
      exact hN k (by omega)

theorem damped_axis_settles (S : ℤ) (hS : InInt16 S) (d : ℤ) (hd : InInt16 d) :
    ∃ N, ∀ n, N ≤ n → |(fun a => merge_axis a S (roundF32 (3 / 10)))^[n] d - S| ≤ 3 := by
  refine iterate_settles InInt16 _ S 3 (fun a ha => ?_) _ d hd le_rfl
  obtain ⟨h1, h2⟩ := merge_axis_damped a S ha hS
  refine ⟨h1, fun hb => ?_, fun hb => ?_⟩
  · have := abs_nonneg (merge_axis a S (roundF32 (3 / 10)) - S); omega
  · have := abs_nonneg (merge_axis a S (roundF32 (3 / 10)) - S); omega

theorem last_axis_settles (S : ℤ) (hS : InInt16 S) (d : ℤ) (hd : InInt16 d) :
    ∃ N, ∀ n, N ≤ n → |(fun a => merge_axis a S (roundF32 (99 / 100)))^[n] d - S| ≤ 1 := by
  refine iterate_settles InInt16 _ S 1 (fun a ha => ?_) _ d hd le_rfl
  obtain ⟨h1, h2⟩ := merge_axis_last a S ha hS
  refine ⟨h1, fun hb => ?_, fun hb => ?_⟩
  · have := abs_nonneg (merge_axis a S (roundF32 (99 / 100)) - S); omega
  · have := abs_nonneg (merge_axis a S (roundF32 (99 / 100)) - S); omega

theorem set_orientation_accel (env : ℕ → World → World) (hobs : Observer env) (w : World)
    (o : DataProviderOrientation) :
    (data_provider_set_orientation env w o).state.damped_accel_data
      = w.state.damped_accel_data ∧
    (data_provider_set_orientation env w o).state.last_accel_data = w.state.last_accel_data := by
  by_cases h : w.state.orientation = o
  · rw [← h, set_orientation_same]; exact ⟨rfl, rfl⟩
  · rw [set_orientation_state env hobs w o h]; exact ⟨rfl, rfl⟩

/-- The two filters after one call of the accelerometer callback. -/
theorem handle_accel_data_filters (env : ℕ → World → World) (hobs : Observer env) (w : World)
    (data : AccelData) (k : ℕ) :
    (data_provider_handle_accel_data env w data k).state.damped_accel_data
      = merge_accel_data w.state.damped_accel_data data (roundF32 (3 / 10)) ∧
    (data_provider_handle_accel_data env w data k).state.last_accel_data
      = merge_accel_data w.state.last_accel_data data (roundF32 (99 / 100)) := by
  have hn := accel_notified_state env hobs w data
  rw [handle_accel_data_eq]
  split_ifs
  · rw [(set_orientation_accel env hobs _ _).1, (set_orientation_accel env hobs _ _).2, hn]
    exact ⟨rfl, rfl⟩
  · rw [(set_orientation_accel env hobs _ _).1, (set_orientation_accel env hobs _ _).2, hn]
    exact ⟨rfl, rfl⟩
  · rw [hn]; exact ⟨rfl, rfl⟩

/-- The axes of the two filters along a run are the iterates of the axis filter. -/
theorem accel_repeat_axes (env : ℕ → World → World) (hobs : Observer env) (w : World)
    (S : AccelData) (n : ℕ) :
    (accel_repeat env S n w).state.damped_accel_data.x
      = (fun a => merge_axis a S.x (roundF32 (3 / 10)))^[n] w.state.damped_accel_data.x ∧
    (accel_repeat env S n w).state.damped_accel_data.y
      = (fun a => merge_axis a S.y (roundF32 (3 / 10)))^[n] w.state.damped_accel_data.y ∧
    (accel_repeat env S n w).state.damped_accel_data.z
      = (fun a => merge_axis a S.z (roundF32 (3 / 10)))^[n] w.state.damped_accel_data.z ∧
    (accel_repeat env S n w).state.last_accel_data.x
      = (fun a => merge_axis a S.x (roundF32 (99 / 100)))^[n] w.state.last_accel_data.x ∧
    (accel_repeat env S n w).state.last_accel_data.y
      = (fun a => merge_axis a S.y (roundF32 (99 / 100)))^[n] w.state.last_accel_data.y ∧
    (accel_repeat env S n w).state.last_accel_data.z
      = (fun a => merge_axis a S.z (roundF32 (99 / 100)))^[n] w.state.last_accel_data.z := by
  induction n with
  | zero => exact ⟨rfl, rfl, rfl, rfl, rfl, rfl⟩
  | succ n ih =>
    obtain ⟨i1, i2, i3, i4, i5, i6⟩ := ih
    have e : accel_repeat env S (n + 1) w
        = data_provider_handle_accel_data env (accel_repeat env S n w) S 1 := by
      unfold accel_repeat; rw [Function.iterate_succ_apply']
    obtain ⟨f1, f2⟩ := handle_accel_data_filters env hobs (accel_repeat env S n w) S 1
    rw [e, f1, f2]
    simp only [Function.iterate_succ_apply', merge_accel_data, i1, i2, i3, i4, i5, i6]
    exact ⟨trivial, trivial, trivial, trivial, trivial, trivial⟩

theorem iterate_inInt16 (f : ℤ → ℤ) (h : ∀ d, InInt16 d → InInt16 (f d)) (d : ℤ)
    (hd : InInt16 d) (n : ℕ) : InInt16 (f^[n] d) := by
  induction n with
  | zero => exact hd
  | succ n ih => rw [Function.iterate_succ_apply']; exact h _ ih

/-- The lightly damped filter at `0` does not move toward the sample `1`. -/
theorem merge_axis_stuck_damped :
    merge_axis (0 : ℤ) (1 : ℤ) (roundF32 (3 / 10)) = (0 : ℤ) := by
  have e1 : roundF32 (((1 : ℤ) : ℚ)) = ((1 : ℤ) : ℚ) :=
    roundF32_intCast _ (by norm_num)
  have e2 : roundF32 (((0 : ℤ) : ℚ)) = ((0 : ℤ) : ℚ) :=
    roundF32_intCast _ (by norm_num)
  have e3 : roundF32 (((1 : ℤ) : ℚ) * (5033165 / 16777216 : ℚ))
      = (5033165 / 16777216 : ℚ) := by
    have hv : (((1 : ℤ) : ℚ) * (5033165 / 16777216 : ℚ)) = (5033165 / 16777216 : ℚ) := by norm_num
    rw [hv, roundF32_eq_of_near (5033165 / 16777216 : ℚ) (-2) 10066330
      (by norm_num) (by norm_num) (by norm_num) (by norm_num) (by norm_num)]
    norm_num
  have e4 : roundF32 (1 - (5033165 / 16777216 : ℚ))
      = (11744051 / 16777216 : ℚ) := by
    have hv : (1 - (5033165 / 16777216 : ℚ)) = (11744051 / 16777216 : ℚ) := by norm_num
    rw [hv, roundF32_eq_of_near (11744051 / 16777216 : ℚ) (-1) 11744051
      (by norm_num) (by norm_num) (by norm_num) (by norm_num) (by norm_num)]
    norm_num
  have e5 : roundF32 ((11744051 / 16777216 : ℚ) * ((0 : ℤ) : ℚ))
      = (0 : ℚ) := by
    rw [show ((11744051 / 16777216 : ℚ) * ((0 : ℤ) : ℚ)) = (0 : ℚ) by norm_num, roundF32_zero]
  have e6 : roundF32 ((5033165 / 16777216 : ℚ) + (0 : ℚ))
      = (5033165 / 16777216 : ℚ) := by
    have hv : ((5033165 / 16777216 : ℚ) + (0 : ℚ)) = (5033165 / 16777216 : ℚ) := by norm_num
    rw [hv, roundF32_eq_of_near (5033165 / 16777216 : ℚ) (-2) 10066330
      (by norm_num) (by norm_num) (by norm_num) (by norm_num) (by norm_num)]
    norm_num
  have e7 : truncate (5033165 / 16777216 : ℚ) = (0 : ℤ) := by
    exact truncate_eq_of_nonneg _ (by norm_num) (by norm_num) (by norm_num)
  unfold merge_axis int16_of_float f32_add f32_mul f32_sub float_of_int
  rw [roundF32_c03, e1, e2, e3, e4, e5, e6, e7]
  unfold wrap_int16; norm_num

/-- The heavily damped filter at `0` does not move toward the sample `1`. -/
theorem merge_axis_stuck_last :
    merge_axis (0 : ℤ) (1 : ℤ) (roundF32 (99 / 100)) = (0 : ℤ) := by
  have e1 : roundF32 (((1 : ℤ) : ℚ)) = ((1 : ℤ) : ℚ) :=
    roundF32_intCast _ (by norm_num)
  have e2 : roundF32 (((0 : ℤ) : ℚ)) = ((0 : ℤ) : ℚ) :=
    roundF32_intCast _ (by norm_num)
  have e3 : roundF32 (((1 : ℤ) : ℚ) * (4152361 / 4194304 : ℚ))
      = (4152361 / 4194304 : ℚ) := by
    have hv : (((1 : ℤ) : ℚ) * (4152361 / 4194304 : ℚ)) = (4152361 / 4194304 : ℚ) := by norm_num
    rw [hv, roundF32_eq_of_near (4152361 / 4194304 : ℚ) (-1) 16609444
      (by norm_num) (by norm_num) (by norm_num) (by norm_num) (by norm_num)]
    norm_num
  have e4 : roundF32 (1 - (4152361 / 4194304 : ℚ))
      = (41943 / 4194304 : ℚ) := by
    have hv : (1 - (4152361 / 4194304 : ℚ)) = (41943 / 4194304 : ℚ) := by norm_num
    rw [hv, roundF32_eq_of_near (41943 / 4194304 : ℚ) (-7) 10737408
      (by norm_num) (by norm_num) (by norm_num) (by norm_num) (by norm_num)]
    norm_num
  have e5 : roundF32 ((41943 / 4194304 : ℚ) * ((0 : ℤ) : ℚ))
      = (0 : ℚ) := by
    rw [show ((41943 / 4194304 : ℚ) * ((0 : ℤ) : ℚ)) = (0 : ℚ) by norm_num, roundF32_zero]
  have e6 : roundF32 ((4152361 / 4194304 : ℚ) + (0 : ℚ))
      = (4152361 / 4194304 : ℚ) := by
    have hv : ((4152361 / 4194304 : ℚ) + (0 : ℚ)) = (4152361 / 4194304 : ℚ) := by norm_num
    rw [hv, roundF32_eq_of_near (4152361 / 4194304 : ℚ) (-1) 16609444
      (by norm_num) (by norm_num) (by norm_num) (by norm_num) (by norm_num)]
    norm_num
  have e7 : truncate (4152361 / 4194304 : ℚ) = (0 : ℤ) := by
    exact truncate_eq_of_nonneg _ (by norm_num) (by norm_num) (by norm_num)
  unfold merge_axis int16_of_float f32_add f32_mul f32_sub float_of_int
  rw [roundF32_c099, e1, e2, e3, e4, e5, e6, e7]
  unfold wrap_int16; norm_num

/-- C4, as amended.  Under a constant incoming sample `S` (handlers that only observe, all
axes 16-bit values) the filters approach `S` up to the truncation of the cast: at every call
each axis error of `damped_accel_data` obeys `|error'| ≤ 0.7 * |error| + 1` and each axis
error of `last_accel_data` obeys `|error'| ≤ 0.01 * |error| + 1`, and after finitely many
calls every axis of `damped_accel_data` stays within 3 of `S` and every axis of
`last_accel_data` within 1 of `S`. -/
theorem accel_filter_settles (env : ℕ → World → World) (w : World) (S : AccelData)
    (hobs : Observer env) (hS : AccelInInt16 S) (hl : AccelInInt16 w.state.last_accel_data)
    (hd : AccelInInt16 w.state.damped_accel_data) :
    (∀ n,
      AccelShrinks 7 10 (accel_repeat env S n w).state.damped_accel_data
        (accel_repeat env S (n + 1) w).state.damped_accel_data S ∧
      AccelShrinks 1 100 (accel_repeat env S n w).state.last_accel_data
        (accel_repeat env S (n + 1) w).state.last_accel_data S) ∧
    ∃ N, ∀ n, N ≤ n →
      AccelWithin 3 (accel_repeat env S n w).state.damped_accel_data S ∧
      AccelWithin 1 (accel_repeat env S n w).state.last_accel_data S := by
  obtain ⟨sx, sy, sz⟩ := hS
  obtain ⟨lx, ly, lz⟩ := hl
  obtain ⟨dx, dy, dz⟩ := hd
  have hD : ∀ (s : ℤ), InInt16 s → ∀ a, InInt16 a → InInt16 (merge_axis a s (roundF32 (3 / 10))) :=
    fun s hs a ha => (merge_axis_damped a s ha hs).1
  have hL : ∀ (s : ℤ), InInt16 s → ∀ a, InInt16 a →
      InInt16 (merge_axis a s (roundF32 (99 / 100))) :=
    fun s hs a ha => (merge_axis_last a s ha hs).1
  constructor
  · intro n
    obtain ⟨a1, a2, a3, a4, a5, a6⟩ := accel_repeat_axes env hobs w S n
    obtain ⟨b1, b2, b3, b4, b5, b6⟩ := accel_repeat_axes env hobs w S (n + 1)
    unfold AccelShrinks
    rw [a1, a2, a3, a4, a5, a6, b1, b2, b3, b4, b5, b6]
    simp only [Function.iterate_succ_apply']
    exact ⟨⟨(merge_axis_damped _ _ (iterate_inInt16 _ (hD _ sx) _ dx n) sx).2,
        (merge_axis_damped _ _ (iterate_inInt16 _ (hD _ sy) _ dy n) sy).2,
        (merge_axis_damped _ _ (iterate_inInt16 _ (hD _ sz) _ dz n) sz).2⟩,
      ⟨by rw [one_mul]; exact (merge_axis_last _ _ (iterate_inInt16 _ (hL _ sx) _ lx n) sx).2,
        by rw [one_mul]; exact (merge_axis_last _ _ (iterate_inInt16 _ (hL _ sy) _ ly n) sy).2,
        by rw [one_mul]; exact (merge_axis_last _ _ (iterate_inInt16 _ (hL _ sz) _ lz n) sz).2⟩⟩
  · obtain ⟨N1, h1⟩ := damped_axis_settles S.x sx _ dx
    obtain ⟨N2, h2⟩ := damped_axis_settles S.y sy _ dy
    obtain ⟨N3, h3⟩ := damped_axis_settles S.z sz _ dz
    obtain ⟨N4, h4⟩ := last_axis_settles S.x sx _ lx
    obtain ⟨N5, h5⟩ := last_axis_settles S.y sy _ ly
    obtain ⟨N6, h6⟩ := last_axis_settles S.z sz _ lz
    refine ⟨N1 + N2 + N3 + N4 + N5 + N6, fun n hn => ?_⟩
    obtain ⟨a1, a2, a3, a4, a5, a6⟩ := accel_repeat_axes env hobs w S n
    unfold AccelWithin
    rw [a1, a2, a3, a4, a5, a6]
    exact ⟨⟨h1 n (by omega), h2 n (by omega), h3 n (by omega)⟩,
      ⟨h4 n (by omega), h5 n (by omega), h6 n (by omega)⟩⟩

/-- Witness of C4 (amended): a fresh engine fed the constant sample `(100, -800, 1000)`. -/
theorem accel_filter_settles_witness :
    AccelInInt16 ⟨100, -800, 1000, false, 0⟩ ∧
    ∃ N, ∀ n, N ≤ n →
      AccelWithin 3 (accel_repeat (fun _ v => v) ⟨100, -800, 1000, false, 0⟩ n
        World.rest).state.damped_accel_data ⟨100, -800, 1000, false, 0⟩ ∧
      AccelWithin 1 (accel_repeat (fun _ v => v) ⟨100, -800, 1000, false, 0⟩ n
        World.rest).state.last_accel_data ⟨100, -800, 1000, false, 0⟩ :=
  ⟨by unfold AccelInInt16 InInt16; norm_num,
    (accel_filter_settles (fun _ v => v) World.rest ⟨100, -800, 1000, false, 0⟩
      (fun _ _ => rfl) (by unfold AccelInInt16 InInt16; norm_num)
      (by show AccelInInt16 ⟨0, 0, 0, false, 0⟩; unfold AccelInInt16 InInt16; norm_num)
      (by show AccelInInt16 ⟨0, 0, 0, false, 0⟩; unfold AccelInInt16 InInt16; norm_num)).2⟩

/-- Counterexample to C4 as stated: a fresh engine (all axes 0) fed the constant sample with
`x = 1` never reaches it, in neither filter; both stay at 0. -/
theorem accel_filter_stuck :
    (¬ ∃ n, (accel_repeat (fun _ v => v) ⟨1, 0, 0, false, 0⟩ n
      World.rest).state.damped_accel_data.x = 1) ∧
    (¬ ∃ n, (accel_repeat (fun _ v => v) ⟨1, 0, 0, false, 0⟩ n
      World.rest).state.last_accel_data.x = 1) := by
  have hobs : Observer (fun _ v => v) := fun _ _ => rfl
  constructor
  · rintro ⟨n, hn⟩
    rw [(accel_repeat_axes _ hobs World.rest ⟨1, 0, 0, false, 0⟩ n).1] at hn
    have hfix : (fun a => merge_axis a 1 (roundF32 (3 / 10)))^[n] 0 = 0 :=
      Function.iterate_fixed (f := fun a => merge_axis a 1 (roundF32 (3 / 10))) (x := 0)
        merge_axis_stuck_damped n
    have h0 : World.rest.state.damped_accel_data.x = 0 := rfl
    rw [h0] at hn
    change (fun a => merge_axis a 1 (roundF32 (3 / 10)))^[n] 0 = 1 at hn
    rw [hfix] at hn
    exact absurd hn (by norm_num)
  · rintro ⟨n, hn⟩
    rw [(accel_repeat_axes _ hobs World.rest ⟨1, 0, 0, false, 0⟩ n).2.2.2.1] at hn
    have hfix : (fun a => merge_axis a 1 (roundF32 (99 / 100)))^[n] 0 = 0 :=
      Function.iterate_fixed (f := fun a => merge_axis a 1 (roundF32 (99 / 100))) (x := 0)
        merge_axis_stuck_last n
    have h0 : World.rest.state.last_accel_data.x = 0 := rfl
    rw [h0] at hn
    change (fun a => merge_axis a 1 (roundF32 (99 / 100)))^[n] 0 = 1 at hn
    rw [hfix] at hn
    exact absurd hn (by norm_num)


/-! ## C5: interrupted orientation transitions -/

theorem other_ne (o : DataProviderOrientation) : o ≠ o.other := by
  cases o <;> simp [DataProviderOrientation.other]

theorem quiet_observer {env : ℕ → World → World} (h : Quiet env) : Observer env :=
  fun k v => (h k v).1

theorem call_handler_animations_of_quiet {env : ℕ → World → World} (h : Quiet env) (w : World)
    (handler : Option ℕ) :
    (call_handler_if_set env w handler).sys.animations = w.sys.animations := by
  cases handler with
  | none => rfl
  | some k => exact (h k w).2

theorem modifyAt_length_append {α : Type} (f : α → α) (l : List α) (a : α) :
    modifyAt f l.length (l ++ [a]) = l ++ [f a] := by
  induction l with
  | nil => rfl
  | cons b l ih => simp [modifyAt, ih]

/-- An actual orientation change with no animation yet creates one: 200 ms, bound to the
engine, scheduled. -/
theorem set_orientation_creates (env : ℕ → World → World) (hq : Quiet env) (w : World)
    (o : DataProviderOrientation) (h : w.state.orientation ≠ o)
    (hn : w.state.orientation_animation = none) :
    (data_provider_set_orientation env w o).state.orientation_animation
      = some w.sys.animations.length ∧
    (data_provider_set_orientation env w o).sys.animations
      = w.sys.animations ++ [transition_animation_scheduled] := by
  unfold data_provider_set_orientation
  rw [if_neg h]
  simp only [call_handler_state_of_observer (quiet_observer hq), hn, animation_create,
    animation_schedule, call_handler_animations_of_quiet hq, modifyAt_length_append]
  exact ⟨trivial, rfl⟩

/-- An actual orientation change with an animation at hand unschedules and reschedules
that animation. -/
theorem set_orientation_restarts (env : ℕ → World → World) (hq : Quiet env) (w : World)
    (o : DataProviderOrientation) (a : ℕ) (h : w.state.orientation ≠ o)
    (hs : w.state.orientation_animation = some a) :
    (data_provider_set_orientation env w o).state.orientation_animation = some a ∧
    (data_provider_set_orientation env w o).sys.animations
      = (animation_schedule (animation_unschedule w.sys a) a).animations := by
  unfold data_provider_set_orientation
  rw [if_neg h]
  simp only [call_handler_state_of_observer (quiet_observer hq), hs, animation_unschedule,
    animation_schedule, call_handler_animations_of_quiet hq]
  exact ⟨trivial, trivial⟩

theorem set_orientation_start_value (env : ℕ → World → World) (hq : Quiet env) (w : World)
    (o : DataProviderOrientation) (h : w.state.orientation ≠ o) :
    (data_provider_set_orientation env w o).state.orientation_animation_start_value
      = w.state.orientation_transition_factor := by
  rw [set_orientation_state env (quiet_observer hq) w o h]

/-- The update callback writes the transition factor and nothing else of the engine state,
when the handlers only observe. -/
theorem update_transition_factor_state (env : ℕ → World → World) (hobs : Observer env)
    (M : ℕ) (w : World) (t : ℕ) :
    (data_provider_update_transition_factor env M w t).state
      = { w.state with
          orientation_transition_factor :=
            (data_provider_update_transition_factor env M w t).state.orientation_transition_factor } := by
  unfold data_provider_update_transition_factor data_provider_set_orientation_transition_factor
  simp only [call_handler_state_of_observer hobs]

theorem update_transition_factor_animations (env : ℕ → World → World) (hq : Quiet env)
    (M : ℕ) (w : World) (t : ℕ) :
    (data_provider_update_transition_factor env M w t).sys.animations = w.sys.animations := by
  unfold data_provider_update_transition_factor data_provider_set_orientation_transition_factor
  simp only [call_handler_animations_of_quiet hq]

/-- A frame of the animation driver leaves the animation and the orientation alone. -/
theorem animation_frame_keeps (env : ℕ → World → World) (hq : Quiet env) (M : ℕ) (w : World)
    (t : ℕ) :
    (animation_frame env M w t).state.orientation_animation = w.state.orientation_animation ∧
    (animation_frame env M w t).state.orientation = w.state.orientation ∧
    (animation_frame env M w t).sys.animations = w.sys.animations := by
  unfold animation_frame
  split
  · exact ⟨rfl, rfl, rfl⟩
  · split
    · split_ifs
      · rw [update_transition_factor_state env (quiet_observer hq),
          update_transition_factor_animations env hq]
        exact ⟨rfl, rfl, rfl⟩
      · exact ⟨rfl, rfl, rfl⟩
    · exact ⟨rfl, rfl, rfl⟩

theorem interrupted_transitions_append (env : ℕ → World → World) (M : ℕ) (ts : List ℕ) (t : ℕ)
    (w : World) :
    interrupted_transitions env M (ts ++ [t]) w
      = data_provider_set_orientation env
          (animation_frame env M (interrupted_transitions env M ts w) t)
          (animation_frame env M (interrupted_transitions env M ts w) t).state.orientation.other := by
  induction ts generalizing w with
  | nil => rfl
  | cons s ts ih =>
    show interrupted_transitions env M (ts ++ [t]) _ = _
    rw [ih]
    rfl

/-- Along a run of interrupted transitions on a platform without animations there is no
animation before the first call and exactly one, scheduled, after every call. -/
theorem interrupted_transitions_animation (env : ℕ → World → World) (hq : Quiet env) (M : ℕ)
    (ts : List ℕ) (w : World) (hn : w.state.orientation_animation = none)
    (ha : w.sys.animations = []) :
    (ts = [] ∧ (interrupted_transitions env M ts w).state.orientation_animation = none ∧
      (interrupted_transitions env M ts w).sys.animations = []) ∨
    (ts ≠ [] ∧ (interrupted_transitions env M ts w).state.orientation_animation = some 0 ∧
      (interrupted_transitions env M ts w).sys.animations = [transition_animation_scheduled]) := by
  induction ts using List.reverseRecOn with
  | nil => left; exact ⟨rfl, hn, ha⟩
  | append_singleton ts t ih =>
    right
    refine ⟨by simp, ?_⟩
    rw [interrupted_transitions_append]
    obtain ⟨k1, k2, k3⟩ := animation_frame_keeps env hq M (interrupted_transitions env M ts w) t
    rcases ih with ⟨_, i1, i2⟩ | ⟨_, i1, i2⟩
    · obtain ⟨c1, c2⟩ := set_orientation_creates env hq
        (animation_frame env M (interrupted_transitions env M ts w) t) _ (other_ne _)
        (by rw [k1, i1])
      rw [c1, c2, k3, i2]
      exact ⟨rfl, rfl⟩
    · obtain ⟨c1, c2⟩ := set_orientation_restarts env hq
        (animation_frame env M (interrupted_transitions env M ts w) t) _ 0 (other_ne _)
        (by rw [k1, i1])
      rw [c1, c2]
      simp only [animation_schedule, animation_unschedule, k3, i2]
      exact ⟨trivial, rfl⟩

/-- C5. With handlers that only observe and leave the animations alone: however often
`data_provider_set_orientation` is called with the other orientation while the transition is
in flight (a frame of any progress before each call), on a platform without animations
there is exactly one animation handle after each call, of 200 ms and scheduled, and the
start value is the transition factor at the moment of the call; the first call creates the
animation and a later call unschedules and reschedules the same handle. -/
theorem set_orientation_interrupted :
    (∀ (env : ℕ → World → World) (M : ℕ) (ts : List ℕ) (t : ℕ) (w : World), Quiet env →
      w.state.orientation_animation = none → w.sys.animations = [] →
      (interrupted_transitions env M (ts ++ [t]) w).sys.animations
        = [transition_animation_scheduled] ∧
      (interrupted_transitions env M (ts ++ [t]) w).state.orientation_animation = some 0 ∧
      (interrupted_transitions env M (ts ++ [t]) w).state.orientation_animation_start_value
        = (animation_frame env M (interrupted_transitions env M ts w)
            t).state.orientation_transition_factor ∧
      (interrupted_transitions env M (ts ++ [t]) w).state.orientation
        = (interrupted_transitions env M ts w).state.orientation.other) ∧
    (∀ (env : ℕ → World → World) (w : World) (o : DataProviderOrientation), Quiet env →
      w.state.orientation ≠ o → w.state.orientation_animation = none →
      (data_provider_set_orientation env w o).state.orientation_animation
        = some w.sys.animations.length ∧
      (data_provider_set_orientation env w o).sys.animations
        = w.sys.animations ++ [transition_animation_scheduled] ∧
      (data_provider_set_orientation env w o).state.orientation_animation_start_value
        = w.state.orientation_transition_factor) ∧
    (∀ (env : ℕ → World → World) (w : World) (o : DataProviderOrientation) (a : ℕ), Quiet env →
      w.state.orientation ≠ o → w.state.orientation_animation = some a →
      (data_provider_set_orientation env w o).state.orientation_animation = some a ∧
      (data_provider_set_orientation env w o).sys.animations
        = (animation_schedule (animation_unschedule w.sys a) a).animations ∧
      (data_provider_set_orientation env w o).state.orientation_animation_start_value
        = w.state.orientation_transition_factor) := by
  refine ⟨?_, ?_, ?_⟩
  · intro env M ts t w hq hn ha
    obtain ⟨k1, k2, k3⟩ := animation_frame_keeps env hq M (interrupted_transitions env M ts w) t
    have hrun := interrupted_transitions_animation env hq M (ts ++ [t]) w hn ha
    rcases hrun with ⟨h, _, _⟩ | ⟨_, h1, h2⟩
    · simp at h
    · refine ⟨h2, h1, ?_, ?_⟩
      · rw [interrupted_transitions_append]
        exact set_orientation_start_value env hq _ _ (other_ne _)
      · rw [interrupted_transitions_append,
          set_orientation_orientation env (quiet_observer hq), k2]
  · intro env w o hq h hn
    obtain ⟨c1, c2⟩ := set_orientation_creates env hq w o h hn
    exact ⟨c1, c2, set_orientation_start_value env hq w o h⟩
  · intro env w o a hq h hs
    obtain ⟨c1, c2⟩ := set_orientation_restarts env hq w o a h hs
    exact ⟨c1, c2, set_orientation_start_value env hq w o h⟩

/-- Witness of C5: three interrupted transitions on a fresh engine. -/
theorem set_orientation_interrupted_witness :
    Quiet (fun _ v => v) ∧ World.rest.state.orientation_animation = none ∧
    World.rest.sys.animations = [] ∧
    (interrupted_transitions (fun _ v => v) 65535 [0, 30000, 100] World.rest).sys.animations
      = [transition_animation_scheduled] ∧
    (interrupted_transitions (fun _ v => v) 65535 [0, 30000, 100]
      World.rest).state.orientation_animation = some 0 :=
  ⟨fun _ _ => ⟨rfl, rfl⟩, rfl, rfl,
    (set_orientation_interrupted.1 (fun _ v => v) 65535 [0, 30000] 100 World.rest
      (fun _ _ => ⟨rfl, rfl⟩) rfl rfl).1,
    (set_orientation_interrupted.1 (fun _ v => v) 65535 [0, 30000] 100 World.rest
      (fun _ _ => ⟨rfl, rfl⟩) rfl rfl).2.1⟩


/-! ## C6: setting the current orientation -/

/-- C6. `data_provider_set_orientation` with the current orientation is a no-op: the world
it returns, engine state and platform alike, is the world it was given, whatever the
handlers would do, so no handler runs and no animation is created, unscheduled or
scheduled. -/
theorem set_orientation_noop (env : ℕ → World → World) (w : World)
    (o : DataProviderOrientation) (h : w.state.orientation = o) :
    data_provider_set_orientation env w o = w := by
  rw [← h]
  exact set_orientation_same env w

/-- Witness of C6: a fresh engine is Flat, and setting Flat again returns the same world
even with handlers installed that would record a call and create an animation. -/
theorem set_orientation_noop_witness :
    (data_provider_create Platform.boot DataProviderOrientation.Flat 0
      ⟨some 1, some 2, some 3, some 4, some 5⟩).state.orientation
        = DataProviderOrientation.Flat ∧
    data_provider_set_orientation
      (fun h v => { v with sys := (animation_create { v.sys with app := h :: v.sys.app }).2 })
      (data_provider_create Platform.boot DataProviderOrientation.Flat 0
        ⟨some 1, some 2, some 3, some 4, some 5⟩)
      DataProviderOrientation.Flat
      = data_provider_create Platform.boot DataProviderOrientation.Flat 0
          ⟨some 1, some 2, some 3, some 4, some 5⟩ :=
  ⟨rfl, set_orientation_noop _ _ _ rfl⟩


/-! ## C7: the update callback of the transition animation -/

theorem roundF32_one : roundF32 1 = 1 := by
  have := roundF32_intCast 1 (by norm_num)
  simpa using this

theorem transition_target_isF32 (s : DataProviderState) :
    roundF32 (transition_target s) = transition_target s := by
  unfold transition_target
  split_ifs
  · exact roundF32_one
  · exact roundF32_zero

theorem transition_progress_zero (M : ℕ) : transition_progress M 0 = 0 := by
  unfold transition_progress f32_div float_of_int
  simp [roundF32_zero]

theorem transition_progress_max (M : ℕ) (hM : 0 < M) : transition_progress M M = 1 := by
  unfold transition_progress f32_div float_of_int
  have h1 : (1 : ℚ) ≤ ((M : ℤ) : ℚ) := by exact_mod_cast hM
  have h2 := roundF32_mono h1
  rw [roundF32_one] at h2
  rw [div_self (by linarith), roundF32_one]

theorem transition_value_zero (s : DataProviderState)
    (hs : IsF32 s.orientation_animation_start_value) :
    transition_value s 0 = s.orientation_animation_start_value := by
  unfold IsF32 at hs
  unfold transition_value f32_add f32_mul f32_sub
  simp only [mul_zero, sub_zero, roundF32_zero, roundF32_one, one_mul, zero_add, hs]

theorem transition_value_one (s : DataProviderState) :
    transition_value s 1 = transition_target s := by
  unfold transition_value f32_add f32_mul f32_sub
  simp only [mul_one, sub_self, roundF32_zero, zero_mul, add_zero, transition_target_isF32]

/-- C7. The update callback of the transition animation computes the progress
`f = time_normalized / ANIMATION_NORMALIZED_MAX`, writes
`target * f + (1 - f) * orientation_animation_start_value` (binary32 arithmetic, `target`
being 1 for Upright and 0 otherwise) to the transition factor and then fires
`orientation_transition_factor_changed`; with handlers that only observe no other field of
the engine state changes.  At progress 0 (`time_normalized = 0`) the value is the captured
start value, at progress 1 (`time_normalized = ANIMATION_NORMALIZED_MAX`) it is the
target. -/
theorem update_transition_factor_spec (env : ℕ → World → World) (M : ℕ) (w : World) (t : ℕ) :
    data_provider_update_transition_factor env M w t
      = call_handler_if_set env
          { w with state := { w.state with
              orientation_transition_factor :=
                transition_value w.state (transition_progress M t) } }
          w.state.handlers.orientation_transition_factor_changed ∧
    (Observer env →
      (data_provider_update_transition_factor env M w t).state
        = { w.state with
            orientation_transition_factor :=
              transition_value w.state (transition_progress M t) }) ∧
    (t = 0 → IsF32 w.state.orientation_animation_start_value →
      transition_progress M t = 0 ∧
      transition_value w.state (transition_progress M t)
        = w.state.orientation_animation_start_value) ∧
    (t = M → 0 < M →
      transition_progress M t = 1 ∧
      transition_value w.state (transition_progress M t) = transition_target w.state) := by
  have h1 : data_provider_update_transition_factor env M w t
      = call_handler_if_set env
          { w with state := { w.state with
              orientation_transition_factor :=
                transition_value w.state (transition_progress M t) } }
          w.state.handlers.orientation_transition_factor_changed := rfl
  refine ⟨h1, fun hobs => ?_, fun ht hs => ?_, fun ht hM => ?_⟩
  · rw [h1, call_handler_state_of_observer hobs]
  · subst ht
    rw [transition_progress_zero]
    exact ⟨rfl, transition_value_zero _ hs⟩
  · subst ht
    rw [transition_progress_max _ hM]
    exact ⟨rfl, transition_value_one _⟩

/-- Witness of C7: on a fresh engine turned Upright (start value 0) the first frame writes
the start value 0 and the last frame of 65535 writes the target 1. -/
theorem update_transition_factor_spec_witness :
    IsF32 (data_provider_set_orientation (fun _ v => v) World.rest
      DataProviderOrientation.Upright).state.orientation_animation_start_value ∧
    (data_provider_update_transition_factor (fun _ v => v) 65535
      (data_provider_set_orientation (fun _ v => v) World.rest DataProviderOrientation.Upright)
      0).state.orientation_transition_factor = 0 ∧
    (data_provider_update_transition_factor (fun _ v => v) 65535
      (data_provider_set_orientation (fun _ v => v) World.rest DataProviderOrientation.Upright)
      65535).state.orientation_transition_factor = 1 := by
  have hs : IsF32 (data_provider_set_orientation (fun _ v => v) World.rest
      DataProviderOrientation.Upright).state.orientation_animation_start_value := by
    show roundF32 0 = 0
    exact roundF32_zero
  have h0 := update_transition_factor_spec (fun _ v => v) 65535
    (data_provider_set_orientation (fun _ v => v) World.rest DataProviderOrientation.Upright) 0
  have h1 := update_transition_factor_spec (fun _ v => v) 65535
    (data_provider_set_orientation (fun _ v => v) World.rest DataProviderOrientation.Upright)
    65535
  refine ⟨hs, ?_, ?_⟩
  · rw [h0.2.1 (fun _ _ => rfl), (h0.2.2.1 rfl hs).2]
    rfl
  · rw [h1.2.1 (fun _ _ => rfl), (h1.2.2.2 rfl (by norm_num)).2]
    rfl


/-! ## C8: the range of the transition factor -/

/-- Rounding is idempotent: a rounded value is a binary32 value. -/
theorem roundF32_idem (x : ℚ) : roundF32 (roundF32 x) = roundF32 x := by
  by_cases hx : x = 0
  · subst hx; rw [roundF32_zero, roundF32_zero]
  have hu := two_zpow_pos (ulpExp x)
  have hb : |x / 2 ^ ulpExp x| ≤ ((2 ^ 24 : ℤ) : ℚ) := by
    rw [abs_div, abs_of_pos hu, div_le_iff₀ hu]
    have h1 := lt_zpow_log_succ x
    have h2 : (2 : ℚ) ^ (Int.log 2 |x| + 1) ≤ 2 ^ (24 + ulpExp x) :=
      two_zpow_le (by unfold ulpExp; omega)
    have h3 : (2 : ℚ) ^ (24 + ulpExp x) = 16777216 * 2 ^ ulpExp x := by
      rw [zpow_add₀ (by norm_num)]; norm_num
    have h4 : ((2 ^ 24 : ℤ) : ℚ) = 16777216 := by norm_num
    rw [h4]
    linarith
  have hb' := abs_le.mp hb
  have hm1 : rne (x / 2 ^ ulpExp x) ≤ 2 ^ 24 := by
    have := rne_mono hb'.2
    rwa [rne_intCast] at this
  have hm2 : -2 ^ 24 ≤ rne (x / 2 ^ ulpExp x) := by
    have h : ((-2 ^ 24 : ℤ) : ℚ) ≤ x / 2 ^ ulpExp x := by push_cast; push_cast at hb'; linarith
    have := rne_mono h
    rwa [rne_intCast] at this
  unfold roundF32
  exact roundF32_exact _ _ (abs_le.mpr ⟨hm2, hm1⟩) (by unfold ulpExp; omega)

theorem roundF32_le_one {x : ℚ} (h : x ≤ 1) : roundF32 x ≤ 1 := by
  have := roundF32_mono h
  rwa [roundF32_one] at this

/-- The interpolation of the update callback stays within `[0, 1]`. -/
theorem transition_value_range (s : DataProviderState) (f : ℚ) (hf : IsF32 f) (hf0 : 0 ≤ f)
    (hf1 : f ≤ 1) (hs0 : 0 ≤ s.orientation_animation_start_value)
    (hs1 : s.orientation_animation_start_value ≤ 1) :
    0 ≤ transition_value s f ∧ transition_value s f ≤ 1 := by
  unfold IsF32 at hf
  have hg0 : 0 ≤ roundF32 (1 - f) := roundF32_nonneg (by linarith)
  have hg1 : roundF32 (1 - f) ≤ 1 := roundF32_le_one (by linarith)
  have hg2 : roundF32 (1 - f) ≤ 1 - f + 1 / 33554432 := by
    rcases eq_or_lt_of_le hf0 with h | h
    · rw [← h]; norm_num [roundF32_one]
    · have hlt : |1 - f| < 2 ^ (0 : ℤ) := by
        rw [abs_of_nonneg (by linarith)]; norm_num; linarith
      have := (abs_le.mp (abs_roundF32_sub_le_of_lt hlt (by norm_num))).2
      norm_num at this
      linarith
  have hb0 : 0 ≤ roundF32 (roundF32 (1 - f) * s.orientation_animation_start_value) :=
    roundF32_nonneg (mul_nonneg hg0 hs0)
  have hb1 : roundF32 (roundF32 (1 - f) * s.orientation_animation_start_value)
      ≤ roundF32 (1 - f) := by
    have h : roundF32 (1 - f) * s.orientation_animation_start_value ≤ roundF32 (1 - f) := by
      nlinarith
    have := roundF32_mono h
    rwa [roundF32_idem] at this
  have htop : roundF32 (1 + 1 / 33554432) = 1 := by
    rw [roundF32_eq_of_near (1 + 1 / 33554432) 0 8388608 (by norm_num) (by norm_num)
      (by norm_num) (by norm_num) (by norm_num)]
    norm_num
  unfold transition_value f32_add f32_mul f32_sub transition_target
  split_ifs
  · rw [one_mul, hf]
    refine ⟨roundF32_nonneg (by linarith), ?_⟩
    have h : f + roundF32 (roundF32 (1 - f) * s.orientation_animation_start_value)
        ≤ 1 + 1 / 33554432 := by linarith
    have := roundF32_mono h
    rwa [htop] at this
  · rw [zero_mul, roundF32_zero, zero_add]
    exact ⟨roundF32_nonneg hb0, roundF32_le_one (by linarith)⟩

theorem transition_progress_range (M t : ℕ) (hM : 0 < M) (ht : t ≤ M) :
    IsF32 (transition_progress M t) ∧ 0 ≤ transition_progress M t ∧
    transition_progress M t ≤ 1 := by
  unfold transition_progress f32_div float_of_int IsF32
  have h1 : (1 : ℚ) ≤ ((M : ℤ) : ℚ) := by exact_mod_cast hM
  have h2 := roundF32_mono h1
  rw [roundF32_one] at h2
  have h3 : (0 : ℚ) ≤ ((t : ℤ) : ℚ) := by positivity
  have h4 := roundF32_nonneg h3
  have h5 : ((t : ℤ) : ℚ) ≤ ((M : ℤ) : ℚ) := by exact_mod_cast ht
  have h6 := roundF32_mono h5
  refine ⟨roundF32_idem _, roundF32_nonneg (div_nonneg h4 (by linarith)), ?_⟩
  apply roundF32_le_one
  rw [div_le_one (by linarith)]
  exact h6

theorem update_state_keeps_transition (env : ℕ → World → World) (hobs : Observer env)
    (w : World) :
    (update_state env w).state.orientation_transition_factor
      = w.state.orientation_transition_factor ∧
    (update_state env w).state.orientation_animation_start_value
      = w.state.orientation_animation_start_value := by
  unfold update_state
  rw [schedule_update_state]
  simp only [call_handler_state_of_observer hobs]
  exact ⟨trivial, trivial⟩

theorem app_timer_fire_keeps_transition (env : ℕ → World → World) (hobs : Observer env)
    (w : World) (handle : ℕ) :
    (app_timer_fire env w handle).state.orientation_transition_factor
      = w.state.orientation_transition_factor ∧
    (app_timer_fire env w handle).state.orientation_animation_start_value
      = w.state.orientation_animation_start_value := by
  unfold app_timer_fire
  split_ifs
  · exact update_state_keeps_transition env hobs _
  · exact ⟨rfl, rfl⟩

theorem update_transition_factor_value (env : ℕ → World → World) (hobs : Observer env)
    (M : ℕ) (w : World) (t : ℕ) :
    (data_provider_update_transition_factor env M w t).state
      = { w.state with
          orientation_transition_factor :=
            transition_value w.state (transition_progress M t) } := by
  have h1 : data_provider_update_transition_factor env M w t
      = call_handler_if_set env
          { w with state := { w.state with
              orientation_transition_factor :=
                transition_value w.state (transition_progress M t) } }
          w.state.handlers.orientation_transition_factor_changed := rfl
  rw [h1, call_handler_state_of_observer hobs]

theorem set_orientation_keeps_range (env : ℕ → World → World) (hobs : Observer env) (w : World)
    (o : DataProviderOrientation)
    (h : 0 ≤ w.state.orientation_transition_factor ∧ w.state.orientation_transition_factor ≤ 1 ∧
      0 ≤ w.state.orientation_animation_start_value ∧
      w.state.orientation_animation_start_value ≤ 1) :
    0 ≤ (data_provider_set_orientation env w o).state.orientation_transition_factor ∧
    (data_provider_set_orientation env w o).state.orientation_transition_factor ≤ 1 ∧
    0 ≤ (data_provider_set_orientation env w o).state.orientation_animation_start_value ∧
    (data_provider_set_orientation env w o).state.orientation_animation_start_value ≤ 1 := by
  by_cases ho : w.state.orientation = o
  · rw [← ho, set_orientation_same]; exact h
  · rw [set_orientation_state env hobs w o ho]
    exact ⟨h.1, h.2.1, h.1, h.2.1⟩

/-- With factors within `[0, 1]` passed to the public mutator, the transition factor and the
captured start value stay within `[0, 1]`. -/
theorem reachable_transition_range (env : ℕ → World → World) (M : ℕ) (hobs : Observer env)
    (hM : 0 < M) (w : World) (hw : Reachable env M (fun f => 0 ≤ f ∧ f ≤ 1) w) :
    0 ≤ w.state.orientation_transition_factor ∧ w.state.orientation_transition_factor ≤ 1 ∧
    0 ≤ w.state.orientation_animation_start_value ∧
    w.state.orientation_animation_start_value ≤ 1 := by
  induction hw with
  | create p o u hs hp =>
    unfold data_provider_create
    rw [schedule_update_state]
    norm_num
  | set_target_angle w angle _ ih =>
    unfold data_provider_set_target_angle
    rw [schedule_update_state]
    exact ih
  | delta_heading_angle w delta _ ih =>
    unfold data_provider_delta_heading_angle
    rw [schedule_update_state]
    exact ih
  | set_orientation_transition_factor w factor hf _ ih =>
    unfold data_provider_set_orientation_transition_factor
    rw [call_handler_state_of_observer hobs]
    exact ⟨hf.1, hf.2, ih.2.2⟩
  | set_orientation w o _ ih => exact set_orientation_keeps_range env hobs w o ih
  | handle_accel_data w data n _ ih =>
    have hn : 0 ≤ (accel_notified env w data).state.orientation_transition_factor ∧
        (accel_notified env w data).state.orientation_transition_factor ≤ 1 ∧
        0 ≤ (accel_notified env w data).state.orientation_animation_start_value ∧
        (accel_notified env w data).state.orientation_animation_start_value ≤ 1 := by
      rw [accel_notified_state env hobs]; exact ih
    rw [handle_accel_data_eq]
    split_ifs
    · exact set_orientation_keeps_range env hobs _ _ hn
    · exact set_orientation_keeps_range env hobs _ _ hn
    · exact hn
  | handle_compass_data w heading _ ih =>
    unfold data_provider_handle_compass_data
    rw [call_handler_state_of_observer hobs]
    exact ih
  | tick w handle _ ih =>
    obtain ⟨h1, h2⟩ := app_timer_fire_keeps_transition env hobs w handle
    rw [h1, h2]; exact ih
  | frame w t ht _ ih =>
    obtain ⟨p1, p2, p3⟩ := transition_progress_range M t hM ht
    obtain ⟨v1, v2⟩ := transition_value_range w.state _ p1 p2 p3 ih.2.2.1 ih.2.2.2
    rw [update_transition_factor_value env hobs M w t]
    exact ⟨v1, v2, ih.2.2⟩

/-- C8, as amended.  As long as `data_provider_set_orientation_transition_factor` is called
with factors within `[0, 1]` only, the transition factor stays within `[0, 1]`: in every
world reachable from `data_provider_create` through the public operations and the sensor,
tick and animation callbacks (handlers that only observe, animation progress at most
`ANIMATION_NORMALIZED_MAX`, which is positive), `0 ≤ orientation_transition_factor ≤ 1`. -/
theorem transition_factor_in_range (env : ℕ → World → World) (M : ℕ) (w : World)
    (hobs : Observer env) (hM : 0 < M)
    (hw : Reachable env M (fun f => 0 ≤ f ∧ f ≤ 1) w) :
    0 ≤ w.state.orientation_transition_factor ∧ w.state.orientation_transition_factor ≤ 1 :=
  ⟨(reachable_transition_range env M hobs hM w hw).1,
    (reachable_transition_range env M hobs hM w hw).2.1⟩

/-- Witness of C8 (amended): a fresh engine turned Upright, then set to the factor `1 / 2`,
then given a frame of progress 30000 of 65535. -/
theorem transition_factor_in_range_witness :
    Reachable (fun _ v => v) 65535 (fun f => 0 ≤ f ∧ f ≤ 1)
      (data_provider_update_transition_factor (fun _ v => v) 65535
        (data_provider_set_orientation_transition_factor (fun _ v => v)
          (data_provider_set_orientation (fun _ v => v) World.rest
            DataProviderOrientation.Upright) (1 / 2)) 30000) ∧
    0 ≤ (data_provider_update_transition_factor (fun _ v => v) 65535
        (data_provider_set_orientation_transition_factor (fun _ v => v)
          (data_provider_set_orientation (fun _ v => v) World.rest
            DataProviderOrientation.Upright) (1 / 2)) 30000).state.orientation_transition_factor ∧
    (data_provider_update_transition_factor (fun _ v => v) 65535
        (data_provider_set_orientation_transition_factor (fun _ v => v)
          (data_provider_set_orientation (fun _ v => v) World.rest
            DataProviderOrientation.Upright) (1 / 2)) 30000).state.orientation_transition_factor
      ≤ 1 :=
  ⟨Reachable.frame _ 30000 (by norm_num)
      (Reachable.set_orientation_transition_factor _ (1 / 2) (by norm_num)
        (Reachable.set_orientation _ DataProviderOrientation.Upright
          (Reachable.create Platform.boot DataProviderOrientation.Flat 0
            ⟨none, none, none, none, none⟩ rfl))),
    transition_factor_in_range (fun _ v => v) 65535 _ (fun _ _ => rfl) (by norm_num)
      (Reachable.frame _ 30000 (by norm_num)
        (Reachable.set_orientation_transition_factor _ (1 / 2) (by norm_num)
          (Reachable.set_orientation _ DataProviderOrientation.Upright
            (Reachable.create Platform.boot DataProviderOrientation.Flat 0
              ⟨none, none, none, none, none⟩ rfl))))⟩

/-- Counterexample to C8 as stated: the public mutator stores any factor, so the world
reached by `data_provider_set_orientation_transition_factor(2)` on a fresh engine has a
transition factor above 1. -/
theorem transition_factor_escapes :
    Reachable (fun _ v => v) 65535 (fun _ => True)
      (data_provider_set_orientation_transition_factor (fun _ v => v) World.rest 2) ∧
    ¬ ((data_provider_set_orientation_transition_factor (fun _ v => v) World.rest
      2).state.orientation_transition_factor ≤ 1) := by
  refine ⟨Reachable.set_orientation_transition_factor _ 2 trivial
    (Reachable.create Platform.boot DataProviderOrientation.Flat 0
      ⟨none, none, none, none, none⟩ rfl), ?_⟩
  show ¬ ((2 : ℚ) ≤ 1)
  norm_num


/-! ## C9: scheduling the tick -/

/-- C9. `schedule_update` is idempotent.  While a tick is pending it changes nothing; when
none is pending it registers exactly one one-shot timer of `1000 / 30 = 33` ms with the
callback `update_state`, stores its handle and changes nothing else; hence calling it twice
in a row is the same as calling it once. -/
theorem schedule_update_idempotent :
    (∀ (w : World) (h : ℕ), w.state.timer = some h → schedule_update w = w) ∧
    (∀ w : World, w.state.timer = none →
      schedule_update w
        = { state := { w.state with timer := some (w.sys.timer_handles + 1) }
            sys := { w.sys with
              timers := w.sys.timers
                ++ [⟨w.sys.timer_handles + 1, 33, AppTimerCallback.update_state⟩]
              timer_handles := w.sys.timer_handles + 1 } }) ∧
    (∀ w : World, schedule_update (schedule_update w) = schedule_update w) := by
  have h1 : ∀ (w : World) (h : ℕ), w.state.timer = some h → schedule_update w = w := by
    intro w h hw
    unfold schedule_update
    rw [hw]
  have h2 : ∀ w : World, w.state.timer = none →
      schedule_update w
        = { state := { w.state with timer := some (w.sys.timer_handles + 1) }
            sys := { w.sys with
              timers := w.sys.timers
                ++ [⟨w.sys.timer_handles + 1, 33, AppTimerCallback.update_state⟩]
              timer_handles := w.sys.timer_handles + 1 } } := by
    intro w hw
    unfold schedule_update
    rw [hw]
    rfl
  refine ⟨h1, h2, fun w => ?_⟩
  cases hw : w.state.timer with
  | some h => rw [h1 w h hw, h1 w h hw]
  | none =>
    rw [h2 w hw]
    exact h1 _ (w.sys.timer_handles + 1) rfl

/-- Witness of C9: on an engine state without a pending tick the first call registers the
timer with handle 1 and the second call changes nothing; on a fresh engine, which has a tick
pending, a call changes nothing. -/
theorem schedule_update_idempotent_witness :
    World.rest.state.timer = some 1 ∧ schedule_update World.rest = World.rest ∧
    (schedule_update
      { state := { World.rest.state with timer := none }, sys := Platform.boot }).sys.timers
      = [⟨1, 33, AppTimerCallback.update_state⟩] ∧
    schedule_update (schedule_update
      { state := { World.rest.state with timer := none }, sys := Platform.boot })
      = schedule_update
          { state := { World.rest.state with timer := none }, sys := Platform.boot } :=
  ⟨rfl, schedule_update_idempotent.1 World.rest 1 rfl,
    by rw [schedule_update_idempotent.2.1 _ rfl]; rfl,
    schedule_update_idempotent.2.2 _⟩

/-! ## C10: exactly one outstanding tick timer -/

theorem schedule_update_of_pending (w : World) (h : w.state.timer ≠ none) :
    schedule_update w = w := by
  unfold schedule_update
  cases hw : w.state.timer with
  | none => exact absurd hw h
  | some k => rfl

theorem schedule_update_keeps_timer (w : World) (h : w.state.timer ≠ none) :
    (schedule_update w).state.timer = w.state.timer ∧
    (schedule_update w).sys.timers = w.sys.timers := by
  rw [schedule_update_of_pending w h]
  exact ⟨rfl, rfl⟩

theorem call_handler_keeps_timer {env : ℕ → World → World} (hk : KeepsTimer env) (w : World)
    (handler : Option ℕ) (h : w.state.timer ≠ none) :
    (call_handler_if_set env w handler).state.timer = w.state.timer ∧
    (call_handler_if_set env w handler).sys.timers = w.sys.timers := by
  cases handler with
  | none => exact ⟨rfl, rfl⟩
  | some k => exact hk k w h

theorem set_target_angle_keeps_timer (w : World) (angle : ℤ) (h : w.state.timer ≠ none) :
    (data_provider_set_target_angle w angle).state.timer = w.state.timer ∧
    (data_provider_set_target_angle w angle).sys.timers = w.sys.timers := by
  unfold data_provider_set_target_angle
  exact schedule_update_keeps_timer _ h

theorem delta_heading_angle_keeps_timer (w : World) (delta : ℤ) (h : w.state.timer ≠ none) :
    (data_provider_delta_heading_angle w delta).state.timer = w.state.timer ∧
    (data_provider_delta_heading_angle w delta).sys.timers = w.sys.timers := by
  unfold data_provider_delta_heading_angle
  exact schedule_update_keeps_timer _ h

theorem set_orientation_transition_factor_keeps_timer {env : ℕ → World → World}
    (hk : KeepsTimer env) (w : World) (factor : ℚ) (h : w.state.timer ≠ none) :
    (data_provider_set_orientation_transition_factor env w factor).state.timer = w.state.timer ∧
    (data_provider_set_orientation_transition_factor env w factor).sys.timers
      = w.sys.timers := by
  unfold data_provider_set_orientation_transition_factor
  exact call_handler_keeps_timer hk _ _ h

theorem update_transition_factor_keeps_timer {env : ℕ → World → World} (hk : KeepsTimer env)
    (M : ℕ) (w : World) (t : ℕ) (h : w.state.timer ≠ none) :
    (data_provider_update_transition_factor env M w t).state.timer = w.state.timer ∧
    (data_provider_update_transition_factor env M w t).sys.timers = w.sys.timers := by
  unfold data_provider_update_transition_factor
  exact set_orientation_transition_factor_keeps_timer hk _ _ h

theorem handle_compass_data_keeps_timer {env : ℕ → World → World} (hk : KeepsTimer env)
    (w : World) (heading : CompassHeadingData) (h : w.state.timer ≠ none) :
    (data_provider_handle_compass_data env w heading).state.timer = w.state.timer ∧
    (data_provider_handle_compass_data env w heading).sys.timers = w.sys.timers := by
  unfold data_provider_handle_compass_data
  exact call_handler_keeps_timer hk _ _ h

theorem set_orientation_eq (env : ℕ → World → World) (w : World)
    (o : DataProviderOrientation) :
    data_provider_set_orientation env w o
      = if w.state.orientation = o then w
        else start_transition (call_handler_if_set env
          { w with state := { w.state with orientation := o } }
          w.state.handlers.orientation_changed) := rfl

theorem start_transition_keeps_timer (w : World) :
    (start_transition w).state.timer = w.state.timer ∧
    (start_transition w).sys.timers = w.sys.timers := by
  unfold start_transition
  cases hc : w.state.orientation_animation with
  | none => simp [hc, animation_create, animation_schedule]
  | some a => simp [hc, animation_unschedule, animation_schedule]

theorem set_orientation_keeps_timer {env : ℕ → World → World} (hk : KeepsTimer env) (w : World)
    (o : DataProviderOrientation) (h : w.state.timer ≠ none) :
    (data_provider_set_orientation env w o).state.timer = w.state.timer ∧
    (data_provider_set_orientation env w o).sys.timers = w.sys.timers := by
  rw [set_orientation_eq]
  split_ifs with ho
  · exact ⟨rfl, rfl⟩
  · obtain ⟨k1, k2⟩ := call_handler_keeps_timer hk
      { w with state := { w.state with orientation := o } }
      w.state.handlers.orientation_changed h
    obtain ⟨s1, s2⟩ := start_transition_keeps_timer (call_handler_if_set env
      { w with state := { w.state with orientation := o } }
      w.state.handlers.orientation_changed)
    exact ⟨s1.trans k1, s2.trans k2⟩

theorem handle_accel_data_keeps_timer {env : ℕ → World → World} (hk : KeepsTimer env)
    (w : World) (data : AccelData) (n : ℕ) (h : w.state.timer ≠ none) :
    (data_provider_handle_accel_data env w data n).state.timer = w.state.timer ∧
    (data_provider_handle_accel_data env w data n).sys.timers = w.sys.timers := by
  obtain ⟨k1, k2⟩ : (accel_notified env w data).state.timer = w.state.timer ∧
      (accel_notified env w data).sys.timers = w.sys.timers :=
    call_handler_keeps_timer hk (accel_merged w data) _ h
  have hn : (accel_notified env w data).state.timer ≠ none := by rw [k1]; exact h
  rw [handle_accel_data_eq]
  split_ifs
  · obtain ⟨s1, s2⟩ := set_orientation_keeps_timer hk (accel_notified env w data)
      DataProviderOrientation.Upright hn
    exact ⟨s1.trans k1, s2.trans k2⟩
  · obtain ⟨s1, s2⟩ := set_orientation_keeps_timer hk (accel_notified env w data)
      DataProviderOrientation.Flat hn
    exact ⟨s1.trans k1, s2.trans k2⟩
  · exact ⟨k1, k2⟩

theorem oneTick_of_keeps {w v : World} (hw : OneTick w)
    (h : w.state.timer ≠ none → v.state.timer = w.state.timer ∧ v.sys.timers = w.sys.timers) :
    OneTick v := by
  obtain ⟨k, h1, h2⟩ := hw
  obtain ⟨e1, e2⟩ := h (by rw [h1]; simp)
  exact ⟨k, by rw [e1, h1], by rw [e2, h2]⟩

/-- A tick whose timer was the only outstanding one leaves exactly one outstanding again. -/
theorem update_state_oneTick {env : ℕ → World → World} (hk : KeepsTimer env) (w : World)
    (h : w.state.timer ≠ none) (ht : w.sys.timers = []) : OneTick (update_state env w) := by
  unfold update_state
  obtain ⟨k1, k2⟩ := call_handler_keeps_timer hk
    { w with state := { w.state with
        presentation_angle := wrap_int32 (w.state.presentation_angle + w.state.angular_velocity)
        angular_velocity := int32_of_float (f32_mul (float_of_int (wrap_int32
          (w.state.angular_velocity + int32_of_float (f32_mul (float_of_int (wrap_int32
            (w.state.target_angle - wrap_int32
              (w.state.presentation_angle + w.state.angular_velocity)))) w.state.attraction))))
          w.state.friction) } }
    w.state.handlers.presented_angle_or_accel_data_changed h
  simp only
  unfold schedule_update app_timer_register
  simp only [k2, ht]
  exact ⟨_, rfl, rfl⟩

theorem app_timer_fire_oneTick {env : ℕ → World → World} (hk : KeepsTimer env) (w : World)
    (handle : ℕ) (hw : OneTick w) : OneTick (app_timer_fire env w handle) := by
  obtain ⟨k, h1, h2⟩ := hw
  unfold app_timer_fire
  split_ifs with hf
  · apply update_state_oneTick hk
    · show w.state.timer ≠ none
      rw [h1]; simp
    · show w.sys.timers.filter (fun t => t.handle != handle) = []
      rw [h2] at hf ⊢
      simp at hf
      simp [hf]
  · exact ⟨k, h1, h2⟩

/-- The invariant of the reachable worlds: one outstanding tick timer. -/
theorem reachable_oneTick (env : ℕ → World → World) (M : ℕ) (ok : ℚ → Prop)
    (hk : KeepsTimer env) (w : World) (hw : Reachable env M ok w) : OneTick w := by
  induction hw with
  | create p o u hs hp =>
    unfold data_provider_create schedule_update app_timer_register
    simp only [hp]
    exact ⟨_, rfl, rfl⟩
  | set_target_angle w angle _ ih =>
    exact oneTick_of_keeps ih (set_target_angle_keeps_timer w angle)
  | delta_heading_angle w delta _ ih =>
    exact oneTick_of_keeps ih (delta_heading_angle_keeps_timer w delta)
  | set_orientation_transition_factor w factor hf _ ih =>
    exact oneTick_of_keeps ih (set_orientation_transition_factor_keeps_timer hk w factor)
  | set_orientation w o _ ih =>
    exact oneTick_of_keeps ih (set_orientation_keeps_timer hk w o)
  | handle_accel_data w data n _ ih =>
    exact oneTick_of_keeps ih (handle_accel_data_keeps_timer hk w data n)
  | handle_compass_data w heading _ ih =>
    exact oneTick_of_keeps ih (handle_compass_data_keeps_timer hk w heading)
  | tick w handle _ ih => exact app_timer_fire_oneTick hk w handle ih
  | frame w t ht _ ih =>
    exact oneTick_of_keeps ih (update_transition_factor_keeps_timer hk M w t)

/-- C10. From `data_provider_create` on, exactly one tick timer is outstanding.  With
handlers that keep the tick timer (as every public mutator does, so a handler may call
them): every world reachable through `set_target_angle`, `delta_heading_angle`,
`set_orientation_transition_factor`, `set_orientation`, the sensor callbacks, the animation
callback and ticks has exactly one outstanding timer, whose handle the engine stores; and a
tick whose timer has fired registers a new one whatever the simulated values are. -/
theorem one_tick_outstanding :
    (∀ (env : ℕ → World → World) (M : ℕ) (ok : ℚ → Prop) (w : World), KeepsTimer env →
      Reachable env M ok w → OneTick w ∧ w.sys.timers.length = 1) ∧
    (∀ (env : ℕ → World → World) (w : World), KeepsTimer env → w.state.timer ≠ none →
      w.sys.timers = [] → OneTick (update_state env w)) ∧
    (∀ (env : ℕ → World → World), KeepsTimer env →
      (∀ angle, KeepsTimer (fun _ v => data_provider_set_target_angle v angle)) ∧
      (∀ delta, KeepsTimer (fun _ v => data_provider_delta_heading_angle v delta)) ∧
      (∀ factor, KeepsTimer
        (fun _ v => data_provider_set_orientation_transition_factor env v factor)) ∧
      (∀ o, KeepsTimer (fun _ v => data_provider_set_orientation env v o)) ∧
      (∀ heading, KeepsTimer (fun _ v => data_provider_handle_compass_data env v heading))) := by
  refine ⟨fun env M ok w hk hw => ?_, fun env w hk h ht => update_state_oneTick hk w h ht,
    fun env hk => ⟨fun a _ v h => set_target_angle_keeps_timer v a h,
      fun d _ v h => delta_heading_angle_keeps_timer v d h,
      fun f _ v h => set_orientation_transition_factor_keeps_timer hk v f h,
      fun o _ v h => set_orientation_keeps_timer hk v o h,
      fun hd _ v h => handle_compass_data_keeps_timer hk v hd h⟩⟩
  have h1 := reachable_oneTick env M ok hk w hw
  refine ⟨h1, ?_⟩
  obtain ⟨k, _, h2⟩ := h1
  rw [h2]; rfl

/-- Witness of C10: a fresh engine whose tick handler calls `set_target_angle(5)`; after the
first tick exactly one timer is outstanding. -/
theorem one_tick_outstanding_witness :
    KeepsTimer (fun _ v => data_provider_set_target_angle v 5) ∧
    Reachable (fun _ v => data_provider_set_target_angle v 5) 65535 (fun _ => True)
      (app_timer_fire (fun _ v => data_provider_set_target_angle v 5)
        (data_provider_create Platform.boot DataProviderOrientation.Flat 0
          ⟨some 1, none, none, none, none⟩) 1) ∧
    OneTick (app_timer_fire (fun _ v => data_provider_set_target_angle v 5)
      (data_provider_create Platform.boot DataProviderOrientation.Flat 0
        ⟨some 1, none, none, none, none⟩) 1) :=
  ⟨fun _ v h => set_target_angle_keeps_timer v 5 h,
    Reachable.tick _ 1 (Reachable.create Platform.boot DataProviderOrientation.Flat 0
      ⟨some 1, none, none, none, none⟩ rfl),
    (one_tick_outstanding.1 (fun _ v => data_provider_set_target_angle v 5) 65535
      (fun _ => True) _ (fun _ v h => set_target_angle_keeps_timer v 5 h)
      (Reachable.tick _ 1 (Reachable.create Platform.boot DataProviderOrientation.Flat 0
        ⟨some 1, none, none, none, none⟩ rfl))).1⟩

/-! ## C11: destroying the engine during a transition -/

theorem destroy_animations (w : World) :
    (data_provider_destroy w).animations = w.sys.animations := by
  unfold data_provider_destroy
  cases w.state.timer <;> rfl

theorem destroy_of_pending (w : World) (h : ℕ) (hw : w.state.timer = some h) :
    data_provider_destroy w =
      compass_service_unsubscribe (accel_data_service_unsubscribe (app_timer_cancel w.sys h)) := by
  unfold data_provider_destroy
  rw [hw]

theorem destroy_of_idle (w : World) (hw : w.state.timer = none) :
    data_provider_destroy w =
      compass_service_unsubscribe (accel_data_service_unsubscribe w.sys) := by
  unfold data_provider_destroy
  rw [hw]

theorem destroy_timers_of_pending (w : World) (h : ℕ) (hw : w.state.timer = some h) :
    (data_provider_destroy w).timers = w.sys.timers.filter (fun t => t.handle != h) := by
  rw [destroy_of_pending w h hw]; rfl

theorem rest_timer : World.rest.state.timer = some 1 ∧
    World.rest.sys.timers = [⟨1, 1000 / 30, AppTimerCallback.update_state⟩] ∧
    World.rest.sys.animations = [] ∧
    World.rest.state.orientation = DataProviderOrientation.Flat ∧
    World.rest.state.orientation_animation = none :=
  ⟨rfl, rfl, rfl, rfl, rfl⟩

theorem quiet_id : Quiet (fun _ v => v) := fun _ _ => ⟨rfl, rfl⟩

theorem observer_id : Observer (fun _ v => v) := fun _ _ => rfl

theorem keepsTimer_id : KeepsTimer (fun _ v => v) := fun _ _ _ => ⟨rfl, rfl⟩

/-- C11. `data_provider_destroy` cancels the tick timer and unsubscribes the sensors, but it
never unschedules the transition animation: the animations of the platform are after the
destroy what they were before it.  On a fresh engine, `data_provider_set_orientation(Upright)`
followed by `data_provider_destroy` leaves the transition animation (200 ms, bound to the
freed engine state, update callback installed) scheduled, while the tick timer is gone and
both sensors are unsubscribed. -/
theorem destroy_leaves_animation_scheduled :
    (∀ w : World, (data_provider_destroy w).animations = w.sys.animations) ∧
    (data_provider_set_orientation (fun _ v => v) World.rest
      DataProviderOrientation.Upright).state.orientation_animation = some 0 ∧
    (data_provider_destroy (data_provider_set_orientation (fun _ v => v) World.rest
      DataProviderOrientation.Upright)).animations = [transition_animation_scheduled] ∧
    (data_provider_destroy (data_provider_set_orientation (fun _ v => v) World.rest
      DataProviderOrientation.Upright)).timers = [] ∧
    (data_provider_destroy (data_provider_set_orientation (fun _ v => v) World.rest
      DataProviderOrientation.Upright)).accel_subscribed = false ∧
    (data_provider_destroy (data_provider_set_orientation (fun _ v => v) World.rest
      DataProviderOrientation.Upright)).compass_subscribed = false := by
  have hc := set_orientation_creates (fun _ v => v) quiet_id World.rest
    DataProviderOrientation.Upright (by rw [rest_timer.2.2.2.1]; decide) rest_timer.2.2.2.2
  have ht := set_orientation_keeps_timer keepsTimer_id World.rest
    DataProviderOrientation.Upright (by rw [rest_timer.1]; exact Option.some_ne_none 1)
  refine ⟨destroy_animations, ?_, ?_, ?_, ?_, ?_⟩
  · rw [hc.1, rest_timer.2.2.1]; rfl
  · rw [destroy_animations, hc.2, rest_timer.2.2.1]; rfl
  · rw [destroy_timers_of_pending _ 1 (ht.1.trans rest_timer.1), ht.2, rest_timer.2.1]; rfl
  · rw [destroy_of_pending _ 1 (ht.1.trans rest_timer.1)]; rfl
  · rw [destroy_of_pending _ 1 (ht.1.trans rest_timer.1)]; rfl

/-! ## C12: destroying the engine cancels the pending tick -/

theorem app_timer_fire_of_absent (env : ℕ → World → World) (v : World) (h : ℕ)
    (habs : ∀ t ∈ v.sys.timers, t.handle ≠ h) : app_timer_fire env v h = v := by
  unfold app_timer_fire
  rw [if_neg]
  intro hany
  obtain ⟨t, ht, hth⟩ := List.any_eq_true.mp hany
  exact habs t ht (by simpa using hth)

theorem destroy_timers_of_oneTick (w : World) (hw : OneTick w) :
    (data_provider_destroy w).timers = [] := by
  obtain ⟨h, h1, h2⟩ := hw
  rw [destroy_timers_of_pending w h h1, h2]
  simp

/-- C12. `data_provider_destroy` calls `app_timer_cancel` on the stored handle exactly when
a tick is pending (`timer` is not `NULL`): then the platform after the destroy is the
platform before it with that timer cancelled and the two sensors unsubscribed, no timer with
the cancelled handle is outstanding, and a later firing of that handle by the scheduler does
nothing; with no pending tick the timers are left as they are.  For every world reachable
from `data_provider_create` (handlers that keep the tick timer) no timer is outstanding
after the destroy. -/
theorem destroy_cancels_tick (env : ℕ → World → World) (M : ℕ) (ok : ℚ → Prop) (w : World) :
    (∀ h, w.state.timer = some h →
      data_provider_destroy w =
        compass_service_unsubscribe
          (accel_data_service_unsubscribe (app_timer_cancel w.sys h)) ∧
      (∀ t ∈ (data_provider_destroy w).timers, t.handle ≠ h) ∧
      (∀ v : World, v.sys = data_provider_destroy w → app_timer_fire env v h = v)) ∧
    (w.state.timer = none →
      data_provider_destroy w =
        compass_service_unsubscribe (accel_data_service_unsubscribe w.sys) ∧
      (data_provider_destroy w).timers = w.sys.timers) ∧
    (KeepsTimer env → Reachable env M ok w → (data_provider_destroy w).timers = []) := by
  have key : ∀ h, w.state.timer = some h →
      ∀ t ∈ (data_provider_destroy w).timers, t.handle ≠ h := by
    intro h hw t ht
    rw [destroy_timers_of_pending w h hw] at ht
    have := (List.mem_filter.mp ht).2
    simpa using this
  refine ⟨fun h hw => ⟨destroy_of_pending w h hw, key h hw, fun v hv => ?_⟩,
    fun hw => ⟨destroy_of_idle w hw, by rw [destroy_of_idle w hw]; rfl⟩,
    fun hk hr => destroy_timers_of_oneTick w (reachable_oneTick env M ok hk w hr)⟩
  exact app_timer_fire_of_absent env v h (by rw [hv]; exact key h hw)

/-- Witness of C12: a fresh engine has the pending tick 1; destroying it leaves no
outstanding timer. -/
theorem destroy_cancels_tick_witness :
    World.rest.state.timer = some 1 ∧
    World.rest.sys.timers = [⟨1, 1000 / 30, AppTimerCallback.update_state⟩] ∧
    KeepsTimer (fun _ v => v) ∧
    Reachable (fun _ v => v) 65535 (fun _ => True) World.rest ∧
    (data_provider_destroy World.rest).timers = [] ∧
    data_provider_destroy World.rest =
      compass_service_unsubscribe
        (accel_data_service_unsubscribe (app_timer_cancel World.rest.sys 1)) :=
  ⟨rest_timer.1, rest_timer.2.1, keepsTimer_id,
    Reachable.create Platform.boot DataProviderOrientation.Flat 0 ⟨none, none, none, none, none⟩
      rfl,
    (destroy_cancels_tick (fun _ v => v) 65535 (fun _ => True) World.rest).2.2 keepsTimer_id
      (Reachable.create Platform.boot DataProviderOrientation.Flat 0
        ⟨none, none, none, none, none⟩ rfl),
    ((destroy_cancels_tick (fun _ v => v) 65535 (fun _ => True) World.rest).1 1
      rest_timer.1).1⟩

/-! ## C13: setting the target angle -/

theorem schedule_update_pending (w : World) : (schedule_update w).state.timer ≠ none := by
  unfold schedule_update
  cases hw : w.state.timer with
  | none => exact Option.some_ne_none _
  | some k => rw [hw]; exact Option.some_ne_none _

theorem schedule_update_registers (w : World) (hw : w.state.timer = none) :
    (schedule_update w).state.timer = some (w.sys.timer_handles + 1) ∧
    (schedule_update w).sys.timers =
      w.sys.timers ++ [⟨w.sys.timer_handles + 1, 1000 / 30, AppTimerCallback.update_state⟩] := by
  unfold schedule_update
  rw [hw]
  exact ⟨rfl, rfl⟩

theorem schedule_update_sys_of_pending (w : World) (h : w.state.timer ≠ none) :
    (schedule_update w).sys = w.sys := by
  rw [schedule_update_of_pending w h]

theorem app_timer_fire_target (env : ℕ → World → World) (hobs : Observer env) (w : World)
    (handle : ℕ) (hw : w.state.heading.magnetic_heading = w.state.target_angle) :
    (app_timer_fire env w handle).state.target_angle = w.state.target_angle := by
  unfold app_timer_fire
  split_ifs
  · rw [(update_state_frame env _ hobs).2.2.2]; exact hw
  · rfl

/-- C13. `data_provider_set_target_angle(angle)` sets `target_angle`,
`heading.magnetic_heading` and `heading.true_heading` to `angle`, leaves every other field
of the engine state but `timer` as it was (in particular the presentation angle, the angular
velocity, the orientation and the accelerometer data), and a tick is pending afterwards: a
timer of `1000 / 30` ms is registered if none was stored, and nothing is registered
otherwise.  With handlers that only observe, the next tick recomputes the target from the
heading to the same value: `data_provider_get_target_angle` returns `angle` after it. -/
theorem set_target_angle_spec (env : ℕ → World → World) (w : World) (angle : ℤ) :
    (data_provider_set_target_angle w angle).state =
      { w.state with
        target_angle := angle
        heading := { w.state.heading with magnetic_heading := angle, true_heading := angle }
        timer := (data_provider_set_target_angle w angle).state.timer } ∧
    (data_provider_set_target_angle w angle).state.target_angle = angle ∧
    (data_provider_set_target_angle w angle).state.heading.magnetic_heading = angle ∧
    (data_provider_set_target_angle w angle).state.heading.true_heading = angle ∧
    (data_provider_set_target_angle w angle).state.presentation_angle =
      w.state.presentation_angle ∧
    (data_provider_set_target_angle w angle).state.angular_velocity =
      w.state.angular_velocity ∧
    (data_provider_set_target_angle w angle).state.orientation = w.state.orientation ∧
    (data_provider_set_target_angle w angle).state.last_accel_data = w.state.last_accel_data ∧
    (data_provider_set_target_angle w angle).state.damped_accel_data =
      w.state.damped_accel_data ∧
    (data_provider_set_target_angle w angle).state.timer ≠ none ∧
    (w.state.timer = none →
      (data_provider_set_target_angle w angle).state.timer = some (w.sys.timer_handles + 1) ∧
      (data_provider_set_target_angle w angle).sys.timers = w.sys.timers ++
        [⟨w.sys.timer_handles + 1, 1000 / 30, AppTimerCallback.update_state⟩]) ∧
    (w.state.timer ≠ none →
      (data_provider_set_target_angle w angle).state.timer = w.state.timer ∧
      (data_provider_set_target_angle w angle).sys = w.sys) ∧
    (Observer env →
      data_provider_get_target_angle
        (update_state env (data_provider_set_target_angle w angle)) = angle ∧
      ∀ handle, data_provider_get_target_angle
        (app_timer_fire env (data_provider_set_target_angle w angle) handle) = angle) := by
  have hs := set_target_angle_state w angle
  refine ⟨hs, by rw [hs], by rw [hs], by rw [hs], by rw [hs], by rw [hs], by rw [hs],
    by rw [hs], by rw [hs], schedule_update_pending _, fun hn => schedule_update_registers _ hn,
    fun hp => ?_, fun hobs => ⟨?_, fun handle => ?_⟩⟩
  · refine ⟨(set_target_angle_keeps_timer w angle hp).1, ?_⟩
    unfold data_provider_set_target_angle
    exact schedule_update_sys_of_pending _ hp
  · unfold data_provider_get_target_angle
    rw [(update_state_frame env _ hobs).2.2.2, hs]
  · unfold data_provider_get_target_angle
    rw [app_timer_fire_target env hobs _ handle (by rw [hs]), hs]

/-- Witness of C13: on a fresh engine with handlers that only observe,
`set_target_angle(90)` followed by the pending tick 1 leaves the target at 90. -/
theorem set_target_angle_spec_witness :
    Observer (fun _ v => v) ∧
    data_provider_get_target_angle
      (app_timer_fire (fun _ v => v) (data_provider_set_target_angle World.rest 90) 1) = 90 :=
  ⟨observer_id,
    ((set_target_angle_spec (fun _ v => v) World.rest 90).2.2.2.2.2.2.2.2.2.2.2.2
      observer_id).2 1⟩

/-! ## C15: the compass callback -/

/-- C15. `data_provider_handle_compass_data(heading)` stores the whole sample (magnetic
heading, true heading, status and declination validity are those of the argument) and then
fires `input_heading_changed`; it does not call `schedule_update`.  With a handler that only
observes, every other field of the engine state is as before the call, in particular the
stored timer handle (even when it is `NULL`), the target angle, the presentation angle and
the angular velocity; without a handler the platform is untouched too, so no timer is
registered. -/
theorem handle_compass_data_spec (env : ℕ → World → World) (w : World)
    (heading : CompassHeadingData) :
    data_provider_handle_compass_data env w heading =
      call_handler_if_set env { w with state := { w.state with heading := heading } }
        w.state.handlers.input_heading_changed ∧
    (Observer env →
      (data_provider_handle_compass_data env w heading).state =
        { w.state with heading := heading } ∧
      (data_provider_handle_compass_data env w heading).state.heading.magnetic_heading =
        heading.magnetic_heading ∧
      (data_provider_handle_compass_data env w heading).state.heading.true_heading =
        heading.true_heading ∧
      (data_provider_handle_compass_data env w heading).state.heading.is_declination_valid =
        heading.is_declination_valid ∧
      (data_provider_handle_compass_data env w heading).state.timer = w.state.timer ∧
      (data_provider_handle_compass_data env w heading).state.target_angle =
        w.state.target_angle ∧
      (data_provider_handle_compass_data env w heading).state.presentation_angle =
        w.state.presentation_angle ∧
      (data_provider_handle_compass_data env w heading).state.angular_velocity =
        w.state.angular_velocity) ∧
    (w.state.handlers.input_heading_changed = none →
      data_provider_handle_compass_data env w heading =
        { w with state := { w.state with heading := heading } } ∧
      (data_provider_handle_compass_data env w heading).sys = w.sys) := by
  refine ⟨rfl, fun hobs => ?_, fun hn => ?_⟩
  · have hs : (data_provider_handle_compass_data env w heading).state =
        { w.state with heading := heading } := by
      unfold data_provider_handle_compass_data
      exact call_handler_state_of_observer hobs _ _
    exact ⟨hs, by rw [hs], by rw [hs], by rw [hs], by rw [hs], by rw [hs], by rw [hs],
      by rw [hs]⟩
  · have he : data_provider_handle_compass_data env w heading =
        { w with state := { w.state with heading := heading } } := by
      unfold data_provider_handle_compass_data
      show call_handler_if_set env _ w.state.handlers.input_heading_changed = _
      rw [hn]; rfl
    exact ⟨he, by rw [he]⟩

/-- Witness of C15: an engine that was never scheduled (all fields zero, no timer) receives
the heading 7; the heading is stored and still no tick is pending. -/
theorem handle_compass_data_spec_witness :
    Observer (fun _ v => v) ∧
    (data_provider_handle_compass_data (fun _ v => v)
      ⟨⟨0, 0, 0, 0, 0, none, ⟨none, none, none, none, some 3⟩, 0,
        DataProviderOrientation.Flat, 0, 0, none, ⟨0, 0, 0, false, 0⟩, ⟨0, 0, 0, false, 0⟩,
        ⟨0, 0, 0, false⟩⟩, Platform.boot⟩ ⟨7, 8, 1, true⟩).state.heading = ⟨7, 8, 1, true⟩ ∧
    (data_provider_handle_compass_data (fun _ v => v)
      ⟨⟨0, 0, 0, 0, 0, none, ⟨none, none, none, none, some 3⟩, 0,
        DataProviderOrientation.Flat, 0, 0, none, ⟨0, 0, 0, false, 0⟩, ⟨0, 0, 0, false, 0⟩,
        ⟨0, 0, 0, false⟩⟩, Platform.boot⟩ ⟨7, 8, 1, true⟩).state.timer = none :=
  ⟨observer_id,
    by rw [((handle_compass_data_spec (fun _ v => v) _ ⟨7, 8, 1, true⟩).2.1 observer_id).1],
    ((handle_compass_data_spec (fun _ v => v) _ ⟨7, 8, 1, true⟩).2.1 observer_id).2.2.2.2.1⟩

/-! ## C16: shifting the heading -/

theorem delta_heading_angle_state (w : World) (delta : ℤ) :
    (data_provider_delta_heading_angle w delta).state =
      { w.state with
        heading := { w.state.heading with
          magnetic_heading := wrap_int32 (w.state.heading.magnetic_heading + delta)
          true_heading := wrap_int32 (w.state.heading.true_heading + delta) }
        timer := (data_provider_delta_heading_angle w delta).state.timer } := by
  unfold data_provider_delta_heading_angle
  rw [schedule_update_state]

theorem delta_heading_angle_registers (w : World) (delta : ℤ) (hn : w.state.timer = none) :
    (data_provider_delta_heading_angle w delta).state.timer = some (w.sys.timer_handles + 1) ∧
    (data_provider_delta_heading_angle w delta).sys.timers = w.sys.timers ++
      [⟨w.sys.timer_handles + 1, 1000 / 30, AppTimerCallback.update_state⟩] := by
  unfold data_provider_delta_heading_angle
  exact schedule_update_registers _ hn

/-- C16. `data_provider_delta_heading_angle(delta)` adds `delta` to
`heading.magnetic_heading` and to `heading.true_heading` (absent `int32_t` overflow of the
two sums), leaves the target angle, the presentation angle and the angular velocity as they
were at the call, and a tick is pending afterwards.  With handlers that only observe, the
next tick sets the target angle to the old magnetic heading plus `delta`. -/
theorem delta_heading_angle_spec (env : ℕ → World → World) (w : World) (delta : ℤ)
    (hm : InInt32 (w.state.heading.magnetic_heading + delta))
    (ht : InInt32 (w.state.heading.true_heading + delta)) (hobs : Observer env) :
    (data_provider_delta_heading_angle w delta).state.heading.magnetic_heading =
      w.state.heading.magnetic_heading + delta ∧
    (data_provider_delta_heading_angle w delta).state.heading.true_heading =
      w.state.heading.true_heading + delta ∧
    (data_provider_delta_heading_angle w delta).state.target_angle = w.state.target_angle ∧
    (data_provider_delta_heading_angle w delta).state.presentation_angle =
      w.state.presentation_angle ∧
    (data_provider_delta_heading_angle w delta).state.angular_velocity =
      w.state.angular_velocity ∧
    (data_provider_delta_heading_angle w delta).state.timer ≠ none ∧
    (w.state.timer = none →
      (data_provider_delta_heading_angle w delta).sys.timers = w.sys.timers ++
        [⟨w.sys.timer_handles + 1, 1000 / 30, AppTimerCallback.update_state⟩]) ∧
    (w.state.timer ≠ none →
      (data_provider_delta_heading_angle w delta).sys.timers = w.sys.timers) ∧
    data_provider_get_target_angle
      (update_state env (data_provider_delta_heading_angle w delta)) =
        w.state.heading.magnetic_heading + delta := by
  have hs := delta_heading_angle_state w delta
  have h1 : (data_provider_delta_heading_angle w delta).state.heading.magnetic_heading =
      w.state.heading.magnetic_heading + delta := by
    rw [hs]; exact wrap_int32_eq hm
  refine ⟨h1, ?_, by rw [hs], by rw [hs], by rw [hs], schedule_update_pending _,
    fun hn => (delta_heading_angle_registers w delta hn).2,
    fun hp => (delta_heading_angle_keeps_timer w delta hp).2, ?_⟩
  · rw [hs]; exact wrap_int32_eq ht
  · unfold data_provider_get_target_angle
    rw [(update_state_frame env _ hobs).2.2.2, h1]

/-- Witness of C16: on a fresh engine `delta_heading_angle(100)` puts both headings at 100
and the next tick moves the target to 100. -/
theorem delta_heading_angle_spec_witness :
    InInt32 (World.rest.state.heading.magnetic_heading + 100) ∧
    InInt32 (World.rest.state.heading.true_heading + 100) ∧
    Observer (fun _ v => v) ∧
    data_provider_get_target_angle
      (update_state (fun _ v => v) (data_provider_delta_heading_angle World.rest 100)) =
        World.rest.state.heading.magnetic_heading + 100 :=
  ⟨by decide, by decide, observer_id,
    (delta_heading_angle_spec (fun _ v => v) World.rest 100 (by decide) (by decide)
      observer_id).2.2.2.2.2.2.2.2⟩

/-! ## C17: the dead band of the tick -/

theorem tquot_small (n : ℤ) (h : |n| < 20) : tquot n 20 = 0 := by
  rcases le_or_lt 0 n with h0 | h0
  · rw [tquot_of_nonneg 20 h0]
    exact Int.ediv_eq_zero_of_lt h0 (by rwa [abs_of_nonneg h0] at h)
  · rw [tquot_of_neg 20 h0]
    have h1 : -n < 20 := by rwa [abs_of_neg h0] at h
    rw [Int.ediv_eq_zero_of_lt (by omega) h1]
    rfl

theorem tick_velocity_rest (s : DataProviderState) (hv : s.angular_velocity = 0)
    (hp : tick_pull s = 0) : tick_velocity s = 0 := by
  unfold tick_velocity
  rw [hv, hp]
  unfold f32_mul float_of_int
  simp [roundF32_zero, truncate]

theorem tick_pull_dead_band (s : DataProviderState) (hv : s.angular_velocity = 0)
    (hd : |s.target_angle - s.presentation_angle| < 20)
    (ha : s.attraction = roundF32 (1 / 20)) : tick_pull s = 0 := by
  unfold tick_pull
  rw [hv, ha, add_zero,
    truncate_mul_attraction _ (hd.le.trans (by norm_num))]
  exact tquot_small _ hd

theorem dead_band_tick (env : ℕ → World → World) (hobs : Observer env) (w : World)
    (hv : w.state.angular_velocity = 0)
    (hh : w.state.heading.magnetic_heading = w.state.target_angle)
    (hd : |w.state.target_angle - w.state.presentation_angle| < 20)
    (ha : w.state.attraction = roundF32 (1 / 20))
    (hp : InInt32 w.state.presentation_angle) :
    (update_state env w).state.presentation_angle = w.state.presentation_angle ∧
    (update_state env w).state.angular_velocity = 0 ∧
    (update_state env w).state.target_angle = w.state.target_angle ∧
    (update_state env w).state.heading = w.state.heading ∧
    (update_state env w).state.attraction = w.state.attraction := by
  have hpull := tick_pull_dead_band w.state hv hd ha
  have hvel := tick_velocity_rest w.state hv hpull
  have hlt := abs_lt.mp hd
  have hr : TickInRange w.state := by
    refine ⟨by rw [hv, add_zero]; exact hp, ?_, by rw [hpull]; decide,
      by rw [hv, hpull]; decide, by rw [hvel]; decide⟩
    rw [hv, add_zero]
    exact ⟨by linarith [hlt.1], by linarith [hlt.2]⟩
  have h1 := update_state_fields env w (observer_keepsSimulation hobs) hr
  have h2 := update_state_frame env w hobs
  exact ⟨by rw [h1.1, hv, add_zero], by rw [h1.2.1, hvel], by rw [h2.2.2.2, hh], h2.1, h2.2.1⟩

theorem dead_band_iterate (env : ℕ → World → World) (hobs : Observer env) (n : ℕ) :
    ∀ w : World, w.state.angular_velocity = 0 →
      w.state.heading.magnetic_heading = w.state.target_angle →
      |w.state.target_angle - w.state.presentation_angle| < 20 →
      w.state.attraction = roundF32 (1 / 20) →
      InInt32 w.state.presentation_angle →
      ((update_state env)^[n] w).state.presentation_angle = w.state.presentation_angle ∧
      ((update_state env)^[n] w).state.angular_velocity = 0 ∧
      ((update_state env)^[n] w).state.target_angle = w.state.target_angle := by
  induction n with
  | zero => intro w hv _ _ _ _; exact ⟨rfl, hv, rfl⟩
  | succ n ih =>
    intro w hv hh hd ha hp
    obtain ⟨h1, h2, h3, h4, h5⟩ := dead_band_tick env hobs w hv hh hd ha hp
    have := ih (update_state env w) h2 (by rw [h4, h3, hh]) (by rw [h3, h1]; exact hd)
      (by rw [h5, ha]) (by rw [h1]; exact hp)
    rw [Function.iterate_succ_apply]
    exact ⟨this.1.trans h1, this.2.1, this.2.2.trans h3⟩

/-- C17. The tick has a dead band around the target.  In a state with angular velocity 0,
magnetic heading equal to the target angle, `|target_angle - presentation_angle| < 20` and
the attraction 0.05 of `data_provider_create` (handlers that only observe, whatever the
friction), a tick leaves the presentation angle and the angular velocity unchanged; so does
every number of ticks, and a presentation angle that differs from the target never reaches
it. -/
theorem tick_dead_band (env : ℕ → World → World) (w : World) (hobs : Observer env)
    (hv : w.state.angular_velocity = 0)
    (hh : w.state.heading.magnetic_heading = w.state.target_angle)
    (hd : |w.state.target_angle - w.state.presentation_angle| < 20)
    (ha : w.state.attraction = roundF32 (1 / 20))
    (hp : InInt32 w.state.presentation_angle) :
    (update_state env w).state.presentation_angle = w.state.presentation_angle ∧
    (update_state env w).state.angular_velocity = w.state.angular_velocity ∧
    (∀ n, ((update_state env)^[n] w).state.presentation_angle = w.state.presentation_angle ∧
      ((update_state env)^[n] w).state.angular_velocity = 0 ∧
      ((update_state env)^[n] w).state.target_angle = w.state.target_angle) ∧
    (w.state.presentation_angle ≠ w.state.target_angle →
      ∀ n, ((update_state env)^[n] w).state.presentation_angle ≠
        ((update_state env)^[n] w).state.target_angle) := by
  have h := dead_band_tick env hobs w hv hh hd ha hp
  refine ⟨h.1, by rw [h.2.1, hv], fun n => dead_band_iterate env hobs n w hv hh hd ha hp,
    fun hne n => ?_⟩
  have hn := dead_band_iterate env hobs n w hv hh hd ha hp
  rw [hn.1, hn.2.2]
  exact hne

/-- Witness of C17: a fresh engine whose target is set to 19 stays at presentation angle 0
for a hundred ticks, and at every other number of ticks. -/
theorem tick_dead_band_witness :
    Observer (fun _ v => v) ∧
    (data_provider_set_target_angle World.rest 19).state.angular_velocity = 0 ∧
    |(data_provider_set_target_angle World.rest 19).state.target_angle -
      (data_provider_set_target_angle World.rest 19).state.presentation_angle| < 20 ∧
    ((update_state (fun _ v => v))^[100]
      (data_provider_set_target_angle World.rest 19)).state.presentation_angle = 0 ∧
    ((update_state (fun _ v => v))^[100]
      (data_provider_set_target_angle World.rest 19)).state.target_angle = 19 :=
  ⟨observer_id, rfl, by decide,
    ((tick_dead_band (fun _ v => v) (data_provider_set_target_angle World.rest 19) observer_id
      rfl rfl (by decide) rfl (by decide)).2.2.1 100).1,
    ((tick_dead_band (fun _ v => v) (data_provider_set_target_angle World.rest 19) observer_id
      rfl rfl (by decide) rfl (by decide)).2.2.1 100).2.2⟩

/-! ## C19: the odd symmetry of the tick -/

theorem tick_pull_negate (s : DataProviderState) :
    tick_pull (negate_angles s) = -tick_pull s := by
  unfold tick_pull
  show truncate (f32_mul (float_of_int
    (-s.target_angle - (-s.presentation_angle + -s.angular_velocity))) s.attraction) = _
  rw [show -s.target_angle - (-s.presentation_angle + -s.angular_velocity) =
    -(s.target_angle - (s.presentation_angle + s.angular_velocity)) by ring,
    float_of_int_neg, f32_mul_neg_left, truncate_neg]

theorem tick_velocity_negate (s : DataProviderState) :
    tick_velocity (negate_angles s) = -tick_velocity s := by
  unfold tick_velocity
  rw [tick_pull_negate]
  show truncate (f32_mul (float_of_int (-s.angular_velocity + -tick_pull s)) s.friction) = _
  rw [show -s.angular_velocity + -tick_pull s = -(s.angular_velocity + tick_pull s) by ring,
    float_of_int_neg, f32_mul_neg_left, truncate_neg]

/-- C19. The tick is odd-symmetric, the casts from `float` truncating toward zero.  With
handlers that only observe and no `int32_t` overflow in either run: the tick from the state
with target angle, presentation angle, angular velocity and magnetic heading negated ends
with the negated presentation angle, angular velocity and target angle of the tick from the
state itself. -/
theorem tick_odd_symmetric (env : ℕ → World → World) (w : World) (hobs : Observer env)
    (hr : TickInRange w.state) (hn : TickInRange (negate_angles w.state)) :
    (update_state env { w with state := negate_angles w.state }).state.presentation_angle =
      -(update_state env w).state.presentation_angle ∧
    (update_state env { w with state := negate_angles w.state }).state.angular_velocity =
      -(update_state env w).state.angular_velocity ∧
    (update_state env { w with state := negate_angles w.state }).state.target_angle =
      -(update_state env w).state.target_angle := by
  have hk := observer_keepsSimulation hobs
  have h1 := update_state_fields env w hk hr
  have h2 := update_state_fields env { w with state := negate_angles w.state } hk hn
  have h3 := update_state_frame env w hobs
  have h4 := update_state_frame env { w with state := negate_angles w.state } hobs
  refine ⟨?_, ?_, ?_⟩
  · rw [h1.1, h2.1]
    show -w.state.presentation_angle + -w.state.angular_velocity = _
    ring
  · rw [h1.2.1, h2.2.1]
    exact tick_velocity_negate w.state
  · rw [h3.2.2.2, h4.2.2.2]
    rfl

/-- Witness of C19: from rest with target 90 a tick gives velocity 3 and target 90; from
rest with target and heading -90 it gives velocity -3 and target -90. -/
theorem tick_odd_symmetric_witness :
    Observer (fun _ v => v) ∧
    TickInRange (data_provider_set_target_angle World.rest 90).state ∧
    TickInRange (negate_angles (data_provider_set_target_angle World.rest 90).state) ∧
    (update_state (fun _ v => v)
      { data_provider_set_target_angle World.rest 90 with
        state := negate_angles (data_provider_set_target_angle World.rest 90).state
      }).state.angular_velocity =
      -(update_state (fun _ v => v)
        (data_provider_set_target_angle World.rest 90)).state.angular_velocity :=
  have h := tick_from_rest_90 World.rest rfl rfl rfl rfl
  have hn : TickInRange (negate_angles (data_provider_set_target_angle World.rest 90).state) :=
    ⟨by decide, by decide, by rw [tick_pull_negate, h.1]; decide,
      by rw [tick_pull_negate, h.1]; decide, by rw [tick_velocity_negate, h.2.1]; decide⟩
  ⟨observer_id, h.2.2, hn,
    (tick_odd_symmetric (fun _ v => v) (data_provider_set_target_angle World.rest 90)
      observer_id h.2.2 hn).2.1⟩

/-! ## The accelerometer merge: range and fixed points -/

theorem le_truncate {k : ℤ} {q : ℚ} (h : (k : ℚ) ≤ q) : k ≤ truncate q := by
  have tb := abs_lt.mp (truncate_bounds q).1
  have h1 : ((k - 1 : ℤ) : ℚ) < (truncate q : ℤ) := by push_cast; linarith [tb.1]
  have h2 : k - 1 < truncate q := by exact_mod_cast h1
  omega

theorem truncate_le {k : ℤ} {q : ℚ} (h : q ≤ (k : ℚ)) : truncate q ≤ k := by
  have tb := abs_lt.mp (truncate_bounds q).1
  have h1 : ((truncate q : ℤ) : ℚ) < ((k + 1 : ℤ) : ℚ) := by push_cast; linarith [tb.2]
  have h2 : truncate q < k + 1 := by exact_mod_cast h1
  omega

theorem pred_le_truncate {k : ℤ} {q : ℚ} (h : (k : ℚ) - 1 < q) :
    k - 1 ≤ truncate q ∧ (k ≤ 0 → k ≤ truncate q) := by
  obtain ⟨t1, t2, t3⟩ := truncate_bounds q
  have tb := abs_lt.mp t1
  constructor
  · have h1 : ((k - 2 : ℤ) : ℚ) < (truncate q : ℤ) := by push_cast; linarith [tb.1]
    have h2 : k - 2 < truncate q := by exact_mod_cast h1
    omega
  · intro hk
    rcases le_total 0 q with h0 | h0
    · have h1 : ((-1 : ℤ) : ℚ) < (truncate q : ℤ) := by push_cast; linarith [tb.1]
      have h2 : -1 < truncate q := by exact_mod_cast h1
      omega
    · have h1 : ((k - 1 : ℤ) : ℚ) < (truncate q : ℤ) := by push_cast; linarith [t3 h0]
      have h2 : k - 1 < truncate q := by exact_mod_cast h1
      omega

theorem truncate_le_succ {k : ℤ} {q : ℚ} (h : q < (k : ℚ) + 1) :
    truncate q ≤ k + 1 ∧ (0 ≤ k → truncate q ≤ k) := by
  have h1 := pred_le_truncate (k := -k) (q := -q) (by push_cast; linarith)
  rw [truncate_neg] at h1
  constructor
  · linarith [h1.1]
  · intro hk
    linarith [h1.2 (by omega)]

/-- A value within half a unit in the last place below an integer rounds to at least that
integer: integers below `2 ^ 23` have an even significand. -/
theorem le_roundF32_of_half_ulp (x : ℤ) (y : ℚ) (hg : ulpExp y ≤ -1)
    (h : (x : ℚ) - y ≤ 2 ^ ulpExp y / 2) : (x : ℚ) ≤ roundF32 y := by
  unfold roundF32
  generalize ulpExp y = g at hg h
  have hpos := two_zpow_pos g
  obtain ⟨k, hk⟩ : ∃ k : ℕ, g = -((k : ℤ) + 1) :=
    ⟨(-g - 1).toNat, by rw [Int.toNat_of_nonneg (by omega)]; ring⟩
  have hpow : (2 : ℚ) ^ g * 2 ^ (k + 1) = 1 := by
    rw [hk, zpow_neg]
    have : ((2 : ℚ) ^ ((k : ℤ) + 1)) = 2 ^ (k + 1) := by norm_cast
    rw [this]
    exact inv_mul_cancel₀ (by positivity)
  have hM : ((x * 2 ^ (k + 1) : ℤ) : ℚ) = x / 2 ^ g := by
    push_cast
    rw [eq_div_iff hpos.ne']
    linear_combination (x : ℚ) * hpow
  have hle : x * 2 ^ (k + 1) ≤ rne (y / 2 ^ g) := by
    apply le_rne_of_even
    · rw [pow_succ, ← mul_assoc]
      exact Int.mul_emod_left _ 2
    · rw [hM, le_div_iff₀ hpos, sub_mul, div_mul_cancel₀ _ hpos.ne']
      linarith
  calc (x : ℚ) = ((x * 2 ^ (k + 1) : ℤ) : ℚ) * 2 ^ g := by
        rw [hM, div_mul_cancel₀ _ hpos.ne']
    _ ≤ (rne (y / 2 ^ g) : ℚ) * 2 ^ g := by
        apply mul_le_mul_of_nonneg_right _ hpos.le
        exact_mod_cast hle

/-- The binary32 sum of the two rounded parts of an integer is at least that integer, when
one part is at least twice the other: the two rounding errors are multiples of the finer
unit in the last place, so that their sum is at most half the coarser one. -/
theorem le_roundF32_sum (x : ℤ) (a b : ℚ) (hx1 : 1 ≤ x) (hx2 : x ≤ 2 ^ 15)
    (hab : a + b = x) (hb : 0 < b) (h2 : 2 * b ≤ a) :
    (x : ℚ) ≤ roundF32 (roundF32 a + roundF32 b) := by
  have hxq1 : (1 : ℚ) ≤ x := by exact_mod_cast hx1
  have hxq2 : (x : ℚ) ≤ 2 ^ 15 := by exact_mod_cast hx2
  have ha : 0 < a := by linarith
  have ha2 : (1 : ℚ) / 2 ≤ a := by linarith
  have haabs : |a| = a := abs_of_pos ha
  have hbabs : |b| = b := abs_of_pos hb
  -- the binades of the two parts
  have hla : -1 ≤ Int.log 2 |a| :=
    le_log_of_zpow_le ha.ne' (by rw [haabs]; norm_num; linarith)
  have hla2 : Int.log 2 |a| < 16 :=
    log_lt_of_lt_zpow ha.ne' (by rw [haabs]; norm_num; linarith)
  have hlb : Int.log 2 |b| + 1 ≤ Int.log 2 |a| := by
    apply le_log_of_zpow_le ha.ne'
    have h1 : (2 : ℚ) ^ Int.log 2 |b| ≤ b := (zpow_log_le hb.ne').trans_eq hbabs
    rw [haabs, zpow_add_one₀ (by norm_num : (2 : ℚ) ≠ 0)]
    linarith
  have hga : ulpExp a = Int.log 2 |a| - 23 := by
    unfold ulpExp
    exact max_eq_left (by omega)
  have hgb1 : ulpExp b < ulpExp a := by
    rw [hga]
    unfold ulpExp
    exact max_lt (by omega) (by omega)
  -- the sum of the rounded parts
  have hta0 : (2 : ℚ) ^ Int.log 2 |a| ≤ roundF32 a := by
    have h1 : (2 : ℚ) ^ Int.log 2 |a| ≤ a := (zpow_log_le ha.ne').trans_eq haabs
    have h3 : ((2 ^ 23 : ℤ) : ℚ) * 2 ^ ulpExp a = 2 ^ Int.log 2 |a| := by
      rw [hga, show ((2 ^ 23 : ℤ) : ℚ) = (2 : ℚ) ^ (23 : ℤ) by norm_num,
        ← zpow_add₀ (by norm_num : (2 : ℚ) ≠ 0)]
      congr 1
      ring
    have := grid_le_roundF32 (x := a) (m := 2 ^ 23) (j := ulpExp a) le_rfl (by rw [h3]; exact h1)
    rwa [h3] at this
  have htb0 : 0 ≤ roundF32 b := roundF32_nonneg hb.le
  have hta1 : roundF32 a ≤ 2 ^ 15 := by
    have := roundF32_le_grid (x := a) (m := 2 ^ 15) (j := 0) (by rw [hga]; omega)
      (by push_cast; rw [zpow_zero, mul_one]; linarith)
    simpa using this
  have htb1 : roundF32 b ≤ 2 ^ 15 := by
    have := roundF32_le_grid (x := b) (m := 2 ^ 15) (j := 0) (by rw [hga] at hgb1; omega)
      (by push_cast; rw [zpow_zero, mul_one]; linarith)
    simpa using this
  have hy0 : 0 < roundF32 a + roundF32 b :=
    lt_of_lt_of_le (two_zpow_pos _) (by linarith)
  have hyabs : |roundF32 a + roundF32 b| = roundF32 a + roundF32 b := abs_of_pos hy0
  have hly : Int.log 2 |a| ≤ Int.log 2 |roundF32 a + roundF32 b| :=
    le_log_of_zpow_le hy0.ne' (by rw [hyabs]; linarith)
  have hly2 : Int.log 2 |roundF32 a + roundF32 b| < 17 :=
    log_lt_of_lt_zpow hy0.ne' (by rw [hyabs]; norm_num; norm_num at hta1 htb1; linarith)
  have hgy1 : ulpExp a ≤ ulpExp (roundF32 a + roundF32 b) := by
    rw [hga]
    unfold ulpExp
    exact le_max_of_le_left (by omega)
  have hgy2 : ulpExp (roundF32 a + roundF32 b) ≤ -1 := by
    unfold ulpExp
    exact max_le (by omega) (by norm_num)
  -- the error of the sum is a multiple of the finer unit
  have hea := abs_le.mp (abs_roundF32_sub_le a)
  have heb := abs_le.mp (abs_roundF32_sub_le b)
  have hGb := two_zpow_pos (ulpExp b)
  obtain ⟨p, hp⟩ : ∃ p : ℕ, ulpExp a = ulpExp b + ((p : ℤ) + 1) :=
    ⟨(ulpExp a - ulpExp b - 1).toNat, by rw [Int.toNat_of_nonneg (by omega)]; ring⟩
  obtain ⟨q, hq⟩ : ∃ q : ℕ, ulpExp b = -(q : ℤ) :=
    ⟨(-ulpExp b).toNat, by rw [Int.toNat_of_nonneg (by omega)]; ring⟩
  have e1 : (2 : ℚ) ^ q * 2 ^ ulpExp b = 1 := by
    rw [hq, zpow_neg, zpow_natCast]
    exact mul_inv_cancel₀ (by positivity)
  have e2 : (2 : ℚ) ^ ulpExp a = 2 * 2 ^ p * 2 ^ ulpExp b := by
    rw [hp, zpow_add₀ (by norm_num : (2 : ℚ) ≠ 0), zpow_add_one₀ (by norm_num : (2 : ℚ) ≠ 0),
      zpow_natCast]
    ring
  have hN : (((x * 2 ^ q - rne (a / 2 ^ ulpExp a) * (2 * 2 ^ p) - rne (b / 2 ^ ulpExp b) : ℤ)
      : ℚ)) * 2 ^ ulpExp b = x - (roundF32 a + roundF32 b) := by
    unfold roundF32
    push_cast
    rw [e2]
    linear_combination (x : ℚ) * e1
  generalize (x * 2 ^ q - rne (a / 2 ^ ulpExp a) * (2 * 2 ^ p) - rne (b / 2 ^ ulpExp b) : ℤ)
    = N at hN
  have hN1 : ((N : ℤ) : ℚ) * 2 ^ ulpExp b ≤ (2 ^ p + 1 / 2) * 2 ^ ulpExp b := by
    rw [hN]
    have : (2 ^ p + 1 / 2 : ℚ) * 2 ^ ulpExp b = 2 ^ ulpExp a / 2 + 2 ^ ulpExp b / 2 := by
      rw [e2]; ring
    rw [this]
    linarith [hea.1, heb.1]
  have hN2 : (N : ℚ) ≤ 2 ^ p + 1 / 2 := le_of_mul_le_mul_right hN1 hGb
  have hN3 : N ≤ 2 ^ p := by
    have h1 : ((N : ℤ) : ℚ) < ((2 ^ p + 1 : ℤ) : ℚ) := by push_cast; linarith
    have h2 : N < 2 ^ p + 1 := by exact_mod_cast h1
    omega
  have hfin : (x : ℚ) - (roundF32 a + roundF32 b) ≤ 2 ^ ulpExp a / 2 := by
    rw [← hN, e2]
    have h1 : (N : ℚ) ≤ 2 ^ p := by exact_mod_cast hN3
    have := mul_le_mul_of_nonneg_right h1 hGb.le
    linarith
  exact le_roundF32_of_half_ulp x _ hgy2
    (hfin.trans (div_le_div_of_nonneg_right (two_zpow_le hgy1) (by norm_num)))

theorem merge_axis_eq (d n : ℤ) (f : ℚ) (hd : InInt16 d) (hn : InInt16 n) :
    merge_axis d n f = wrap_int16 (truncate
      (roundF32 (roundF32 ((n : ℚ) * f) + roundF32 (roundF32 (1 - f) * (d : ℚ))))) := by
  unfold InInt16 at hd hn
  unfold merge_axis int16_of_float f32_add f32_mul f32_sub float_of_int
  rw [roundF32_intCast n (by rw [abs_le]; constructor <;> omega),
    roundF32_intCast d (by rw [abs_le]; constructor <;> omega)]

theorem merge_sum_lower (x : ℤ) (c g : ℚ) (hx1 : 1 ≤ x) (hx2 : x ≤ 2 ^ 15) (hc : 0 < c)
    (hg : 0 < g) (hcg : c + g = 1) (h2 : 2 * c ≤ g ∨ 2 * g ≤ c) :
    (x : ℚ) ≤ roundF32 (roundF32 ((x : ℚ) * c) + roundF32 (g * (x : ℚ))) := by
  have hxq : (0 : ℚ) < x := by exact_mod_cast (by omega : 0 < x)
  rcases h2 with h | h
  · rw [add_comm]
    exact le_roundF32_sum x (g * x) (x * c) hx1 hx2 (by linear_combination (x : ℚ) * hcg)
      (mul_pos hxq hc) (by nlinarith)
  · exact le_roundF32_sum x (x * c) (g * x) hx1 hx2 (by linear_combination (x : ℚ) * hcg)
      (mul_pos hg hxq) (by nlinarith)

/-- With complementary weights, one at least twice the other, the binary32 interpolation of
a value with itself truncates to that value. -/
theorem merge_sum_fixed (x : ℤ) (c g : ℚ) (hx : InInt16 x) (hc : 0 < c) (hg : 0 < g)
    (hcg : c + g = 1) (h2 : 2 * c ≤ g ∨ 2 * g ≤ c) :
    truncate (roundF32 (roundF32 ((x : ℚ) * c) + roundF32 (g * (x : ℚ)))) = x := by
  have herr := abs_le.mp
    (merge_sum_error x x c g hc.le (by linarith) hg.le (by linarith) hx hx)
  have hsum : (x : ℚ) * c + g * x = x := by linear_combination (x : ℚ) * hcg
  rw [hsum] at herr
  unfold InInt16 at hx
  rcases lt_trichotomy x 0 with h | h | h
  · have hlow := merge_sum_lower (-x) c g (by omega) (by omega) hc hg hcg h2
    have hneg : roundF32 (roundF32 (((-x : ℤ) : ℚ) * c) + roundF32 (g * ((-x : ℤ) : ℚ)))
        = -roundF32 (roundF32 ((x : ℚ) * c) + roundF32 (g * (x : ℚ))) := by
      push_cast
      rw [neg_mul, mul_neg, roundF32_neg, roundF32_neg, ← neg_add, roundF32_neg]
    rw [hneg] at hlow
    push_cast at hlow
    generalize roundF32 (roundF32 ((x : ℚ) * c) + roundF32 (g * (x : ℚ))) = s at herr hlow
    have h1 : truncate (-s) = -x :=
      truncate_eq_of_bounds (-x) (by omega) (by push_cast; exact hlow)
        (by push_cast; linarith [herr.1])
    rw [truncate_neg] at h1
    omega
  · subst h
    simp [roundF32_zero, truncate]
  · have hlow := merge_sum_lower x c g (by omega) (by omega) hc hg hcg h2
    exact truncate_eq_of_bounds x (by omega) hlow (by linarith [herr.2])

theorem merge_axis_fixed (x : ℤ) (c g : ℚ) (hx : InInt16 x) (hc : 0 < c) (hg : 0 < g)
    (hcg : c + g = 1) (hround : roundF32 (1 - c) = g) (h2 : 2 * c ≤ g ∨ 2 * g ≤ c) :
    merge_axis x x c = x := by
  rw [merge_axis_eq x x c hx hx, hround, merge_sum_fixed x c g hx hc hg hcg h2,
    wrap_int16_eq hx]

/-- For every factor in `[0, 1]` the cast of the merge is in range, and the merged axis is
between the two operands or their neighbour on the side of zero. -/
theorem merge_axis_range (d n : ℤ) (f : ℚ) (hf0 : 0 ≤ f) (hf1 : f ≤ 1) (hd : InInt16 d)
    (hn : InInt16 n) :
    merge_axis d n f = truncate
      (f32_add (f32_mul (float_of_int n) f) (f32_mul (f32_sub 1 f) (float_of_int d))) ∧
    InInt16 (merge_axis d n f) ∧
    (min d n ≤ merge_axis d n f ∨ (0 < min d n ∧ merge_axis d n f = min d n - 1)) ∧
    (merge_axis d n f ≤ max d n ∨ (max d n < 0 ∧ merge_axis d n f = max d n + 1)) := by
  have hg0 : 0 ≤ roundF32 (1 - f) := roundF32_nonneg (by linarith)
  have hg1 : roundF32 (1 - f) ≤ 1 := roundF32_le_one (by linarith)
  have hge := abs_le.mp (abs_roundF32_sub_le_of_lt (x := 1 - f) (k := 1)
    (by rw [abs_lt]; constructor <;> norm_num <;> linarith) (by norm_num))
  have herr := abs_le.mp (merge_sum_error d n f (roundF32 (1 - f)) hf0 hf1 hg0 hg1 hd hn)
  have hval := merge_axis_eq d n f hd hn
  have hdef : merge_axis d n f = wrap_int16 (truncate
      (f32_add (f32_mul (float_of_int n) f) (f32_mul (f32_sub 1 f) (float_of_int d)))) := rfl
  have hsame : truncate
      (f32_add (f32_mul (float_of_int n) f) (f32_mul (f32_sub 1 f) (float_of_int d))) =
      truncate (roundF32 (roundF32 ((n : ℚ) * f) + roundF32 (roundF32 (1 - f) * (d : ℚ)))) := by
    have hd' := hd
    have hn' := hn
    unfold InInt16 at hd' hn'
    unfold f32_add f32_mul f32_sub float_of_int
    rw [roundF32_intCast n (by rw [abs_le]; constructor <;> omega),
      roundF32_intCast d (by rw [abs_le]; constructor <;> omega)]
  rw [hsame]
  generalize roundF32 (roundF32 ((n : ℚ) * f) + roundF32 (roundF32 (1 - f) * (d : ℚ))) = s
    at herr hval
  generalize roundF32 (1 - f) = g at herr hge
  unfold InInt16 at hd hn
  have hd1 : (-32768 : ℚ) ≤ d := by exact_mod_cast hd.1
  have hd2 : (d : ℚ) ≤ 32767 := by exact_mod_cast (by omega : d ≤ 32767)
  have hlo1 : ((min d n : ℤ) : ℚ) ≤ d := by exact_mod_cast min_le_left d n
  have hlo2 : ((min d n : ℤ) : ℚ) ≤ n := by exact_mod_cast min_le_right d n
  have hhi1 : (d : ℚ) ≤ ((max d n : ℤ) : ℚ) := by exact_mod_cast le_max_left d n
  have hhi2 : (n : ℚ) ≤ ((max d n : ℤ) : ℚ) := by exact_mod_cast le_max_right d n
  have hv1 : ((min d n : ℤ) : ℚ) ≤ n * f + (1 - f) * d := by
    nlinarith [mul_nonneg hf0 (sub_nonneg.mpr hlo2),
      mul_nonneg (sub_nonneg.mpr hf1) (sub_nonneg.mpr hlo1)]
  have hv2 : (n : ℚ) * f + (1 - f) * d ≤ ((max d n : ℤ) : ℚ) := by
    nlinarith [mul_nonneg hf0 (sub_nonneg.mpr hhi2),
      mul_nonneg (sub_nonneg.mpr hf1) (sub_nonneg.mpr hhi1)]
  have hgd : |(g - (1 - f)) * (d : ℚ)| ≤ 1 / 512 := by
    rw [abs_mul]
    have h1 : |g - (1 - f)| ≤ 2 ^ ((1 : ℤ) - 25) := abs_le.mpr hge
    have h2 : |(d : ℚ)| ≤ 32768 := abs_le.mpr ⟨hd1, by linarith⟩
    calc |g - (1 - f)| * |(d : ℚ)| ≤ 2 ^ ((1 : ℤ) - 25) * 32768 :=
          mul_le_mul h1 h2 (abs_nonneg _) (by positivity)
      _ = 1 / 512 := by norm_num
  have hgd' := abs_le.mp hgd
  have hs1 : ((min d n : ℤ) : ℚ) - 1 < s := by nlinarith [herr.1, hgd'.1]
  have hs2 : s < ((max d n : ℤ) : ℚ) + 1 := by nlinarith [herr.2, hgd'.2]
  obtain ⟨a1, a2⟩ := pred_le_truncate hs1
  obtain ⟨b1, b2⟩ := truncate_le_succ hs2
  have hin : InInt16 (truncate s) := by
    unfold InInt16
    constructor
    · rcases le_or_lt (min d n) 0 with h | h
      · have := a2 h; omega
      · omega
    · rcases le_or_lt 0 (max d n) with h | h
      · have := b2 h; omega
      · omega
  rw [hval, wrap_int16_eq hin]
  refine ⟨rfl, hin, ?_, ?_⟩
  · rcases le_or_lt (min d n) 0 with h | h
    · exact Or.inl (a2 h)
    · rcases le_or_lt (min d n) (truncate s) with h' | h'
      · exact Or.inl h'
      · exact Or.inr ⟨h, by omega⟩
  · rcases le_or_lt 0 (max d n) with h | h
    · exact Or.inl (b2 h)
    · rcases le_or_lt (truncate s) (max d n) with h' | h'
      · exact Or.inl h'
      · exact Or.inr ⟨h, by omega⟩

/-- With complementary weights above `1 / 128`, one at least twice the other, the merged
axis lies between the two operands. -/
theorem merge_axis_between (d n : ℤ) (c g : ℚ) (hc : 1 / 128 < c) (hg : 1 / 128 < g)
    (hcg : c + g = 1) (hround : roundF32 (1 - c) = g) (h2 : 2 * c ≤ g ∨ 2 * g ≤ c)
    (hd : InInt16 d) (hn : InInt16 n) :
    min d n ≤ merge_axis d n c ∧ merge_axis d n c ≤ max d n := by
  have hc0 : 0 < c := by linarith
  have hg0 : 0 < g := by linarith
  rcases lt_trichotomy d n with h | h | h
  · have herr := abs_le.mp
      (merge_sum_error d n c g hc0.le (by linarith) hg0.le (by linarith) hd hn)
    have hval := merge_axis_eq d n c hd hn
    rw [hround] at hval
    generalize roundF32 (roundF32 ((n : ℚ) * c) + roundF32 (g * (d : ℚ))) = s at herr hval
    have hq : (1 : ℚ) ≤ (n : ℚ) - d := by
      have : ((1 : ℤ) : ℚ) ≤ ((n - d : ℤ) : ℚ) := by exact_mod_cast (by omega : 1 ≤ n - d)
      push_cast at this; linarith
    have e1 : (n : ℚ) * c + g * d = d + c * ((n : ℚ) - d) := by
      linear_combination (d : ℚ) * hcg
    have e2 : (n : ℚ) * c + g * d = n - g * ((n : ℚ) - d) := by
      linear_combination (n : ℚ) * hcg
    have m1 := mul_le_mul_of_nonneg_left hq hc0.le
    have m2 := mul_le_mul_of_nonneg_left hq hg0.le
    have hs1 : (d : ℚ) ≤ s := by linarith [herr.1]
    have hs2 : s ≤ (n : ℚ) := by linarith [herr.2]
    have r1 := le_truncate hs1
    have r2 := truncate_le hs2
    have hin : InInt16 (truncate s) := by
      unfold InInt16 at hd hn ⊢
      constructor <;> omega
    rw [hval, wrap_int16_eq hin, min_eq_left h.le, max_eq_right h.le]
    exact ⟨r1, r2⟩
  · subst h
    rw [merge_axis_fixed d c g hd hc0 hg0 hcg hround h2]
    simp
  · have herr := abs_le.mp
      (merge_sum_error d n c g hc0.le (by linarith) hg0.le (by linarith) hd hn)
    have hval := merge_axis_eq d n c hd hn
    rw [hround] at hval
    generalize roundF32 (roundF32 ((n : ℚ) * c) + roundF32 (g * (d : ℚ))) = s at herr hval
    have hq : (1 : ℚ) ≤ (d : ℚ) - n := by
      have : ((1 : ℤ) : ℚ) ≤ ((d - n : ℤ) : ℚ) := by exact_mod_cast (by omega : 1 ≤ d - n)
      push_cast at this; linarith
    have e1 : (n : ℚ) * c + g * d = n + g * ((d : ℚ) - n) := by
      linear_combination (n : ℚ) * hcg
    have e2 : (n : ℚ) * c + g * d = d - c * ((d : ℚ) - n) := by
      linear_combination (d : ℚ) * hcg
    have m1 := mul_le_mul_of_nonneg_left hq hc0.le
    have m2 := mul_le_mul_of_nonneg_left hq hg0.le
    have hs1 : (n : ℚ) ≤ s := by linarith [herr.1]
    have hs2 : s ≤ (d : ℚ) := by linarith [herr.2]
    have r1 := le_truncate hs1
    have r2 := truncate_le hs2
    have hin : InInt16 (truncate s) := by
      unfold InInt16 at hd hn ⊢
      constructor <;> omega
    rw [hval, wrap_int16_eq hin, min_eq_right h.le, max_eq_left h.le]
    exact ⟨r1, r2⟩

theorem roundF32_c01 : roundF32 (1 / 10) = 13421773 / 134217728 := by
  rw [roundF32_eq_of_near (1 / 10) (-4) 13421773 (by norm_num) (by norm_num) (by norm_num)
    (by norm_num) (by norm_num)]
  norm_num

/-- Merging the value 7 with itself under the factor `0.1f` gives 6. -/
theorem merge_axis_drift :
    merge_axis (7 : ℤ) (7 : ℤ) (roundF32 (1 / 10)) = (6 : ℤ) := by
  have e1 : roundF32 (((7 : ℤ) : ℚ)) = ((7 : ℤ) : ℚ) :=
    roundF32_intCast _ (by norm_num)
  have e3 : roundF32 (((7 : ℤ) : ℚ) * (13421773 / 134217728 : ℚ))
      = (11744051 / 16777216 : ℚ) := by
    have hv : (((7 : ℤ) : ℚ) * (13421773 / 134217728 : ℚ))
        = (93952411 / 134217728 : ℚ) := by norm_num
    rw [hv, roundF32_eq_of_near (93952411 / 134217728 : ℚ) (-1) 11744051
      (by norm_num) (by norm_num) (by norm_num) (by norm_num) (by norm_num)]
    norm_num
  have e4 : roundF32 (1 - (13421773 / 134217728 : ℚ))
      = (7549747 / 8388608 : ℚ) := by
    have hv : (1 - (13421773 / 134217728 : ℚ)) = (120795955 / 134217728 : ℚ) := by norm_num
    rw [hv, roundF32_eq_of_near (120795955 / 134217728 : ℚ) (-1) 15099494
      (by norm_num) (by norm_num) (by norm_num) (by norm_num) (by norm_num)]
    norm_num
  have e5 : roundF32 ((7549747 / 8388608 : ℚ) * ((7 : ℤ) : ℚ))
      = (13212057 / 2097152 : ℚ) := by
    have hv : ((7549747 / 8388608 : ℚ) * ((7 : ℤ) : ℚ)) = (52848229 / 8388608 : ℚ) := by norm_num
    rw [hv, roundF32_eq_of_near (52848229 / 8388608 : ℚ) (2) 13212057
      (by norm_num) (by norm_num) (by norm_num) (by norm_num) (by norm_num)]
    norm_num
  have e6 : roundF32 ((11744051 / 16777216 : ℚ) + (13212057 / 2097152 : ℚ))
      = (14680063 / 2097152 : ℚ) := by
    have hv : ((11744051 / 16777216 : ℚ) + (13212057 / 2097152 : ℚ))
        = (117440507 / 16777216 : ℚ) := by norm_num
    rw [hv, roundF32_eq_of_near (117440507 / 16777216 : ℚ) (2) 14680063
      (by norm_num) (by norm_num) (by norm_num) (by norm_num) (by norm_num)]
    norm_num
  have e7 : truncate (14680063 / 2097152 : ℚ) = (6 : ℤ) := by
    exact truncate_eq_of_nonneg _ (by norm_num) (by norm_num) (by norm_num)
  unfold merge_axis int16_of_float f32_add f32_mul f32_sub float_of_int
  rw [roundF32_c01, e1, e3, e4, e5, e6, e7]
  unfold wrap_int16; norm_num

theorem roundF32_c00001 : roundF32 (1 / 10000) = 13743895 / 137438953472 := by
  rw [roundF32_eq_of_near (1 / 10000) (-14) 13743895 (by norm_num) (by norm_num) (by norm_num)
    (by norm_num) (by norm_num)]
  norm_num

/-- Merging the sample 6228 into the value 6227 under the factor `0.0001f` gives 6226. -/
theorem merge_axis_undershoot :
    merge_axis (6227 : ℤ) (6228 : ℤ) (roundF32 (1 / 10000)) = (6226 : ℤ) := by
  have e1 : roundF32 (((6228 : ℤ) : ℚ)) = ((6228 : ℤ) : ℚ) :=
    roundF32_intCast _ (by norm_num)
  have e2 : roundF32 (((6227 : ℤ) : ℚ)) = ((6227 : ℤ) : ℚ) :=
    roundF32_intCast _ (by norm_num)
  have e3 : roundF32 (((6228 : ℤ) : ℚ) * (13743895 / 137438953472 : ℚ))
      = (5224425 / 8388608 : ℚ) := by
    have hv : (((6228 : ℤ) : ℚ) * (13743895 / 137438953472 : ℚ))
        = (21399244515 / 34359738368 : ℚ) := by norm_num
    rw [hv, roundF32_eq_of_near (21399244515 / 34359738368 : ℚ) (-1) 10448850
      (by norm_num) (by norm_num) (by norm_num) (by norm_num) (by norm_num)]
    norm_num
  have e4 : roundF32 (1 - (13743895 / 137438953472 : ℚ))
      = (8387769 / 8388608 : ℚ) := by
    have hv : (1 - (13743895 / 137438953472 : ℚ)) = (137425209577 / 137438953472 : ℚ) := by norm_num
    rw [hv, roundF32_eq_of_near (137425209577 / 137438953472 : ℚ) (-1) 16775538
      (by norm_num) (by norm_num) (by norm_num) (by norm_num) (by norm_num)]
    norm_num
  have e5 : roundF32 ((8387769 / 8388608 : ℚ) * ((6227 : ℤ) : ℚ))
      = (3187905 / 512 : ℚ) := by
    have hv : ((8387769 / 8388608 : ℚ) * ((6227 : ℤ) : ℚ))
        = (52230637563 / 8388608 : ℚ) := by norm_num
    rw [hv, roundF32_eq_of_near (52230637563 / 8388608 : ℚ) (12) 12751620
      (by norm_num) (by norm_num) (by norm_num) (by norm_num) (by norm_num)]
    norm_num
  have e6 : roundF32 ((5224425 / 8388608 : ℚ) + (3187905 / 512 : ℚ))
      = (12752895 / 2048 : ℚ) := by
    have hv : ((5224425 / 8388608 : ℚ) + (3187905 / 512 : ℚ))
        = (52235859945 / 8388608 : ℚ) := by norm_num
    rw [hv, roundF32_eq_of_near (52235859945 / 8388608 : ℚ) (12) 12752895
      (by norm_num) (by norm_num) (by norm_num) (by norm_num) (by norm_num)]
    norm_num
  have e7 : truncate (12752895 / 2048 : ℚ) = (6226 : ℤ) := by
    exact truncate_eq_of_nonneg _ (by norm_num) (by norm_num) (by norm_num)
  unfold merge_axis int16_of_float f32_add f32_mul f32_sub float_of_int
  rw [roundF32_c00001, e1, e2, e3, e4, e5, e6, e7]
  unfold wrap_int16; norm_num

theorem roundF32_complement_c03 :
    roundF32 (1 - 5033165 / 16777216) = 11744051 / 16777216 := by
  rw [show (1 - 5033165 / 16777216 : ℚ) = 11744051 / 16777216 by norm_num,
    roundF32_eq_of_near (11744051 / 16777216) (-1) 11744051 (by norm_num) (by norm_num)
      (by norm_num) (by norm_num) (by norm_num)]
  norm_num

theorem roundF32_complement_c099 :
    roundF32 (1 - 4152361 / 4194304) = 41943 / 4194304 := by
  rw [show (1 - 4152361 / 4194304 : ℚ) = 41943 / 4194304 by norm_num,
    roundF32_eq_of_near (41943 / 4194304) (-7) 10737408 (by norm_num) (by norm_num)
      (by norm_num) (by norm_num) (by norm_num)]
  norm_num

/-- The merge with the factor `0.3f` stays between its operands. -/
theorem merge_axis_between_damped (d n : ℤ) (hd : InInt16 d) (hn : InInt16 n) :
    min d n ≤ merge_axis d n (roundF32 (3 / 10)) ∧
    merge_axis d n (roundF32 (3 / 10)) ≤ max d n := by
  rw [roundF32_c03]
  exact merge_axis_between d n (5033165 / 16777216) (11744051 / 16777216) (by norm_num)
    (by norm_num) (by norm_num) roundF32_complement_c03 (Or.inl (by norm_num)) hd hn

/-- The merge with the factor `0.99f` stays between its operands. -/
theorem merge_axis_between_last (d n : ℤ) (hd : InInt16 d) (hn : InInt16 n) :
    min d n ≤ merge_axis d n (roundF32 (99 / 100)) ∧
    merge_axis d n (roundF32 (99 / 100)) ≤ max d n := by
  rw [roundF32_c099]
  exact merge_axis_between d n (4152361 / 4194304) (41943 / 4194304) (by norm_num)
    (by norm_num) (by norm_num) roundF32_complement_c099 (Or.inr (by norm_num)) hd hn

/-- A factor in `(0, 1)` with an exact complement, at most a third or at least two thirds,
has the value merged with itself as a fixed point. -/
theorem merge_axis_fixed_of_exact (x : ℤ) (f : ℚ) (hx : InInt16 x) (hf0 : 0 < f) (hf1 : f < 1)
    (hexact : roundF32 (1 - f) = 1 - f) (h3 : 3 * f ≤ 1 ∨ 2 ≤ 3 * f) :
    merge_axis x x f = x :=
  merge_axis_fixed x f (1 - f) hx hf0 (by linarith) (by ring) hexact
    (h3.elim (fun h => Or.inl (by linarith)) (fun h => Or.inr (by linarith)))

theorem merge_axis_fixed_damped (x : ℤ) (hx : InInt16 x) :
    merge_axis x x (roundF32 (3 / 10)) = x := by
  rw [roundF32_c03]
  exact merge_axis_fixed x (5033165 / 16777216) (11744051 / 16777216) hx (by norm_num)
    (by norm_num) (by norm_num) roundF32_complement_c03 (Or.inl (by norm_num))

theorem merge_axis_fixed_last (x : ℤ) (hx : InInt16 x) :
    merge_axis x x (roundF32 (99 / 100)) = x := by
  rw [roundF32_c099]
  exact merge_axis_fixed x (4152361 / 4194304) (41943 / 4194304) hx (by norm_num)
    (by norm_num) (by norm_num) roundF32_complement_c099 (Or.inr (by norm_num))

/-- For a factor in `[0, 1]` the value merged with itself stays or moves one unit toward
zero. -/
theorem merge_axis_self (x : ℤ) (f : ℚ) (hf0 : 0 ≤ f) (hf1 : f ≤ 1) (hx : InInt16 x) :
    merge_axis x x f = x ∨ (0 < x ∧ merge_axis x x f = x - 1) ∨
      (x < 0 ∧ merge_axis x x f = x + 1) := by
  obtain ⟨_, _, h1, h2⟩ := merge_axis_range x x f hf0 hf1 hx hx
  rw [min_self] at h1
  rw [max_self] at h2
  omega

/-! ## C14: the accelerometer merge -/

/-- C14. `merge_accel_data(dest, next, factor)` sets each axis of `dest` to the `int16_t`
cast of the binary32 value `next.axis * factor + (1 - factor) * dest.axis`, computed from
the old axis of `dest`, and copies `did_vibrate` and `timestamp` from `next`; for a factor
in `[0, 1]` and `int16_t` axes the cast is in range, so that the axis is the truncation
toward zero of that value.  `data_provider_handle_accel_data` (handlers that only observe)
merges the incoming sample into `last_accel_data` with the factor `0.99f` and, from the same
sample and independently of the first merge, into `damped_accel_data` with the factor
`0.3f`. -/
theorem merge_accel_data_spec (env : ℕ → World → World) (w : World)
    (dest next data : AccelData) (factor : ℚ) (k : ℕ) :
    ((merge_accel_data dest next factor).x = int16_of_float
        (f32_add (f32_mul (float_of_int next.x) factor)
          (f32_mul (f32_sub 1 factor) (float_of_int dest.x))) ∧
      (merge_accel_data dest next factor).y = int16_of_float
        (f32_add (f32_mul (float_of_int next.y) factor)
          (f32_mul (f32_sub 1 factor) (float_of_int dest.y))) ∧
      (merge_accel_data dest next factor).z = int16_of_float
        (f32_add (f32_mul (float_of_int next.z) factor)
          (f32_mul (f32_sub 1 factor) (float_of_int dest.z))) ∧
      (merge_accel_data dest next factor).did_vibrate = next.did_vibrate ∧
      (merge_accel_data dest next factor).timestamp = next.timestamp) ∧
    (0 ≤ factor → factor ≤ 1 → AccelInInt16 dest → AccelInInt16 next →
      (merge_accel_data dest next factor).x = truncate
        (f32_add (f32_mul (float_of_int next.x) factor)
          (f32_mul (f32_sub 1 factor) (float_of_int dest.x))) ∧
      (merge_accel_data dest next factor).y = truncate
        (f32_add (f32_mul (float_of_int next.y) factor)
          (f32_mul (f32_sub 1 factor) (float_of_int dest.y))) ∧
      (merge_accel_data dest next factor).z = truncate
        (f32_add (f32_mul (float_of_int next.z) factor)
          (f32_mul (f32_sub 1 factor) (float_of_int dest.z))) ∧
      AccelInInt16 (merge_accel_data dest next factor)) ∧
    (Observer env →
      (data_provider_handle_accel_data env w data k).state.last_accel_data =
        merge_accel_data w.state.last_accel_data data (roundF32 (99 / 100)) ∧
      (data_provider_handle_accel_data env w data k).state.damped_accel_data =
        merge_accel_data w.state.damped_accel_data data (roundF32 (3 / 10))) := by
  refine ⟨⟨rfl, rfl, rfl, rfl, rfl⟩, fun h0 h1 hd hn => ?_, fun hobs => ?_⟩
  · have hx := merge_axis_range dest.x next.x factor h0 h1 hd.1 hn.1
    have hy := merge_axis_range dest.y next.y factor h0 h1 hd.2.1 hn.2.1
    have hz := merge_axis_range dest.z next.z factor h0 h1 hd.2.2 hn.2.2
    exact ⟨hx.1, hy.1, hz.1, hx.2.1, hy.2.1, hz.2.1⟩
  · have h := handle_accel_data_filters env hobs w data k
    exact ⟨h.2, h.1⟩

/-- Witness of C14: the sample `(-2667, 0, 1000)` merged into a fresh engine. -/
theorem merge_accel_data_spec_witness :
    Observer (fun _ v => v) ∧ (0 : ℚ) ≤ roundF32 (3 / 10) ∧ roundF32 (3 / 10) ≤ 1 ∧
    AccelInInt16 ⟨0, 0, 0, false, 0⟩ ∧ AccelInInt16 ⟨-2667, 0, 1000, true, 5⟩ ∧
    (merge_accel_data ⟨0, 0, 0, false, 0⟩ ⟨-2667, 0, 1000, true, 5⟩ (roundF32 (3 / 10))).x =
      truncate (f32_add (f32_mul (float_of_int (-2667)) (roundF32 (3 / 10)))
        (f32_mul (f32_sub 1 (roundF32 (3 / 10))) (float_of_int 0))) ∧
    (data_provider_handle_accel_data (fun _ v => v) World.rest
      ⟨-2667, 0, 1000, true, 5⟩ 1).state.damped_accel_data =
      merge_accel_data World.rest.state.damped_accel_data ⟨-2667, 0, 1000, true, 5⟩
        (roundF32 (3 / 10)) :=
  ⟨observer_id, roundF32_nonneg (by norm_num), roundF32_le_one (by norm_num),
    ⟨by decide, by decide, by decide⟩, ⟨by decide, by decide, by decide⟩,
    ((merge_accel_data_spec (fun _ v => v) World.rest ⟨0, 0, 0, false, 0⟩
      ⟨-2667, 0, 1000, true, 5⟩ ⟨-2667, 0, 1000, true, 5⟩ (roundF32 (3 / 10)) 1).2.1
      (roundF32_nonneg (by norm_num)) (roundF32_le_one (by norm_num))
      ⟨by decide, by decide, by decide⟩ ⟨by decide, by decide, by decide⟩).1,
    ((merge_accel_data_spec (fun _ v => v) World.rest ⟨0, 0, 0, false, 0⟩
      ⟨-2667, 0, 1000, true, 5⟩ ⟨-2667, 0, 1000, true, 5⟩ (roundF32 (3 / 10)) 1).2.2
      observer_id).2⟩

/-! ## C18: the range of the merged axis -/

/-- Counterexample to C18 as stated: with the factor `0.0001f`, which lies in `[0, 1]`, the
value 6227 merged with the sample 6228 becomes 6226, below both operands. -/
theorem merge_not_between :
    InInt16 6227 ∧ InInt16 6228 ∧
    (0 : ℚ) ≤ roundF32 (1 / 10000) ∧ roundF32 (1 / 10000) ≤ 1 ∧
    merge_axis 6227 6228 (roundF32 (1 / 10000)) = 6226 ∧
    ¬ (min (6227 : ℤ) 6228 ≤ merge_axis 6227 6228 (roundF32 (1 / 10000))) := by
  refine ⟨by decide, by decide, roundF32_nonneg (by norm_num), roundF32_le_one (by norm_num),
    merge_axis_undershoot, ?_⟩
  rw [merge_axis_undershoot]
  decide

/-- C18, as amended.  For every factor in `[0, 1]` and every pair of `int16_t` axis values the
cast back to `int16_t` in `merge_accel_data` does not overflow, and the merged axis lies
between `min(dest, next)` and `max(dest, next)` inclusive or is the neighbour of that
interval on the side of zero (`min - 1` when `min > 0`, `max + 1` when `max < 0`): the
binary32 sum can fall just short of the interval before it is truncated.  For the factors
`0.3f` and `0.99f` that `data_provider_handle_accel_data` passes the merged axis lies between
`min(dest, next)` and `max(dest, next)` inclusive. -/
theorem merge_axis_bounds (d n : ℤ) (f : ℚ) (hd : InInt16 d) (hn : InInt16 n) :
    (0 ≤ f → f ≤ 1 →
      InInt16 (truncate
        (f32_add (f32_mul (float_of_int n) f) (f32_mul (f32_sub 1 f) (float_of_int d)))) ∧
      merge_axis d n f = truncate
        (f32_add (f32_mul (float_of_int n) f) (f32_mul (f32_sub 1 f) (float_of_int d))) ∧
      (min d n ≤ merge_axis d n f ∨ (0 < min d n ∧ merge_axis d n f = min d n - 1)) ∧
      (merge_axis d n f ≤ max d n ∨ (max d n < 0 ∧ merge_axis d n f = max d n + 1))) ∧
    (min d n ≤ merge_axis d n (roundF32 (3 / 10)) ∧
      merge_axis d n (roundF32 (3 / 10)) ≤ max d n) ∧
    (min d n ≤ merge_axis d n (roundF32 (99 / 100)) ∧
      merge_axis d n (roundF32 (99 / 100)) ≤ max d n) := by
  refine ⟨fun h0 h1 => ?_, merge_axis_between_damped d n hd hn,
    merge_axis_between_last d n hd hn⟩
  obtain ⟨h2, h3, h4, h5⟩ := merge_axis_range d n f h0 h1 hd hn
  refine ⟨?_, h2, h4, h5⟩
  rw [← h2]
  exact h3

/-- Witness of C18: the sample `-2667` merged into the value 0 with the factor `0.3f`. -/
theorem merge_axis_bounds_witness :
    InInt16 0 ∧ InInt16 (-2667) ∧ (0 : ℚ) ≤ roundF32 (3 / 10) ∧ roundF32 (3 / 10) ≤ 1 ∧
    InInt16 (truncate
      (f32_add (f32_mul (float_of_int (-2667)) (roundF32 (3 / 10)))
        (f32_mul (f32_sub 1 (roundF32 (3 / 10))) (float_of_int 0)))) ∧
    min (0 : ℤ) (-2667) ≤ merge_axis 0 (-2667) (roundF32 (3 / 10)) ∧
    merge_axis 0 (-2667) (roundF32 (3 / 10)) ≤ max (0 : ℤ) (-2667) :=
  ⟨by decide, by decide, roundF32_nonneg (by norm_num), roundF32_le_one (by norm_num),
    ((merge_axis_bounds 0 (-2667) (roundF32 (3 / 10)) (by decide) (by decide)).1
      (roundF32_nonneg (by norm_num)) (roundF32_le_one (by norm_num))).1,
    (merge_axis_bounds 0 (-2667) (roundF32 (3 / 10)) (by decide) (by decide)).2.1.1,
    (merge_axis_bounds 0 (-2667) (roundF32 (3 / 10)) (by decide) (by decide)).2.1.2⟩

/-! ## C20: a sample equal to the smoothed value -/

/-- Counterexample to C20 as stated: with the factor `0.1f` the sample `(7, 7, 7)` merged
into the equal value `(7, 7, 7)` gives `(6, 6, 6)`. -/
theorem merge_not_fixed :
    (0 : ℚ) ≤ roundF32 (1 / 10) ∧ roundF32 (1 / 10) ≤ 1 ∧
    AccelInInt16 ⟨7, 7, 7, false, 0⟩ ∧
    (merge_accel_data ⟨7, 7, 7, false, 0⟩ ⟨7, 7, 7, false, 0⟩ (roundF32 (1 / 10))).x = 6 ∧
    (merge_accel_data ⟨7, 7, 7, false, 0⟩ ⟨7, 7, 7, false, 0⟩ (roundF32 (1 / 10))).y = 6 ∧
    (merge_accel_data ⟨7, 7, 7, false, 0⟩ ⟨7, 7, 7, false, 0⟩ (roundF32 (1 / 10))).z = 6 ∧
    (merge_accel_data ⟨7, 7, 7, false, 0⟩ ⟨7, 7, 7, false, 0⟩ (roundF32 (1 / 10))).x ≠
      (⟨7, 7, 7, false, 0⟩ : AccelData).x := by
  have h : (merge_accel_data ⟨7, 7, 7, false, 0⟩ ⟨7, 7, 7, false, 0⟩
      (roundF32 (1 / 10))).x = 6 := merge_axis_drift
  refine ⟨roundF32_nonneg (by norm_num), roundF32_le_one (by norm_num),
    ⟨by decide, by decide, by decide⟩, h, merge_axis_drift, merge_axis_drift, ?_⟩
  rw [h]
  decide

/-- C20, as amended.  A sample equal to the current smoothed value is a fixed point of the
accelerometer merge for the two factors the engine passes, `0.3f` and `0.99f`, and every
`dest` with `int16_t` axes: the three axes of `dest` are left unchanged; the same holds for
every factor `f` in `(0, 1)` whose complement `1 - f` is a binary32 value and with
`f ≤ 1/3` or `f ≥ 2/3`.  For every other factor in `[0, 1]` each axis is left unchanged or
moved by one unit toward zero. -/
theorem merge_accel_data_fixed (dest next : AccelData) (hd : AccelInInt16 dest)
    (hx : next.x = dest.x) (hy : next.y = dest.y) (hz : next.z = dest.z) :
    ((merge_accel_data dest next (roundF32 (3 / 10))).x = dest.x ∧
      (merge_accel_data dest next (roundF32 (3 / 10))).y = dest.y ∧
      (merge_accel_data dest next (roundF32 (3 / 10))).z = dest.z) ∧
    ((merge_accel_data dest next (roundF32 (99 / 100))).x = dest.x ∧
      (merge_accel_data dest next (roundF32 (99 / 100))).y = dest.y ∧
      (merge_accel_data dest next (roundF32 (99 / 100))).z = dest.z) ∧
    (∀ f : ℚ, 0 < f → f < 1 → roundF32 (1 - f) = 1 - f → (3 * f ≤ 1 ∨ 2 ≤ 3 * f) →
      (merge_accel_data dest next f).x = dest.x ∧
      (merge_accel_data dest next f).y = dest.y ∧
      (merge_accel_data dest next f).z = dest.z) ∧
    (∀ f : ℚ, 0 ≤ f → f ≤ 1 →
      ((merge_accel_data dest next f).x = dest.x ∨
        (0 < dest.x ∧ (merge_accel_data dest next f).x = dest.x - 1) ∨
        (dest.x < 0 ∧ (merge_accel_data dest next f).x = dest.x + 1)) ∧
      ((merge_accel_data dest next f).y = dest.y ∨
        (0 < dest.y ∧ (merge_accel_data dest next f).y = dest.y - 1) ∨
        (dest.y < 0 ∧ (merge_accel_data dest next f).y = dest.y + 1)) ∧
      ((merge_accel_data dest next f).z = dest.z ∨
        (0 < dest.z ∧ (merge_accel_data dest next f).z = dest.z - 1) ∨
        (dest.z < 0 ∧ (merge_accel_data dest next f).z = dest.z + 1))) := by
  have ex : ∀ f, (merge_accel_data dest next f).x = merge_axis dest.x dest.x f := by
    intro f; show merge_axis dest.x next.x f = _; rw [hx]
  have ey : ∀ f, (merge_accel_data dest next f).y = merge_axis dest.y dest.y f := by
    intro f; show merge_axis dest.y next.y f = _; rw [hy]
  have ez : ∀ f, (merge_accel_data dest next f).z = merge_axis dest.z dest.z f := by
    intro f; show merge_axis dest.z next.z f = _; rw [hz]
  simp only [ex, ey, ez]
  obtain ⟨h1, h2, h3⟩ := hd
  exact ⟨⟨merge_axis_fixed_damped _ h1, merge_axis_fixed_damped _ h2,
      merge_axis_fixed_damped _ h3⟩,
    ⟨merge_axis_fixed_last _ h1, merge_axis_fixed_last _ h2, merge_axis_fixed_last _ h3⟩,
    fun f h0 hf1 he ht => ⟨merge_axis_fixed_of_exact _ f h1 h0 hf1 he ht,
      merge_axis_fixed_of_exact _ f h2 h0 hf1 he ht,
      merge_axis_fixed_of_exact _ f h3 h0 hf1 he ht⟩,
    fun f h0 hf1 => ⟨merge_axis_self _ f h0 hf1 h1, merge_axis_self _ f h0 hf1 h2,
      merge_axis_self _ f h0 hf1 h3⟩⟩

/-- Witness of C20: the value `(-800, 1000, 32767)` is kept by both filters of the engine
under an equal sample. -/
theorem merge_accel_data_fixed_witness :
    AccelInInt16 ⟨-800, 1000, 32767, false, 0⟩ ∧
    (merge_accel_data ⟨-800, 1000, 32767, false, 0⟩ ⟨-800, 1000, 32767, true, 9⟩
      (roundF32 (3 / 10))).x = -800 ∧
    (merge_accel_data ⟨-800, 1000, 32767, false, 0⟩ ⟨-800, 1000, 32767, true, 9⟩
      (roundF32 (99 / 100))).z = 32767 :=
  ⟨⟨by decide, by decide, by decide⟩,
    (merge_accel_data_fixed ⟨-800, 1000, 32767, false, 0⟩ ⟨-800, 1000, 32767, true, 9⟩
      ⟨by decide, by decide, by decide⟩ rfl rfl rfl).1.1,
    (merge_accel_data_fixed ⟨-800, 1000, 32767, false, 0⟩ ⟨-800, 1000, 32767, true, 9⟩
      ⟨by decide, by decide, by decide⟩ rfl rfl rfl).2.1.2.2⟩

end Compass
